import Mathlib

/-!
# Verification of the stormlab simulation engine

A shallow embedding of the stormlab stormwater engine
(`packages/engine/src`) in Lean 4, together with proofs and refutations of
the specified properties.

Numbers are modelled as exact rationals (`ℚ`).  The JavaScript floating
point transcendental primitives (`Math.sqrt`, `Math.pow` with fractional
exponents, `Math.tan`, `Math.acos`, `Math.sin`, `Math.PI`) have no exact
rational counterpart; they are collected in a `Prims` record that the
hydraulic definitions take as a parameter.  Theorems that depend on
properties of those primitives (e.g. monotonicity of `sqrt`, which holds
for the correctly rounded IEEE-754 functions) state them as explicit
hypotheses on the record.
-/

namespace Stormlab

/-- Decidable equality for `Except`, used to evaluate the embedded
functions on concrete inputs. -/
instance exceptDecEq {ε α : Type} [DecidableEq ε] [DecidableEq α] :
    DecidableEq (Except ε α) := fun a b =>
  match a, b with
  | .error e1, .error e2 =>
    if h : e1 = e2 then .isTrue (by rw [h])
    else .isFalse (by intro hh; cases hh; exact h rfl)
  | .ok v1, .ok v2 =>
    if h : v1 = v2 then .isTrue (by rw [h])
    else .isFalse (by intro hh; cases hh; exact h rfl)
  | .error _, .ok _ => .isFalse (by intro hh; cases hh)
  | .ok _, .error _ => .isFalse (by intro hh; cases hh)

/-- A hydrograph sample: `(time, flow)` in hours and cfs
(`HydrographPoint` of `unit-hydrograph.ts`). -/
structure HydrographPoint where
  time : ℚ
  flow : ℚ
  deriving Repr, DecidableEq

/-- The floating point transcendental primitives used by the engine.
Each field stands for the corresponding JavaScript function; e.g.
`pow15 x` models `Math.pow(x, 1.5)` and `tanHalfDeg θ` models
`Math.tan(((θ / 2) * Math.PI) / 180)`. -/
structure Prims where
  sqrt : ℚ → ℚ
  pow05 : ℚ → ℚ
  pow15 : ℚ → ℚ
  pow25 : ℚ → ℚ
  pow23 : ℚ → ℚ
  pow08 : ℚ → ℚ
  pow04 : ℚ → ℚ
  tanHalfDeg : ℚ → ℚ
  acos : ℚ → ℚ
  sin : ℚ → ℚ
  piVal : ℚ

/-- A concrete instantiation of the primitives, used for closed
evaluations whose execution path only touches arguments on which the
chosen functions agree with the real JavaScript ones (each use site
states which values are touched). -/
def idPrims : Prims :=
  { sqrt := id, pow05 := id, pow15 := id, pow25 := id, pow23 := id
    pow08 := id, pow04 := id, tanHalfDeg := id, acos := id, sin := id
    piVal := 3 }

/-! ## SCS runoff (`hydrology/runoff.ts`) -/

/-- Result record of `calculateRunoff`. -/
structure RunoffResult where
  runoffDepth : ℚ
  potentialRetention : ℚ
  initialAbstraction : ℚ
  deriving Repr, DecidableEq

/-- `calculateRunoff(rainfall, cn, iaRatio)` from `runoff.ts`:
`S = 1000/CN - 10`, `Ia = λ·S`, `Q = 0` if `P ≤ Ia` else
`(P-Ia)²/(P-Ia+S)`; throws when `CN ∉ (0,100]` or `P < 0`. -/
def calculateRunoff (rainfall cn iaRatio : ℚ) : Except String RunoffResult :=
  if cn ≤ 0 ∨ cn > 100 then .error "CN must be between 0 and 100"
  else if rainfall < 0 then .error "Rainfall must be non-negative"
  else
    let S : ℚ := 1000 / cn - 10
    let Ia : ℚ := iaRatio * S
    let Q : ℚ :=
      if rainfall > Ia then (rainfall - Ia) ^ 2 / (rainfall - Ia + S) else 0
    .ok ⟨Q, S, Ia⟩

/-! ## Hydrograph algebra (`model/system-router.ts`) -/

/-- Auxiliary scan of `interpolateFlow`: walk adjacent samples looking for
the first bracketing interval (the `for` loop of the source, starting at
index 1); falling off the end returns 0 as in the source. -/
def interpFlowScan (prev : HydrographPoint) (rest : List HydrographPoint)
    (time : ℚ) : ℚ :=
  match rest with
  | [] => 0
  | q :: qs =>
    if time ≤ q.time then
      let frac := (time - prev.time) / (q.time - prev.time)
      prev.flow + frac * (q.flow - prev.flow)
    else interpFlowScan q qs time

/-- `interpolateFlow(hg, time)` from `system-router.ts`: 0 on an empty
hydrograph, clamp to the first sample's flow for `time ≤` first time,
clamp to the last sample's flow for `time ≥` last time, otherwise linear
interpolation between the bracketing samples. -/
def interpolateFlow : List HydrographPoint → ℚ → ℚ
  | [], _ => 0
  | p :: rest, time =>
    if time ≤ p.time then p.flow
    else if time ≥ ((p :: rest).getLast (by simp)).time then
      ((p :: rest).getLast (by simp)).flow
    else interpFlowScan p rest time

/-- Sorted deduplicated union of all sample times
(`Array.from(allTimes).sort(...)` over a `Set` in `sumHydrographs`). -/
def unionTimes (hydrographs : List (List HydrographPoint)) : List ℚ :=
  (hydrographs.flatMap (fun hg => hg.map (·.time))).dedup.mergeSort (· ≤ ·)

/-- `sumHydrographs` from `system-router.ts`: empty list ↦ `[]`, a single
hydrograph is returned as-is, otherwise interpolate every hydrograph at
every time in the union of sample times and sum. -/
def sumHydrographs : List (List HydrographPoint) → List HydrographPoint
  | [] => []
  | [hg] => hg
  | hydrographs =>
    (unionTimes hydrographs).map fun t =>
      ⟨t, hydrographs.foldl (fun flow hg => flow + interpolateFlow hg t) 0⟩

/-! ## Outlet structures (`hydraulics/outlet-structures.ts`) -/

/-- `broadCrestedWeirDischarge`: `Q = C·L·H^1.5`, 0 for `H ≤ 0`. -/
def broadCrestedWeirDischarge (p : Prims) (coefficient length head : ℚ) : ℚ :=
  if head ≤ 0 then 0 else coefficient * length * p.pow15 head

/-- `sharpCrestedWeirDischarge`: same form as the broad-crested weir. -/
def sharpCrestedWeirDischarge (p : Prims) (coefficient length head : ℚ) : ℚ :=
  if head ≤ 0 then 0 else coefficient * length * p.pow15 head

/-- `vNotchWeirDischarge`: `Q = C·tan(θ/2)·H^2.5`, 0 for `H ≤ 0`. -/
def vNotchWeirDischarge (p : Prims) (coefficient angle head : ℚ) : ℚ :=
  if head ≤ 0 then 0 else coefficient * p.tanHalfDeg angle * p.pow25 head

/-- `orificeDischarge`: `Q = C·A·√(2gH)` with `g = 32.174`, 0 for `H ≤ 0`. -/
def orificeDischarge (p : Prims) (coefficient area head : ℚ) : ℚ :=
  if head ≤ 0 then 0
  else coefficient * area * p.sqrt (2 * (16087 / 500) * head)

/-- `circularOrificeDischarge`: area `πD²/4`, then `orificeDischarge`. -/
def circularOrificeDischarge (p : Prims) (coefficient diameter head : ℚ) : ℚ :=
  orificeDischarge p coefficient (p.piVal * diameter * diameter / 4) head

/-- Weir subtype tag. -/
inductive WeirSubtype | broadCrested | sharpCrested
  deriving Repr, DecidableEq

/-- The `OutletStructure` tagged union. -/
inductive OutletStructure
  | weir (subtype : WeirSubtype) (coefficient length crestElevation : ℚ)
  | vnotchWeir (coefficient angle crestElevation : ℚ)
  | orifice (coefficient diameter centerElevation : ℚ)
  deriving Repr, DecidableEq

/-- `outletDischarge(outlet, WSE)`: dispatch on the tag. -/
def outletDischarge (p : Prims) (outlet : OutletStructure)
    (waterSurfaceElevation : ℚ) : ℚ :=
  match outlet with
  | .weir subtype coefficient length crestElevation =>
    let head := waterSurfaceElevation - crestElevation
    match subtype with
    | .broadCrested => broadCrestedWeirDischarge p coefficient length head
    | .sharpCrested => sharpCrestedWeirDischarge p coefficient length head
  | .vnotchWeir coefficient angle crestElevation =>
    vNotchWeirDischarge p coefficient angle
      (waterSurfaceElevation - crestElevation)
  | .orifice coefficient diameter centerElevation =>
    circularOrificeDischarge p coefficient diameter
      (waterSurfaceElevation - centerElevation)

/-- `compositeOutletDischarge(outlets, WSE)`: `reduce` with `+` from 0. -/
def compositeOutletDischarge (p : Prims) (outlets : List OutletStructure)
    (waterSurfaceElevation : ℚ) : ℚ :=
  outlets.foldl (fun total outlet =>
    total + outletDischarge p outlet waterSurfaceElevation) 0

/-- The crest (or centre) elevation of a device, so "head ≤ 0" can be
phrased uniformly. -/
def OutletStructure.referenceElevation : OutletStructure → ℚ
  | .weir _ _ _ crestElevation => crestElevation
  | .vnotchWeir _ _ crestElevation => crestElevation
  | .orifice _ _ centerElevation => centerElevation

/-! ## Stage–storage (`hydraulics/stage-storage.ts`) -/

/-- A `(stage, storage)` point of a stage–storage curve. -/
structure StageStoragePoint where
  stage : ℚ
  storage : ℚ
  deriving Repr, DecidableEq

/-- Bracketing scan of `interpolateStorage` (the `for` loop from index 1);
falling off the end returns the last storage as in the source. -/
def storageScan (prev : StageStoragePoint) (rest : List StageStoragePoint)
    (stage : ℚ) : ℚ :=
  match rest with
  | [] => prev.storage
  | q :: qs =>
    if stage ≤ q.stage then
      prev.storage +
        (stage - prev.stage) / (q.stage - prev.stage) *
          (q.storage - prev.storage)
    else storageScan q qs stage

/-- `interpolateStorage(curve, stage)`: clamp at the curve endpoints,
piecewise linear in between.  (The source indexes `curve[0]` without an
emptiness check and would crash on `[]`; callers always pass a curve with
at least two points, and the empty case here returns 0.) -/
def interpolateStorage : List StageStoragePoint → ℚ → ℚ
  | [], _ => 0
  | c :: rest, stage =>
    if stage ≤ c.stage then c.storage
    else if stage ≥ ((c :: rest).getLast (by simp)).stage then
      ((c :: rest).getLast (by simp)).storage
    else storageScan c rest stage

/-! ## Pond routing (`hydraulics/pond-routing.ts`) -/

/-- A row of the precomputed storage-indication table. -/
structure SIRow where
  indicator : ℚ
  outflow : ℚ
  stage : ℚ
  storage : ℚ
  deriving Repr, DecidableEq

/-- The `(outflow, stage, storage)` triple returned by the table lookup. -/
structure SIValue where
  outflow : ℚ
  stage : ℚ
  storage : ℚ
  deriving Repr, DecidableEq

/-- `buildStorageIndicationCurve(stageStorage, outlets, dt)` with the
default `nPoints = 200` (the only call site uses the default): tabulate
`I(stage) = 2·storage/(dt·3600) + outflow` at 201 evenly spaced stages. -/
def buildStorageIndicationCurve (p : Prims)
    (stageStorage : List StageStoragePoint) (outlets : List OutletStructure)
    (dt : ℚ) : List SIRow :=
  let minStage := (stageStorage.headD ⟨0, 0⟩).stage
  let maxStage := (stageStorage.getLastD ⟨0, 0⟩).stage
  (List.range 201).map fun (i : ℕ) =>
    let stage := minStage + (maxStage - minStage) * (i : ℚ) / 200
    let storage := interpolateStorage stageStorage stage
    let outflow := compositeOutletDischarge p outlets stage
    ⟨2 * storage / (dt * 3600) + outflow, outflow, stage, storage⟩

/-- Bracketing scan of `interpolateFromSICurve` (`for` loop from index 1);
falling off the end returns the last row as in the source. -/
def siScan (prev : SIRow) (rest : List SIRow) (v : ℚ) : SIValue :=
  match rest with
  | [] => ⟨prev.outflow, prev.stage, prev.storage⟩
  | q :: qs =>
    if v ≤ q.indicator then
      let frac := (v - prev.indicator) / (q.indicator - prev.indicator)
      ⟨prev.outflow + frac * (q.outflow - prev.outflow),
       prev.stage + frac * (q.stage - prev.stage),
       prev.storage + frac * (q.storage - prev.storage)⟩
    else siScan q qs v

/-- `interpolateFromSICurve(curve, indicatorValue)`: clamp at the first
and last rows, otherwise interpolate in the bracketing interval.  (The
source would crash on an empty table, which `buildStorageIndicationCurve`
never produces; the empty case here returns zeros.) -/
def interpolateFromSICurve : List SIRow → ℚ → SIValue
  | [], _ => ⟨0, 0, 0⟩
  | r :: rest, indicatorValue =>
    if indicatorValue ≤ r.indicator then ⟨r.outflow, r.stage, r.storage⟩
    else if indicatorValue ≥ ((r :: rest).getLast (by simp)).indicator then
      let l := (r :: rest).getLast (by simp)
      ⟨l.outflow, l.stage, l.storage⟩
    else siScan r rest indicatorValue

/-- `PondRoutingInput` of `pond-routing.ts`; `inflow` entries are
`[time_hours, flow_cfs]` pairs. -/
structure PondRoutingInput where
  inflow : List (ℚ × ℚ)
  stageStorage : List StageStoragePoint
  outlets : List OutletStructure
  initialWSE : ℚ

/-- One entry of the routed time series. -/
structure PondTimeSeriesEntry where
  time : ℚ
  inflow : ℚ
  outflow : ℚ
  stage : ℚ
  storage : ℚ
  deriving Repr, DecidableEq

/-- `PondRoutingResult` of `pond-routing.ts`. -/
structure PondRoutingResult where
  timeSeries : List PondTimeSeriesEntry
  peakInflow : ℚ
  peakOutflow : ℚ
  peakStage : ℚ
  peakStorage : ℚ
  timeToPeakOutflow : ℚ
  deriving Repr, DecidableEq

/-- The mutable state of `routePond`'s main loop. -/
structure PondState where
  outflow : ℚ
  storage : ℚ
  timeSeries : List PondTimeSeriesEntry
  peakInflow : ℚ
  peakOutflow : ℚ
  peakStage : ℚ
  peakStorage : ℚ
  timeToPeakOutflow : ℚ

/-- The `for (let i = 1; ...)` loop of `routePond`, one recursive call per
inflow interval; `prev` is `inflow[i-1]` and `rest` the samples from `i`
on. -/
def routePondLoop (siCurve : List SIRow) (dt : ℚ) (st : PondState)
    (prev : ℚ × ℚ) (rest : List (ℚ × ℚ)) : PondState :=
  match rest with
  | [] => st
  | cur :: more =>
    let I1 := prev.2
    let I2 := cur.2
    let leftSide := I1 + I2 + (2 * st.storage / (dt * 3600) - st.outflow)
    let r := interpolateFromSICurve siCurve leftSide
    let st' : PondState :=
      { outflow := r.outflow
        storage := r.storage
        timeSeries := st.timeSeries ++ [⟨cur.1, I2, r.outflow, r.stage, r.storage⟩]
        peakInflow := if I2 > st.peakInflow then I2 else st.peakInflow
        peakOutflow := if r.outflow > st.peakOutflow then r.outflow else st.peakOutflow
        timeToPeakOutflow :=
          if r.outflow > st.peakOutflow then cur.1 else st.timeToPeakOutflow
        peakStage := if r.stage > st.peakStage then r.stage else st.peakStage
        peakStorage := if r.storage > st.peakStorage then r.storage else st.peakStorage }
    routePondLoop siCurve dt st' cur more

/-- `routePond(input)`: Modified Puls storage-indication routing.  Throws
when the inflow has fewer than 2 samples; `dt` is the gap between the
first two samples; the initial condition is stored at `inflow[0].time`
(note `peakInflow` starts from `inflow[0]` while `peakOutflow` starts
from 0 and is only updated inside the loop). -/
def routePond (p : Prims) (input : PondRoutingInput) :
    Except String PondRoutingResult :=
  match input.inflow with
  | [] => .error "Inflow must have at least 2 points"
  | [_] => .error "Inflow must have at least 2 points"
  | a :: b :: rest =>
    let dt := b.1 - a.1
    let siCurve := buildStorageIndicationCurve p input.stageStorage input.outlets dt
    let storage0 := interpolateStorage input.stageStorage input.initialWSE
    let outflow0 := compositeOutletDischarge p input.outlets input.initialWSE
    let st0 : PondState :=
      { outflow := outflow0
        storage := storage0
        timeSeries := [⟨a.1, a.2, outflow0, input.initialWSE, storage0⟩]
        peakInflow := a.2
        peakOutflow := 0
        peakStage := input.initialWSE
        peakStorage := storage0
        timeToPeakOutflow := 0 }
    let fin := routePondLoop siCurve dt st0 a (b :: rest)
    .ok ⟨fin.timeSeries, fin.peakInflow, fin.peakOutflow, fin.peakStage,
         fin.peakStorage, fin.timeToPeakOutflow⟩

/-! ## Reach routing (`model/reach-routing.ts`) -/

/-- The channel cross-section variants. -/
inductive ChannelShape
  | rectangular (width : ℚ)
  | trapezoidal (bottomWidth sideSlope : ℚ)
  | circular (diameter : ℚ)
  deriving Repr, DecidableEq

/-- `channelGeometry(shape, depth)`: `(area, wettedPerimeter)`. -/
def channelGeometry (p : Prims) (shape : ChannelShape) (depth : ℚ) : ℚ × ℚ :=
  match shape with
  | .rectangular width => (width * depth, width + 2 * depth)
  | .trapezoidal bottomWidth sideSlope =>
    let topWidth := bottomWidth + 2 * sideSlope * depth
    let area := (bottomWidth + topWidth) / 2 * depth
    let sideLength := p.sqrt (depth * depth + (sideSlope * depth) ^ 2)
    (area, bottomWidth + 2 * sideLength)
  | .circular diameter =>
    let r := diameter / 2
    if depth ≥ diameter then (p.piVal * r * r, p.piVal * diameter)
    else
      let theta := 2 * p.acos ((r - depth) / r)
      (r * r * (theta - p.sin theta) / 2, r * theta)

/-- `manningsFlow(shape, depth, n, slope)`:
`Q = (1.49/n)·A·R^(2/3)·slope^0.5`, 0 for non-positive depth/area/wp. -/
def manningsFlow (p : Prims) (shape : ChannelShape) (depth n slope : ℚ) : ℚ :=
  if depth ≤ 0 then 0
  else
    let g := channelGeometry p shape depth
    if g.1 ≤ 0 ∨ g.2 ≤ 0 then 0
    else 149 / 100 / n * g.1 * p.pow23 (g.1 / g.2) * p.pow05 slope

/-- The bisection of `normalDepth`, counting down at most 100 iterations
(source: `for (let iter = 0; iter < 100; iter++)`, tolerance 0.001). -/
def bisectDepth (p : Prims) (flow : ℚ) (shape : ChannelShape) (n slope : ℚ) :
    ℕ → ℚ → ℚ → ℚ
  | 0, lo, hi => (lo + hi) / 2
  | iter + 1, lo, hi =>
    let mid := (lo + hi) / 2
    let Q := manningsFlow p shape mid n slope
    if |Q - flow| < 1 / 1000 then mid
    else if Q < flow then bisectDepth p flow shape n slope iter mid hi
    else bisectDepth p flow shape n slope iter lo mid

/-- `normalDepth(flow, shape, n, slope)` with the default
`maxDepth = 50` (the only call site uses the default). -/
def normalDepth (p : Prims) (flow : ℚ) (shape : ChannelShape)
    (n slope : ℚ) : ℚ :=
  if flow ≤ 0 then 0 else bisectDepth p flow shape n slope 100 0 50

/-- JavaScript `Math.round`: round half toward `+∞`. -/
def jsRound (x : ℚ) : ℤ := ⌊x + 1 / 2⌋

/-- JavaScript `Math.max(...list)` on a non-empty list (callers guard
emptiness, which would give `-Infinity`). -/
def listMax : List ℚ → ℚ
  | [] => 0
  | x :: xs => xs.foldl max x

/-- `ReachRoutingInput` of `reach-routing.ts`. -/
structure ReachRoutingInput where
  length : ℚ
  manningsN : ℚ
  slope : ℚ
  shape : ChannelShape
  inflow : List HydrographPoint

/-- The result record of `routeReach`. -/
structure ReachRoutingResult where
  outflow : List HydrographPoint
  peakOutflow : ℚ
  timeToPeakOutflow : ℚ
  travelTime : ℚ
  deriving Repr, DecidableEq

/-- The translation loop of `routeReach`: writes `inflow[i]` at index
`i + lagSteps` when that index is in range, tracking the peak.  A
negative index would be a `TypeError` in the source (`outflow[outIdx]` is
`undefined`), modelled as an error. -/
def reachTranslateLoop (lagSteps : ℤ) :
    List HydrographPoint → ℕ → List HydrographPoint × ℚ × ℚ →
    Except String (List HydrographPoint × ℚ × ℚ)
  | [], _, st => .ok st
  | pt :: rest, i, (out, pk, tp) =>
    let outIdx : ℤ := (i : ℤ) + lagSteps
    if outIdx < (out.length : ℤ) then
      if 0 ≤ outIdx then
        let j := outIdx.toNat
        let t := (out.getD j ⟨0, 0⟩).time
        let out' := out.set j ⟨t, pt.flow⟩
        if pt.flow > pk then reachTranslateLoop lagSteps rest (i + 1) (out', pt.flow, t)
        else reachTranslateLoop lagSteps rest (i + 1) (out', pk, tp)
      else .error "negative outflow index"
    else reachTranslateLoop lagSteps rest (i + 1) (out, pk, tp)

/-- The travel time computed by `routeReach`: normal depth at 70% of the
peak inflow, then `length / velocity / 3600` (0 when the flow area is not
positive). -/
def reachTravelTime (p : Prims) (input : ReachRoutingInput) : ℚ :=
  let peakFlow := listMax (input.inflow.map (·.flow))
  let avgFlow := peakFlow * (7 / 10)
  let depth := normalDepth p avgFlow input.shape input.manningsN input.slope
  let g := channelGeometry p input.shape depth
  if g.1 > 0 then
    let velocity := avgFlow / g.1
    input.length / velocity / 3600
  else 0

/-- The lag (in whole samples) applied by `routeReach`:
`Math.round(travelTime / dt)` with `dt` the gap of the first two
samples. -/
def reachLagSteps (p : Prims) (input : ReachRoutingInput) : ℤ :=
  match input.inflow with
  | a :: b :: _ => jsRound (reachTravelTime p input / (b.time - a.time))
  | _ => 0

/-- `routeReach(input)`: kinematic translation by `lagSteps` whole
samples.  Throws when the inflow has fewer than 2 samples. -/
def routeReach (p : Prims) (input : ReachRoutingInput) :
    Except String ReachRoutingResult :=
  match input.inflow with
  | [] => .error "Inflow must have at least 2 points"
  | [_] => .error "Inflow must have at least 2 points"
  | a :: b :: rest =>
    let inflow := a :: b :: rest
    let travelTime := reachTravelTime p input
    let out0 : List HydrographPoint := inflow.map fun pt => ⟨pt.time, 0⟩
    let dt := b.time - a.time
    let lagSteps := jsRound (travelTime / dt)
    (reachTranslateLoop lagSteps inflow 0 (out0, 0, 0)).map fun st =>
      ⟨st.1, st.2.1, st.2.2, travelTime⟩

/-- The time of the first inflow sample attaining the maximum inflow —
the "time of peak inflow" the spec's pond invariant refers to. -/
def timeOfPeakInflow (inflow : List (ℚ × ℚ)) : ℚ :=
  ((inflow.find? (fun pr => pr.2 == listMax (inflow.map Prod.snd))).map
    Prod.fst).getD 0

/-- The peak/time-of-peak tracking performed by `reachTranslateLoop`,
abstracted over the (never-changing) list `T` of output sample times:
starting at output index `j`, fold the written points, updating the
running peak on a strict improvement. -/
def peakAux (T : List ℚ) : ℕ → List HydrographPoint → ℚ × ℚ → ℚ × ℚ
  | _, [], s => s
  | j, pt :: rest, s =>
    if pt.flow > s.1 then peakAux T (j + 1) rest (pt.flow, T.getD j 0)
    else peakAux T (j + 1) rest s

/-! ## Rainfall distributions (`hydrology/rainfall.ts`) -/

/-- SCS storm type. -/
inductive StormType | I | IA | II | III
  deriving Repr, DecidableEq

def TYPE_II_CUMULATIVE : List (ℚ × ℚ) :=
  [(0.0, 0.0), (0.5, 0.005), (1.0, 0.011), (1.5, 0.017), (2.0, 0.023), (2.5, 0.029), (3.0, 0.035), (3.5, 0.041), (4.0, 0.048), (4.5, 0.056), (5.0, 0.063), (5.5, 0.072), (6.0, 0.08), (6.5, 0.09), (7.0, 0.1), (7.5, 0.111), (8.0, 0.122), (8.5, 0.135), (9.0, 0.148), (9.5, 0.163), (10.0, 0.181), (10.5, 0.204), (11.0, 0.235), (11.5, 0.283), (12.0, 0.663), (12.5, 0.735), (13.0, 0.772), (13.5, 0.799), (14.0, 0.82), (14.5, 0.838), (15.0, 0.854), (15.5, 0.868), (16.0, 0.88), (16.5, 0.892), (17.0, 0.903), (17.5, 0.913), (18.0, 0.922), (18.5, 0.93), (19.0, 0.938), (19.5, 0.946), (20.0, 0.953), (20.5, 0.959), (21.0, 0.965), (21.5, 0.971), (22.0, 0.977), (22.5, 0.983), (23.0, 0.989), (23.5, 0.995), (24.0, 1.0)]

def TYPE_I_CUMULATIVE : List (ℚ × ℚ) :=
  [(0.0, 0.0), (0.5, 0.008), (1.0, 0.017), (1.5, 0.026), (2.0, 0.035), (2.5, 0.045), (3.0, 0.055), (3.5, 0.065), (4.0, 0.076), (4.5, 0.087), (5.0, 0.099), (5.5, 0.112), (6.0, 0.125), (6.5, 0.14), (7.0, 0.156), (7.5, 0.174), (8.0, 0.194), (8.5, 0.219), (9.0, 0.254), (9.5, 0.303), (10.0, 0.515), (10.5, 0.583), (11.0, 0.624), (11.5, 0.654), (12.0, 0.682), (12.5, 0.706), (13.0, 0.727), (13.5, 0.748), (14.0, 0.767), (14.5, 0.785), (15.0, 0.801), (15.5, 0.816), (16.0, 0.83), (16.5, 0.844), (17.0, 0.857), (17.5, 0.87), (18.0, 0.882), (18.5, 0.893), (19.0, 0.905), (19.5, 0.916), (20.0, 0.926), (20.5, 0.936), (21.0, 0.946), (21.5, 0.956), (22.0, 0.965), (22.5, 0.974), (23.0, 0.983), (23.5, 0.992), (24.0, 1.0)]

def TYPE_IA_CUMULATIVE : List (ℚ × ℚ) :=
  [(0.0, 0.0), (0.5, 0.01), (1.0, 0.022), (1.5, 0.036), (2.0, 0.051), (2.5, 0.067), (3.0, 0.083), (3.5, 0.099), (4.0, 0.116), (4.5, 0.135), (5.0, 0.156), (5.5, 0.179), (6.0, 0.204), (6.5, 0.233), (7.0, 0.268), (7.5, 0.31), (8.0, 0.515), (8.5, 0.583), (9.0, 0.624), (9.5, 0.654), (10.0, 0.682), (10.5, 0.706), (11.0, 0.727), (11.5, 0.748), (12.0, 0.767), (12.5, 0.785), (13.0, 0.801), (13.5, 0.816), (14.0, 0.83), (14.5, 0.844), (15.0, 0.857), (15.5, 0.87), (16.0, 0.882), (16.5, 0.893), (17.0, 0.905), (17.5, 0.916), (18.0, 0.926), (18.5, 0.936), (19.0, 0.946), (19.5, 0.956), (20.0, 0.965), (20.5, 0.974), (21.0, 0.983), (21.5, 0.992), (22.0, 0.997), (22.5, 0.998), (23.0, 0.999), (23.5, 1.0), (24.0, 1.0)]

def TYPE_III_CUMULATIVE : List (ℚ × ℚ) :=
  [(0.0, 0.0), (0.5, 0.005), (1.0, 0.01), (1.5, 0.015), (2.0, 0.02), (2.5, 0.026), (3.0, 0.032), (3.5, 0.037), (4.0, 0.043), (4.5, 0.05), (5.0, 0.057), (5.5, 0.065), (6.0, 0.072), (6.5, 0.081), (7.0, 0.089), (7.5, 0.1), (8.0, 0.111), (8.5, 0.125), (9.0, 0.14), (9.5, 0.16), (10.0, 0.185), (10.5, 0.217), (11.0, 0.26), (11.5, 0.298), (12.0, 0.5), (12.5, 0.702), (13.0, 0.751), (13.5, 0.785), (14.0, 0.811), (14.5, 0.83), (15.0, 0.848), (15.5, 0.867), (16.0, 0.886), (16.5, 0.895), (17.0, 0.904), (17.5, 0.913), (18.0, 0.922), (18.5, 0.93), (19.0, 0.938), (19.5, 0.946), (20.0, 0.953), (20.5, 0.959), (21.0, 0.965), (21.5, 0.971), (22.0, 0.977), (22.5, 0.983), (23.0, 0.989), (23.5, 0.995), (24.0, 1.0)]

/-- The `DISTRIBUTIONS` record keyed by storm type. -/
def DISTRIBUTIONS : StormType → List (ℚ × ℚ)
  | .I => TYPE_I_CUMULATIVE
  | .IA => TYPE_IA_CUMULATIVE
  | .II => TYPE_II_CUMULATIVE
  | .III => TYPE_III_CUMULATIVE

/-- Bracketing scan shared by `interpolateCumulative` and
`interpolateUH`: walk adjacent `(x, value)` pairs, interpolate in the
first interval whose right endpoint is `≥ x`, and return `dflt` when the
scan falls off the end (the two sources differ only in that default). -/
def pairScan (prev : ℚ × ℚ) (rest : List (ℚ × ℚ)) (x dflt : ℚ) : ℚ :=
  match rest with
  | [] => dflt
  | q :: qs =>
    if x ≤ q.1 then prev.2 + (x - prev.1) / (q.1 - prev.1) * (q.2 - prev.2)
    else pairScan q qs x dflt

/-- `interpolateCumulative(dist, time)`: clamp at the table endpoints,
linear interpolation in between. -/
def interpolateCumulative : List (ℚ × ℚ) → ℚ → ℚ
  | [], _ => 0
  | d :: rest, time =>
    if time ≤ d.1 then d.2
    else if time ≥ ((d :: rest).getLast (by simp)).1 then
      ((d :: rest).getLast (by simp)).2
    else pairScan d rest time ((d :: rest).getLast (by simp)).2

/-- `getCumulativeRainfall(stormType, totalDepth, time)`. -/
def getCumulativeRainfall (stormType : StormType) (totalDepth time : ℚ) : ℚ :=
  totalDepth * interpolateCumulative (DISTRIBUTIONS stormType) time

/-- The `for (let t = timeStep; t <= 24 + timeStep / 2; t += timeStep)`
loop of `getIncrementalRainfall`; `k` counts the iterations so that
`t = k * timeStep`, and `fuel` bounds the recursion (the loop stops once
`k * timeStep > 24 + timeStep / 2`, so `⌈24 / timeStep⌉ + 2` iterations
always suffice; see `incRainLoop_fuel_irrelevant`-style reasoning in the
theorems below). -/
def incRainLoop (stormType : StormType) (totalDepth timeStep : ℚ) :
    ℕ → ℕ → ℚ → List (ℚ × ℚ) → List (ℚ × ℚ)
  | 0, _, _, acc => acc
  | fuel + 1, k, prevCum, acc =>
    let t : ℚ := (k : ℚ) * timeStep
    if t ≤ 24 + timeStep / 2 then
      let time := min t 24
      let cum := getCumulativeRainfall stormType totalDepth time
      let acc2 := acc ++ [(time, cum - prevCum)]
      if time ≥ 24 then acc2
      else incRainLoop stormType totalDepth timeStep fuel (k + 1) cum acc2
    else acc

/-- `getIncrementalRainfall(stormType, totalDepth, timeStep)`: incremental
`[time, depth]` pairs; throws when the time step is not positive. -/
def getIncrementalRainfall (stormType : StormType) (totalDepth timeStep : ℚ) :
    Except String (List (ℚ × ℚ)) :=
  if timeStep ≤ 0 then .error "Time step must be positive"
  else .ok (incRainLoop stormType totalDepth timeStep
    ((Nat.ceil (24 / timeStep)) + 2) 1 0 [])

/-! ## Unit hydrograph (`hydrology/unit-hydrograph.ts`) -/

def SCS_UH_ORDINATES : List (ℚ × ℚ) :=
  [(0.0, 0.0), (0.1, 0.03), (0.2, 0.1), (0.3, 0.19), (0.4, 0.31), (0.5, 0.47), (0.6, 0.66), (0.7, 0.82), (0.8, 0.93), (0.9, 0.99), (1.0, 1.0), (1.1, 0.99), (1.2, 0.93), (1.3, 0.86), (1.4, 0.78), (1.5, 0.68), (1.6, 0.56), (1.7, 0.46), (1.8, 0.39), (1.9, 0.33), (2.0, 0.28), (2.2, 0.207), (2.4, 0.147), (2.6, 0.107), (2.8, 0.077), (3.0, 0.055), (3.2, 0.04), (3.4, 0.029), (3.6, 0.021), (3.8, 0.015), (4.0, 0.011), (4.5, 0.005), (5.0, 0.0)]

/-- `interpolateUH(tRatio)`: the dimensionless unit hydrograph, linearly
interpolated, 0 outside `(0, 5)`. -/
def interpolateUH (tRatio : ℚ) : ℚ :=
  if tRatio ≤ 0 then 0
  else if tRatio ≥ 5 then 0
  else
    match SCS_UH_ORDINATES with
    | [] => 0
    | d :: rest => pairScan d rest tRatio 0

/-- The result record of `generateHydrograph`. -/
structure HydrographResult where
  hydrograph : List HydrographPoint
  peakFlow : ℚ
  timeToPeak : ℚ
  totalVolume : ℚ
  deriving Repr, DecidableEq

/-- The excess-rainfall loop of `generateHydrograph` (`for i = 1..nSteps`):
cumulative runoff differences, propagating `calculateRunoff` errors.
`remaining` counts the steps still to do, `i` is the current index. -/
def excessLoop (stormType : StormType) (totalRainfall cn iaRatio dt : ℚ) :
    ℕ → ℕ → ℚ → List ℚ → Except String (List ℚ)
  | 0, _, _, acc => .ok acc
  | remaining + 1, i, prevCumExcess, acc =>
    let t := min ((i : ℚ) * dt) 24
    let cumRain := getCumulativeRainfall stormType totalRainfall t
    match calculateRunoff cumRain cn iaRatio with
    | .error e => .error e
    | .ok r =>
      excessLoop stormType totalRainfall cn iaRatio dt remaining (i + 1)
        r.runoffDepth (acc ++ [r.runoffDepth - prevCumExcess])

/-- `arr[idx] += v` on a list (in-bounds at every call site). -/
def addAt (arr : List ℚ) (idx : ℕ) (v : ℚ) : List ℚ :=
  arr.set idx (arr.getD idx 0 + v)

/-- Inner convolution loop: `flowValues[j + k] += excess[j] * uh[k]`. -/
def convInner (e : ℚ) : List ℚ → ℕ → List ℚ → List ℚ
  | [], _, arr => arr
  | u :: us, idx, arr => convInner e us (idx + 1) (addAt arr idx (e * u))

/-- Outer convolution loop over the excess increments (skipping
non-positive increments); `j` is the current excess index. -/
def convOuter : List ℚ → ℕ → List ℚ → List ℚ → List ℚ
  | [], _, _, arr => arr
  | e :: es, j, uh, arr =>
    if e ≤ 0 then convOuter es (j + 1) uh arr
    else convOuter es (j + 1) uh (convInner e uh j arr)

/-- The output-assembly loop of `generateHydrograph`: clamp each flow at
0, build the point list and track the peak and its time. -/
def hydAssemble (dt : ℚ) : List ℚ → ℕ → List HydrographPoint × ℚ × ℚ →
    List HydrographPoint × ℚ × ℚ
  | [], _, st => st
  | v :: vs, i, (pts, pk, tp) =>
    let time := (i : ℚ) * dt
    let flow := max 0 v
    let pts2 := pts ++ [⟨time, flow⟩]
    if flow > pk then hydAssemble dt vs (i + 1) (pts2, flow, time)
    else hydAssemble dt vs (i + 1) (pts2, pk, tp)

/-- Trapezoidal volume of a hydrograph in acre-feet
(`avgFlow * dt * (3600 / 43560)` per interval), shared by
`generateHydrograph` and the per-node volume loops of
`system-router.ts`. -/
def trapVolLoop : HydrographPoint → List HydrographPoint → ℚ → ℚ
  | _, [], acc => acc
  | prev, q :: qs, acc =>
    trapVolLoop q qs
      (acc + (q.flow + prev.flow) / 2 * (q.time - prev.time) * (3600 / 43560))

/-- Trapezoidal integration of a hydrograph (0 on fewer than 2 points). -/
def trapezoidVolume (pts : List HydrographPoint) : ℚ :=
  match pts with
  | [] => 0
  | p :: rest => trapVolLoop p rest 0

/-- The output-assembly stage of `generateHydrograph`: run the
peak-tracking loop over the convolved flow values and integrate the
volume. -/
def assembleHydrograph (dt : ℚ) (flowValues : List ℚ) : HydrographResult :=
  let asm := hydAssemble dt flowValues 0 ([], 0, 0)
  ⟨asm.1, asm.2.1, asm.2.2, trapezoidVolume asm.1⟩

/-- `generateHydrograph(area, cn, tc, stormType, totalRainfall, timeStep,
iaRatio)` from `unit-hydrograph.ts`: SCS excess-rainfall convolution with
the dimensionless unit hydrograph.  (The source's local `S`/`Ia` bindings
are dead code; `calculateRunoff` recomputes them.) -/
def generateHydrograph (area cn tc : ℚ) (stormType : StormType)
    (totalRainfall : ℚ) (timeStep : Option ℚ) (iaRatio : ℚ) :
    Except String HydrographResult :=
  let dt := timeStep.getD (max (1 / 100) (min (tc / 5) (1 / 10)))
  let lag := 6 / 10 * tc
  let Tp := dt / 2 + lag
  let nSteps := Nat.ceil (24 / dt)
  match excessLoop stormType totalRainfall cn iaRatio dt nSteps 1 0 [] with
  | .error e => .error e
  | .ok excessRainfall =>
    let nUhSteps := Nat.ceil (5 * Tp / dt)
    let qpUnit := 484 * (area / 640) / Tp
    let unitHydrograph := (List.range (nUhSteps + 1)).map fun (i : ℕ) =>
      qpUnit * interpolateUH ((i : ℚ) * dt / Tp)
    let totalSteps := nSteps + nUhSteps
    let flowValues := convOuter excessRainfall 0 unitHydrograph
      (List.replicate (totalSteps + 1) 0)
    .ok (assembleHydrograph dt flowValues)

/-! ## Time of concentration (`hydrology/time-of-concentration.ts`) -/

/-- The `FlowSegment` tagged union (`surface` becomes the `paved` flag). -/
inductive FlowSegment
  | sheet (manningsN length rainfall2yr slope : ℚ)
  | shallow (length slope : ℚ) (paved : Bool)
  | channel (length wettedPerimeter area manningsN slope : ℚ)
  deriving Repr, DecidableEq

/-- `sheetFlowTravelTime`: `Tt = 0.007·(nL)^0.8 / (P₂^0.5 · s^0.4)`. -/
def sheetFlowTravelTime (p : Prims) (manningsN length rainfall2yr slope : ℚ) :
    Except String ℚ :=
  if length > 300 then .error "Sheet flow length cannot exceed 300 ft"
  else if slope ≤ 0 then .error "Slope must be positive"
  else if rainfall2yr ≤ 0 then .error "Rainfall must be positive"
  else .ok (7 / 1000 * p.pow08 (manningsN * length) /
    (p.pow05 rainfall2yr * p.pow04 slope))

/-- `shallowConcentratedFlowTravelTime`: `V = k·s^0.5`,
`k = 20.3282` paved / `16.1345` unpaved, `Tt = L/V/3600`. -/
def shallowConcentratedFlowTravelTime (p : Prims) (length slope : ℚ)
    (paved : Bool) : Except String ℚ :=
  if slope ≤ 0 then .error "Slope must be positive"
  else
    let k : ℚ := if paved then 203282 / 10000 else 161345 / 10000
    .ok (length / (k * p.pow05 slope) / 3600)

/-- `channelFlowTravelTime`: Manning velocity with `R = A/WP`. -/
def channelFlowTravelTime (p : Prims)
    (length wettedPerimeter area manningsN slope : ℚ) : Except String ℚ :=
  if slope ≤ 0 then .error "Slope must be positive"
  else if area ≤ 0 then .error "Flow area must be positive"
  else if wettedPerimeter ≤ 0 then .error "Wetted perimeter must be positive"
  else
    let R := area / wettedPerimeter
    let velocity := 149 / 100 / manningsN * p.pow23 R * p.pow05 slope
    .ok (length / velocity / 3600)

/-- `segmentTravelTime`: dispatch on the tag. -/
def segmentTravelTime (p : Prims) (seg : FlowSegment) : Except String ℚ :=
  match seg with
  | .sheet manningsN length rainfall2yr slope =>
    sheetFlowTravelTime p manningsN length rainfall2yr slope
  | .shallow length slope paved =>
    shallowConcentratedFlowTravelTime p length slope paved
  | .channel length wettedPerimeter area manningsN slope =>
    channelFlowTravelTime p length wettedPerimeter area manningsN slope

/-- `calculateTc`: sum of segment travel times; throws on `[]`. -/
def calculateTc (p : Prims) (segments : List FlowSegment) : Except String ℚ :=
  if segments.isEmpty then .error "At least one segment required"
  else segments.foldlM (fun sum seg => (segmentTravelTime p seg).map (sum + ·)) 0

/-! ## Curve number (`hydrology/curve-number.ts`) -/

/-- Hydrologic soil groups. -/
inductive SoilGroup | A | B | C | D
  deriving Repr, DecidableEq

/-- A land-use sub-area. -/
structure SubArea where
  description : String
  soilGroup : SoilGroup
  cn : ℚ
  area : ℚ
  deriving Repr, DecidableEq

/-- `compositeCN(subAreas)`: area-weighted CN rounded via `Math.round`. -/
def compositeCN (subAreas : List SubArea) : Except String ℚ :=
  if subAreas.isEmpty then .error "At least one sub-area required"
  else
    let totalArea := subAreas.foldl (fun sum s => sum + s.area) 0
    if totalArea ≤ 0 then .error "Total area must be positive"
    else
      let weightedCN := subAreas.foldl (fun sum s => sum + s.cn * s.area) 0
      .ok ((jsRound (weightedCN / totalArea) : ℤ) : ℚ)

/-! ## Subcatchment (`hydrology/subcatchment.ts`) -/

/-- `SubcatchmentInput`. -/
structure SubcatchmentInput where
  id : String
  name : String
  subAreas : List SubArea
  flowSegments : List FlowSegment
  tcOverride : Option ℚ
  cnOverride : Option ℚ

/-- `RainfallEvent` (label, storm type, depth). -/
structure RainfallEvent where
  label : String
  stormType : StormType
  totalDepth : ℚ

/-- `SubcatchmentResult`. -/
structure SubcatchmentResult where
  id : String
  name : String
  compositeCN : ℚ
  totalArea : ℚ
  tc : ℚ
  hydrograph : HydrographResult

/-- `computeSubcatchment(input, event, iaRatio)`: overrides or computed
CN/Tc, then `generateHydrograph` with the auto time step. -/
def computeSubcatchment (p : Prims) (input : SubcatchmentInput)
    (event : RainfallEvent) (iaRatio : ℚ) : Except String SubcatchmentResult := do
  let cn ← match input.cnOverride with
    | some c => .ok c
    | none => compositeCN input.subAreas
  let totalArea := input.subAreas.foldl (fun sum s => sum + s.area) 0
  let tc ← match input.tcOverride with
    | some t => .ok t
    | none => calculateTc p input.flowSegments
  let hydrograph ← generateHydrograph totalArea cn tc event.stormType
    event.totalDepth none iaRatio
  .ok ⟨input.id, input.name, cn, totalArea, tc, hydrograph⟩

/-! ## Project model (`model/project.ts`) -/

/-- A link `from → to` (fields `from`/`to` renamed `fromId`/`toId`; `from`
is a Lean keyword). -/
structure ProjectLink where
  id : String
  fromId : String
  toId : String
  deriving Repr, DecidableEq

/-- The `ProjectNode` tagged union (the diagram `position` is opaque to
the core and not modelled). -/
inductive ProjectNode
  | subcatchment (id name : String) (data : SubcatchmentInput)
  | pond (id name : String) (stageStorage : List StageStoragePoint)
      (outlets : List OutletStructure) (initialWSE : ℚ)
  | reach (id name : String) (length manningsN slope : ℚ) (shape : ChannelShape)
  | junction (id name : String)

/-- The stable identifier of a node. -/
def ProjectNode.id : ProjectNode → String
  | .subcatchment i _ _ => i
  | .pond i _ _ _ _ => i
  | .reach i _ _ _ _ _ => i
  | .junction i _ => i

/-- `RainfallEventDef`. -/
structure RainfallEventDef where
  id : String
  label : String
  stormType : StormType
  totalDepth : ℚ

/-- The `Project` record. -/
structure Project where
  id : String
  name : String
  description : String
  nodes : List ProjectNode
  links : List ProjectLink
  events : List RainfallEventDef

/-- `getUpstreamNodes(nodeId, links)`. -/
def getUpstreamNodes (nodeId : String) (links : List ProjectLink) :
    List String :=
  (links.filter (fun l => l.toId == nodeId)).map (·.fromId)

/-- A JavaScript `Map` with `String` keys: an insertion-ordered
association list.  `jsSet` updates in place (keeping the original
position) or appends; `jsGet` is `Map.get`; iteration follows the list
order, exactly as JS `Map` iteration follows insertion order. -/
abbrev JSMap (α : Type) : Type := List (String × α)

/-- `Map.get`. -/
def jsGet {α : Type} (m : JSMap α) (k : String) : Option α :=
  (m.find? (fun e => e.1 == k)).map (·.2)

/-- `Map.set`. -/
def jsSet {α : Type} (m : JSMap α) (k : String) (v : α) : JSMap α :=
  match m with
  | [] => [(k, v)]
  | e :: rest => if e.1 == k then (k, v) :: rest else e :: jsSet rest k v

/-- The neighbour-processing body of the Kahn loop: for each downstream
id, decrement its in-degree (`?? 1` default as in the source) and enqueue
it when the new degree is 0. -/
def kahnStep (adj : List String) (st : JSMap ℤ × List String) :
    JSMap ℤ × List String :=
  adj.foldl (fun (st : JSMap ℤ × List String) downstream =>
    let newDeg := (jsGet st.1 downstream).getD 1 - 1
    let deg2 := jsSet st.1 downstream newDeg
    if newDeg == 0 then (deg2, st.2 ++ [downstream]) else (deg2, st.2)) st

/-- The `while (queue.length > 0)` loop of `topologicalSort`.  `fuel`
bounds the recursion; every queue entry is enqueued at most once, so
`nodes.length + links.length + 1` iterations always suffice (proved
below) and the fuel-exhausted branch is unreachable from
`topologicalSort`.  Returns the full final state
`(inDegree, queue, sorted)`. -/
def kahnLoop (adjList : JSMap (List String)) :
    ℕ → JSMap ℤ → List String → List String →
    JSMap ℤ × List String × List String
  | 0, deg, queue, sorted => (deg, queue, sorted)
  | fuel + 1, deg, queue, sorted =>
    match queue with
    | [] => (deg, [], sorted)
    | id :: rest =>
      let st := kahnStep ((jsGet adjList id).getD []) (deg, rest)
      kahnLoop adjList fuel st.1 st.2 (sorted ++ [id])

/-- `topologicalSort(nodes, links)` — Kahn's algorithm; throws when the
emitted count differs from the node count. -/
def topologicalSort (nodes : List ProjectNode) (links : List ProjectLink) :
    Except String (List String) :=
  let inDegree0 : JSMap ℤ := nodes.foldl (fun m n => jsSet m n.id 0) []
  let adjList0 : JSMap (List String) := nodes.foldl (fun m n => jsSet m n.id []) []
  let maps := links.foldl
    (fun (md : JSMap ℤ × JSMap (List String)) link =>
      (jsSet md.1 link.toId ((jsGet md.1 link.toId).getD 0 + 1),
       match jsGet md.2 link.fromId with
       | some l => jsSet md.2 link.fromId (l ++ [link.toId])
       | none => md.2))
    (inDegree0, adjList0)
  let queue0 := (maps.1.filter (fun e => e.2 == 0)).map (·.1)
  let state := kahnLoop maps.2 (nodes.length + links.length + 1) maps.1 queue0 []
  if state.2.2.length ≠ nodes.length then
    .error "Cycle detected in routing diagram"
  else .ok state.2.2

/-! ## System router (`model/system-router.ts`) -/

/-- `NodeResult` (optional fields model the `?` properties). -/
structure NodeResult where
  nodeId : String
  outflowHydrograph : List HydrographPoint
  peakOutflow : ℚ
  timeToPeakOutflow : ℚ
  totalVolume : ℚ
  peakInflow : Option ℚ
  peakStage : Option ℚ
  peakStorage : Option ℚ

/-- `SimulationResult`. -/
structure SimulationResult where
  eventId : String
  nodeResults : JSMap NodeResult

/-- `getInflowHydrograph(nodeId, project, results)`: collect the non-empty
outflow hydrographs of the upstream nodes that already have results, and
sum them. -/
def getInflowHydrograph (nodeId : String) (project : Project)
    (results : JSMap NodeResult) : List HydrographPoint :=
  let upstreamIds := getUpstreamNodes nodeId project.links
  let hydrographs := upstreamIds.foldl (fun acc uid =>
    match jsGet results uid with
    | some r =>
      if r.outflowHydrograph.length > 0 then acc ++ [r.outflowHydrograph]
      else acc
    | none => acc) []
  sumHydrographs hydrographs

/-- The zero-valued `NodeResult` recorded for a pond or reach whose
inflow has fewer than 2 samples. -/
def emptyNodeResult (id : String) : NodeResult :=
  ⟨id, [], 0, 0, 0, none, none, none⟩

/-- `computeNode(node, event, inflowHydrograph)`: dispatch on the node
kind (subcatchment / pond / reach / junction). -/
def computeNode (p : Prims) (node : ProjectNode) (event : RainfallEventDef)
    (inflowHydrograph : List HydrographPoint) : Except String NodeResult :=
  match node with
  | .subcatchment id _ data =>
    (computeSubcatchment p data ⟨event.label, event.stormType, event.totalDepth⟩
        (1 / 5)).map fun result =>
      let outflowHydrograph :=
        if inflowHydrograph.length > 0 then
          sumHydrographs [result.hydrograph.hydrograph, inflowHydrograph]
        else result.hydrograph.hydrograph
      let peakOutflow := listMax (outflowHydrograph.map (·.flow))
      let peakPoint := outflowHydrograph.find? (fun pt => pt.flow == peakOutflow)
      { nodeId := id, outflowHydrograph, peakOutflow
        timeToPeakOutflow := (peakPoint.map (·.time)).getD 0
        totalVolume := result.hydrograph.totalVolume
        peakInflow := none, peakStage := none, peakStorage := none }
  | .pond id _ stageStorage outlets initialWSE =>
    if inflowHydrograph.length < 2 then .ok (emptyNodeResult id)
    else
      (routePond p ⟨inflowHydrograph.map (fun pt => (pt.time, pt.flow)),
          stageStorage, outlets, initialWSE⟩).map fun result =>
        let outPts := result.timeSeries.map
          (fun e => (⟨e.time, e.outflow⟩ : HydrographPoint))
        { nodeId := id, outflowHydrograph := outPts
          peakOutflow := result.peakOutflow
          timeToPeakOutflow := result.timeToPeakOutflow
          totalVolume := trapezoidVolume outPts
          peakInflow := some result.peakInflow
          peakStage := some result.peakStage
          peakStorage := some result.peakStorage }
  | .reach id _ length manningsN slope shape =>
    if inflowHydrograph.length < 2 then .ok (emptyNodeResult id)
    else
      (routeReach p ⟨length, manningsN, slope, shape, inflowHydrograph⟩).map
        fun result =>
          { nodeId := id, outflowHydrograph := result.outflow
            peakOutflow := result.peakOutflow
            timeToPeakOutflow := result.timeToPeakOutflow
            totalVolume := trapezoidVolume result.outflow
            peakInflow := some (listMax (inflowHydrograph.map (·.flow)))
            peakStage := none, peakStorage := none }
  | .junction id _ =>
    let peakOutflow :=
      if inflowHydrograph.length > 0 then listMax (inflowHydrograph.map (·.flow))
      else 0
    let peakPoint := inflowHydrograph.find? (fun pt => pt.flow == peakOutflow)
    .ok { nodeId := id, outflowHydrograph := inflowHydrograph, peakOutflow
          timeToPeakOutflow := (peakPoint.map (·.time)).getD 0
          totalVolume := trapezoidVolume inflowHydrograph
          peakInflow := none, peakStage := none, peakStorage := none }

/-- The per-node loop of `runSimulation`.  The source does
`nodeMap.get(nodeId)!`; a missing node (impossible for a well-formed
project) would crash on the `undefined` dereference, modelled as an
error. -/
def runSimLoop (p : Prims) (project : Project) (event : RainfallEventDef)
    (nodeMap : JSMap ProjectNode) :
    List String → JSMap NodeResult → Except String (JSMap NodeResult)
  | [], results => .ok results
  | nodeId :: rest, results =>
    match jsGet nodeMap nodeId with
    | none => .error "node not found"
    | some node =>
      match computeNode p node event (getInflowHydrograph nodeId project results) with
      | .error e => .error e
      | .ok result => runSimLoop p project event nodeMap rest (jsSet results nodeId result)

/-- `runSimulation(project, eventId)`: resolve the event, topologically
sort, then route every node in order. -/
def runSimulation (p : Prims) (project : Project) (eventId : String) :
    Except String SimulationResult :=
  match project.events.find? (fun e => e.id == eventId) with
  | none => .error "Event not found"
  | some event =>
    match topologicalSort project.nodes project.links with
    | .error e => .error e
    | .ok order =>
      let nodeMap : JSMap ProjectNode :=
        project.nodes.foldl (fun m n => jsSet m n.id n) []
      (runSimLoop p project event nodeMap order []).map
        (fun results => ⟨eventId, results⟩)

/-- The ids of a node list. -/
def nodeIds (nodes : List ProjectNode) : List String :=
  nodes.map ProjectNode.id

/-- The directed-edge relation of a link list. -/
def linkEdge (links : List ProjectLink) (u v : String) : Prop :=
  ∃ l ∈ links, l.fromId = u ∧ l.toId = v

/-- The link graph restricted to the given nodes. -/
def restrictedEdge (nodes : List ProjectNode) (links : List ProjectLink)
    (u v : String) : Prop :=
  linkEdge links u v ∧ u ∈ nodeIds nodes ∧ v ∈ nodeIds nodes

/-- A directed cycle in the link graph restricted to the given nodes. -/
def hasCycle (nodes : List ProjectNode) (links : List ProjectLink) : Prop :=
  ∃ v, Relation.TransGen (restrictedEdge nodes links) v v

/-- The number of links into `v` whose source has not yet been emitted —
the quantity the algorithm keeps in its in-degree map. -/
def remCount (links : List ProjectLink) (sorted : List String)
    (v : String) : ℕ :=
  links.countP (fun l => decide (l.toId = v ∧ l.fromId ∉ sorted))

/-- The in-degree map, as an association list over the node ids. -/
def degMap (links : List ProjectLink) (ids sorted : List String) : JSMap ℤ :=
  ids.map (fun v => (v, (remCount links sorted v : ℤ)))

/-- The downstream ids of the links out of `u`, in link order. -/
def adjOf (links : List ProjectLink) (u : String) : List String :=
  (links.filter (fun l => decide (l.fromId = u))).map (·.toId)

/-- The adjacency map, as an association list over the node ids. -/
def adjMap (links : List ProjectLink) (ids : List String) :
    JSMap (List String) :=
  ids.map (fun u => (u, adjOf links u))

/-- The position of the first occurrence of `a` in `l` (length of `l`
when absent). -/
def posIn : List String → String → ℕ
  | [], _ => 0
  | x :: xs, a => if x = a then 0 else posIn xs a + 1

/-- A minimal concrete project used to instantiate the router theorems. -/
def sampleProject : Project :=
  ⟨"p1", "Sample", "", [.junction "A" "A"], [],
    [⟨"e1", "Event 1", .II, 5⟩]⟩

/-! # Theorems -/

/-! ## C3 — `calculateRunoff` -/

/-- Retention is non-negative on the valid CN range. -/
lemma retention_nonneg {cn : ℚ} (h0 : 0 < cn) (h100 : cn ≤ 100) :
    0 ≤ 1000 / cn - 10 := by
  have : (10 : ℚ) ≤ 1000 / cn := by
    rw [le_div_iff h0]; linarith
  linarith

/-- The successful branch of `calculateRunoff`. -/
lemma calculateRunoff_ok {P cn lam : ℚ} (h0 : 0 < cn) (h100 : cn ≤ 100)
    (hP : 0 ≤ P) :
    calculateRunoff P cn lam =
      .ok ⟨if P > lam * (1000 / cn - 10) then
            (P - lam * (1000 / cn - 10)) ^ 2 /
              (P - lam * (1000 / cn - 10) + (1000 / cn - 10))
          else 0,
          1000 / cn - 10, lam * (1000 / cn - 10)⟩ := by
  unfold calculateRunoff
  rw [if_neg (by push_neg; exact ⟨h0, h100⟩), if_neg (by linarith)]

/--
Claim-id: C3.
`calculateRunoff(P, CN, λ)` computes `S = 1000/CN − 10`, `Ia = λ·S`, and
`Q = 0` when `P ≤ Ia`, else `Q = (P − Ia)²/(P − Ia + S)`; it errors
exactly when `CN ∉ (0,100]` or `P < 0`; and for every `CN ∈ (0,100]`
with `λ = 0.2` the runoff depth is monotone non-decreasing in `P` and
satisfies `Q ≤ P` for `P ≥ 0`.
-/
theorem calculateRunoff_correct :
    (∀ P cn lam, (∃ e, calculateRunoff P cn lam = .error e) ↔
      (cn ≤ 0 ∨ 100 < cn ∨ P < 0)) ∧
    (∀ P cn lam r, calculateRunoff P cn lam = .ok r →
      r.potentialRetention = 1000 / cn - 10 ∧
      r.initialAbstraction = lam * r.potentialRetention ∧
      r.runoffDepth =
        if P ≤ r.initialAbstraction then 0
        else (P - r.initialAbstraction) ^ 2 /
          (P - r.initialAbstraction + r.potentialRetention)) ∧
    (∀ cn, 0 < cn → cn ≤ 100 →
      (∀ P1 P2 r1 r2, 0 ≤ P1 → P1 ≤ P2 →
        calculateRunoff P1 cn (1/5) = .ok r1 →
        calculateRunoff P2 cn (1/5) = .ok r2 →
        r1.runoffDepth ≤ r2.runoffDepth) ∧
      (∀ P r, 0 ≤ P → calculateRunoff P cn (1/5) = .ok r →
        r.runoffDepth ≤ P)) := by
  refine ⟨?_, ?_, ?_⟩
  · intro P cn lam
    constructor
    · rintro ⟨e, he⟩
      unfold calculateRunoff at he
      by_cases h1 : cn ≤ 0 ∨ cn > 100
      · rcases h1 with h | h
        · exact .inl h
        · exact .inr (.inl h)
      · rw [if_neg h1] at he
        by_cases h2 : P < 0
        · exact .inr (.inr h2)
        · rw [if_neg h2] at he; exact absurd he (by simp)
    · intro h
      unfold calculateRunoff
      rcases h with h | h | h
      · exact ⟨_, by rw [if_pos (.inl h)]⟩
      · exact ⟨_, by rw [if_pos (.inr h)]⟩
      · by_cases h1 : cn ≤ 0 ∨ cn > 100
        · exact ⟨_, by rw [if_pos h1]⟩
        · exact ⟨_, by rw [if_neg h1, if_pos h]⟩
  · intro P cn lam r hr
    unfold calculateRunoff at hr
    by_cases h1 : cn ≤ 0 ∨ cn > 100
    · rw [if_pos h1] at hr; exact absurd hr (by simp)
    · rw [if_neg h1] at hr
      by_cases h2 : P < 0
      · rw [if_pos h2] at hr; exact absurd hr (by simp)
      · rw [if_neg h2] at hr
        cases hr
        refine ⟨rfl, rfl, ?_⟩
        by_cases h3 : P > lam * (1000 / cn - 10)
        · rw [if_pos h3, if_neg (by simpa using not_le.mpr h3)]
        · rw [if_neg h3, if_pos (by simpa using not_lt.mp h3)]
  · intro cn hlo hhi
    obtain ⟨S, hSdef, hS⟩ : ∃ S : ℚ, 1000 / cn - 10 = S ∧ 0 ≤ S :=
      ⟨1000 / cn - 10, rfl, retention_nonneg hlo hhi⟩
    have key : ∀ P r, 0 ≤ P → calculateRunoff P cn (1/5) = .ok r →
        r.runoffDepth =
          if P > 1/5 * S then (P - 1/5 * S) ^ 2 / (P - 1/5 * S + S) else 0 := by
      intro P r hP hr
      rw [calculateRunoff_ok hlo hhi hP] at hr
      cases hr; rw [hSdef]
    constructor
    · intro P1 P2 r1 r2 hP1 hle h1 h2
      rw [key P1 r1 hP1 h1, key P2 r2 (le_trans hP1 hle) h2]
      by_cases c1 : P1 > 1/5 * S
      · have c2 : P2 > 1/5 * S := lt_of_lt_of_le c1 hle
        rw [if_pos c1, if_pos c2]
        have d1 : 0 < P1 - 1/5 * S + S := by linarith
        have d2 : 0 < P2 - 1/5 * S + S := by linarith
        rw [div_le_div_iff d1 d2]
        nlinarith [mul_nonneg (mul_nonneg (by linarith : (0:ℚ) ≤ P1 - 1/5 * S)
            (by linarith : (0:ℚ) ≤ P2 - 1/5 * S)) (sub_nonneg.mpr hle),
          mul_nonneg hS (mul_nonneg (by linarith : (0:ℚ) ≤ P1 - 1/5 * S)
            (by linarith : (0:ℚ) ≤ P2 - P1))]
      · rw [if_neg c1]
        by_cases c2 : P2 > 1/5 * S
        · rw [if_pos c2]
          have d2 : 0 < P2 - 1/5 * S + S := by linarith
          positivity
        · rw [if_neg c2]
    · intro P r hP hr
      rw [key P r hP hr]
      by_cases c : P > 1/5 * S
      · rw [if_pos c]
        have d : 0 < P - 1/5 * S + S := by linarith
        rw [div_le_iff d]
        nlinarith [mul_nonneg (by linarith : (0:ℚ) ≤ P - 1/5 * S) hS,
          mul_nonneg hS hS]
      · rw [if_neg c]; exact hP

/-- Witness for C3: `CN = 80`, `P = 4`, `λ = 0.2` gives `Q = 49/24 ≤ 4`,
via `calculateRunoff_correct`. -/
theorem calculateRunoff_correct_witness :
    calculateRunoff 4 80 (1/5) = .ok ⟨49/24, 5/2, 1/2⟩ ∧ (49/24 : ℚ) ≤ 4 := by
  have h : calculateRunoff 4 80 (1/5) = .ok ⟨49/24, 5/2, 1/2⟩ := by
    unfold calculateRunoff; norm_num
  refine ⟨h, ?_⟩
  have := (calculateRunoff_correct.2.2 80 (by norm_num) (by norm_num)).2 4
    ⟨49/24, 5/2, 1/2⟩ (by norm_num) h
  simpa using this

/-! ## C6 — `interpolateFlow` -/

/-- Times strictly increase along a hydrograph. -/
def SortedTimes (hg : List HydrographPoint) : Prop :=
  List.Chain' (fun a b => a.time < b.time) hg

/-- Strict time order is transitive. -/
instance timeLtTrans : IsTrans HydrographPoint (fun a b => a.time < b.time) :=
  ⟨fun _ _ _ h1 h2 => lt_trans h1 h2⟩

/-- Unfolding of `interpolateFlow` on a non-empty hydrograph. -/
lemma interpolateFlow_cons (p : HydrographPoint) (rest : List HydrographPoint)
    (t : ℚ) :
    interpolateFlow (p :: rest) t =
      if t ≤ p.time then p.flow
      else if t ≥ ((p :: rest).getLast (by simp)).time then
        ((p :: rest).getLast (by simp)).flow
      else interpFlowScan p rest t := rfl

/-- In a strictly sorted list, earlier entries have strictly smaller
times. -/
lemma sortedTimes_getD_lt {hg : List HydrographPoint} (h : SortedTimes hg)
    {i j : ℕ} (hij : i < j) (hj : j < hg.length) :
    (hg.getD i ⟨0, 0⟩).time < (hg.getD j ⟨0, 0⟩).time := by
  have hp : List.Pairwise (fun a b => a.time < b.time) hg :=
    List.chain'_iff_pairwise.mp h
  have hi : i < hg.length := lt_trans hij hj
  rw [List.getD_eq_getElem _ _ hi, List.getD_eq_getElem _ _ hj]
  exact List.pairwise_iff_getElem.mp hp i j hi hj hij

/-- The bracketing scan: if `t` lies in the `n`-th interval of a sorted
list headed by `prev`, the scan interpolates there. -/
lemma interpFlowScan_bracket :
    ∀ (n : ℕ) (prev : HydrographPoint) (rest : List HydrographPoint) (t : ℚ),
    SortedTimes (prev :: rest) →
    n + 1 < (prev :: rest).length →
    ((prev :: rest).getD n ⟨0, 0⟩).time < t →
    t ≤ ((prev :: rest).getD (n + 1) ⟨0, 0⟩).time →
    interpFlowScan prev rest t =
      ((prev :: rest).getD n ⟨0, 0⟩).flow +
        (t - ((prev :: rest).getD n ⟨0, 0⟩).time) /
          (((prev :: rest).getD (n + 1) ⟨0, 0⟩).time -
            ((prev :: rest).getD n ⟨0, 0⟩).time) *
          (((prev :: rest).getD (n + 1) ⟨0, 0⟩).flow -
            ((prev :: rest).getD n ⟨0, 0⟩).flow)
  | 0, prev, [], t, _, hn, _, _ => by simp at hn
  | 0, prev, q :: qs, t, _, _, _, hub => by
    rw [List.getD_cons_succ, List.getD_cons_zero, List.getD_cons_zero] at *
    unfold interpFlowScan
    rw [if_pos (by simpa using hub)]
  | n + 1, prev, [], t, _, hn, _, _ => by simp at hn
  | n + 1, prev, q :: qs, t, hsort, hn, hlb, hub => by
    have hq : q.time < t := by
      rcases Nat.eq_zero_or_pos n with rfl | hpos
      · simpa using hlb
      · have h1 := sortedTimes_getD_lt hsort (show 1 < n + 1 by omega)
          (show n + 1 < (prev :: q :: qs).length by
            simpa using lt_trans (Nat.lt_succ_self _) hn)
        rw [List.getD_cons_succ, List.getD_cons_succ, List.getD_cons_zero] at h1
        rw [List.getD_cons_succ] at hlb
        exact lt_trans h1 hlb
    unfold interpFlowScan
    rw [if_neg (by linarith)]
    rw [List.getD_cons_succ, List.getD_cons_succ]
    exact interpFlowScan_bracket n q qs t hsort.tail
      (by simpa using hn) (by simpa using hlb) (by simpa using hub)

/-- Head time is at most any entry's time in a sorted list. -/
lemma sortedTimes_head_le {p : HydrographPoint} {rest : List HydrographPoint}
    (h : SortedTimes (p :: rest)) {i : ℕ} (hi : i < (p :: rest).length) :
    p.time ≤ ((p :: rest).getD i ⟨0, 0⟩).time := by
  rcases Nat.eq_zero_or_pos i with rfl | hpos
  · simp
  · have := sortedTimes_getD_lt h hpos hi
    rw [List.getD_cons_zero] at this
    exact le_of_lt this

/-- Any entry's time is at most the last time in a sorted list. -/
lemma sortedTimes_le_getLast {p : HydrographPoint} {rest : List HydrographPoint}
    (h : SortedTimes (p :: rest)) {i : ℕ} (hi : i < (p :: rest).length) :
    ((p :: rest).getD i ⟨0, 0⟩).time ≤ ((p :: rest).getLast (by simp)).time := by
  have hlast : (p :: rest).getLast (by simp) =
      (p :: rest).getD ((p :: rest).length - 1) ⟨0, 0⟩ := by
    rw [List.getLast_eq_getElem, List.getD_eq_getElem _ _ (by simp)]
  rw [hlast]
  rcases Nat.lt_or_ge i ((p :: rest).length - 1) with hlt | hge
  · exact le_of_lt (sortedTimes_getD_lt h hlt (Nat.sub_lt (by simp) (by norm_num)))
  · have heq : i = (p :: rest).length - 1 := by
      simp only [List.length_cons] at hi hge ⊢; omega
    rw [heq]

/--
Claim-id: C6 (amended).
`interpolateFlow` — the interpolate-at operation used by
`sumHydrographs` — clamps to the FIRST sample's flow at or before the
first sample time (not 0, as the original claim said), clamps to the last
sample's flow at or after the last sample time, and linearly interpolates
between bracketing samples; and `sumHydrographs` of two or more
hydrographs sums the interpolated values over the union of sample
times.
-/
theorem interpolateFlow_spec :
    (∀ (p : HydrographPoint) (rest : List HydrographPoint) (t : ℚ),
      t ≤ p.time → interpolateFlow (p :: rest) t = p.flow) ∧
    (∀ (p : HydrographPoint) (rest : List HydrographPoint) (t : ℚ),
      SortedTimes (p :: rest) →
      ((p :: rest).getLast (by simp)).time ≤ t →
      interpolateFlow (p :: rest) t = ((p :: rest).getLast (by simp)).flow) ∧
    (∀ (hg : List HydrographPoint) (t : ℚ) (i : ℕ),
      SortedTimes hg → i + 1 < hg.length →
      (hg.getD i ⟨0, 0⟩).time < t → t < (hg.getD (i + 1) ⟨0, 0⟩).time →
      interpolateFlow hg t =
        (hg.getD i ⟨0, 0⟩).flow +
          (t - (hg.getD i ⟨0, 0⟩).time) /
            ((hg.getD (i + 1) ⟨0, 0⟩).time - (hg.getD i ⟨0, 0⟩).time) *
            ((hg.getD (i + 1) ⟨0, 0⟩).flow - (hg.getD i ⟨0, 0⟩).flow)) ∧
    (∀ (hydrographs : List (List HydrographPoint)) (t : ℚ),
      2 ≤ hydrographs.length →
      sumHydrographs hydrographs = (unionTimes hydrographs).map
        (fun t => ⟨t, (hydrographs.map (interpolateFlow · t)).sum⟩)) := by
  refine ⟨?_, ?_, ?_, ?_⟩
  · intro p rest t ht
    rw [interpolateFlow_cons, if_pos ht]
  · intro p rest t hsort ht
    rw [interpolateFlow_cons]
    by_cases h1 : t ≤ p.time
    · rw [if_pos h1]
      have h2 : p.time ≤ ((p :: rest).getLast (by simp)).time := by
        have h3 := sortedTimes_le_getLast hsort (i := 0) (by simp)
        rw [List.getD_cons_zero] at h3
        exact h3
      have hpt : p.time = ((p :: rest).getLast (by simp)).time :=
        le_antisymm h2 (le_trans ht h1)
      cases rest with
      | nil => simp
      | cons q qs =>
        exfalso
        have hlt := sortedTimes_getD_lt hsort (show 0 < 1 by omega)
          (show 1 < (p :: q :: qs).length by simp)
        rw [List.getD_cons_zero, List.getD_cons_succ, List.getD_cons_zero] at hlt
        have h4 : q.time ≤ ((p :: q :: qs).getLast (by simp)).time := by
          have h5 := sortedTimes_le_getLast hsort (i := 1) (by simp)
          rw [List.getD_cons_succ, List.getD_cons_zero] at h5
          exact h5
        rw [← hpt] at h4
        exact absurd (lt_of_lt_of_le hlt h4) (lt_irrefl _)
    · rw [if_neg h1, if_pos (ge_iff_le.mpr ht)]
  · intro hg t i hsort hi hlb hub
    cases hg with
    | nil => simp at hi
    | cons p rest =>
      rw [interpolateFlow_cons]
      have hnotfirst : ¬ t ≤ p.time :=
        not_le.mpr (lt_of_le_of_lt (sortedTimes_head_le hsort (by omega)) hlb)
      have hnotlast : ¬ t ≥ ((p :: rest).getLast (by simp)).time := by
        push_neg
        exact lt_of_lt_of_le hub (sortedTimes_le_getLast hsort hi)
      rw [if_neg hnotfirst, if_neg hnotlast]
      exact interpFlowScan_bracket i p rest t hsort hi hlb (le_of_lt hub)
  · intro hydrographs t h2
    have foldl_add_map : ∀ (l : List (List HydrographPoint)) (u init : ℚ),
        l.foldl (fun flow hg => flow + interpolateFlow hg u) init =
          init + (l.map (interpolateFlow · u)).sum := by
      intro l u
      induction l with
      | nil => intro init; simp
      | cons x xs ih =>
        intro init
        rw [List.foldl_cons, ih (init + interpolateFlow x u),
          List.map_cons, List.sum_cons]
        ring
    match hydrographs, h2 with
    | a :: b :: rest, _ =>
      show (unionTimes _).map _ = _
      refine List.map_congr_left fun u _ => ?_
      have h3 := foldl_add_map (a :: b :: rest) u 0
      rw [zero_add] at h3
      exact congrArg (fun q => HydrographPoint.mk u q) h3

/-- Witness for C6: the clamps and the bracket formula at a concrete
sorted hydrograph, via `interpolateFlow_spec`. -/
theorem interpolateFlow_spec_witness :
    interpolateFlow [⟨1, 5⟩, ⟨2, 7⟩] 0 = 5 ∧
    interpolateFlow [⟨1, 5⟩, ⟨2, 7⟩] 9 = 7 ∧
    interpolateFlow [⟨1, 5⟩, ⟨2, 7⟩] (3/2) = 6 := by
  have hsort : SortedTimes [⟨1, 5⟩, ⟨2, 7⟩] := by
    constructor
    · norm_num
    · constructor
  refine ⟨interpolateFlow_spec.1 ⟨1, 5⟩ [⟨2, 7⟩] 0 (by norm_num), ?_, ?_⟩
  · have h := interpolateFlow_spec.2.1 ⟨1, 5⟩ [⟨2, 7⟩] 9 hsort (by norm_num)
    simpa using h
  · have h := interpolateFlow_spec.2.2.1 [⟨1, 5⟩, ⟨2, 7⟩] (3/2) 0 hsort
      (by norm_num) (by norm_num) (by norm_num)
    rw [h]; norm_num

/--
Claim-id: C6 (counterexample).
The original claim says interpolate-at returns 0 strictly before the
first sample; on `[(1,5),(2,7)]` at `t = 0` the code returns the first
sample's flow 5, not 0.
-/
theorem interpolateFlow_before_first_not_zero :
    interpolateFlow [⟨1, 5⟩, ⟨2, 7⟩] 0 = 5 ∧ (5 : ℚ) ≠ 0 := by
  constructor
  · rfl
  · norm_num

/-! ## C7 — outlet devices -/

/-- `foldl` of `+` over a mapped list is the sum (shape of the JS
`reduce((total, o) => total + f(o), 0)`). -/
lemma foldl_add_eq_sum {α : Type} (f : α → ℚ) :
    ∀ (l : List α) (init : ℚ),
      l.foldl (fun acc x => acc + f x) init = init + (l.map f).sum
  | [], init => by simp
  | x :: xs, init => by
    rw [List.foldl_cons, foldl_add_eq_sum f xs (init + f x),
      List.map_cons, List.sum_cons]
    ring

/-- A primitive that is monotone and non-negative on the non-negative
reals — true of the correctly rounded `Math.sqrt` and of `Math.pow`
with a positive exponent. -/
def MonotonePrim (f : ℚ → ℚ) : Prop :=
  (∀ x y, 0 ≤ x → x ≤ y → f x ≤ f y) ∧ ∀ x, 0 ≤ x → 0 ≤ f x

/-- Validity of a device per the data model: non-negative coefficient
and dimensions, and a V-notch angle in `(0°, 180°)`. -/
def ValidOutlet : OutletStructure → Prop
  | .weir _ coefficient length _ => 0 ≤ coefficient ∧ 0 ≤ length
  | .vnotchWeir coefficient angle _ => 0 ≤ coefficient ∧ 0 < angle ∧ angle < 180
  | .orifice coefficient _ _ => 0 ≤ coefficient

/--
Claim-id: C7.
Every outlet device discharges 0 when its head (WSE minus the crest or
centre elevation) is non-positive; the composite discharge is the sum of
the individual discharges (0 for no devices); and — assuming the
primitives are monotone and non-negative on non-negative arguments, the
tangent of half a valid notch angle is non-negative, and `π ≥ 0` — every
valid device's discharge, and hence the composite, is monotone
non-decreasing in the water-surface elevation.
-/
theorem outletDischarge_spec :
    (∀ (p : Prims) (o : OutletStructure) (wse : ℚ),
      wse - o.referenceElevation ≤ 0 → outletDischarge p o wse = 0) ∧
    (∀ (p : Prims) (outlets : List OutletStructure) (wse : ℚ),
      compositeOutletDischarge p outlets wse =
        (outlets.map (fun o => outletDischarge p o wse)).sum) ∧
    (∀ (p : Prims) (wse : ℚ), compositeOutletDischarge p [] wse = 0) ∧
    (∀ p : Prims, MonotonePrim p.sqrt → MonotonePrim p.pow15 →
      MonotonePrim p.pow25 →
      (∀ θ, 0 < θ → θ < 180 → 0 ≤ p.tanHalfDeg θ) → 0 ≤ p.piVal →
      (∀ o, ValidOutlet o → ∀ w1 w2, w1 ≤ w2 →
        outletDischarge p o w1 ≤ outletDischarge p o w2) ∧
      (∀ outlets, (∀ o ∈ outlets, ValidOutlet o) → ∀ w1 w2, w1 ≤ w2 →
        compositeOutletDischarge p outlets w1 ≤
          compositeOutletDischarge p outlets w2)) := by
  have hsum : ∀ (p : Prims) (outlets : List OutletStructure) (wse : ℚ),
      compositeOutletDischarge p outlets wse =
        (outlets.map (fun o => outletDischarge p o wse)).sum := by
    intro p outlets wse
    unfold compositeOutletDischarge
    rw [foldl_add_eq_sum (fun o => outletDischarge p o wse) outlets 0, zero_add]
  refine ⟨?_, hsum, ?_, ?_⟩
  · intro p o wse h
    cases o with
    | weir subtype c l e =>
      cases subtype <;>
        simp only [outletDischarge, OutletStructure.referenceElevation,
          broadCrestedWeirDischarge, sharpCrestedWeirDischarge] at * <;>
        rw [if_pos (by linarith)]
    | vnotchWeir c a e =>
      simp only [outletDischarge, OutletStructure.referenceElevation,
        vNotchWeirDischarge] at *
      rw [if_pos (by linarith)]
    | orifice c d e =>
      simp only [outletDischarge, OutletStructure.referenceElevation,
        circularOrificeDischarge, orificeDischarge] at *
      rw [if_pos (by linarith)]
  · intro p wse; rfl
  · intro p hsqrt hpow15 hpow25 htan hpi
    have hmono : ∀ o, ValidOutlet o → ∀ w1 w2, w1 ≤ w2 →
        outletDischarge p o w1 ≤ outletDischarge p o w2 := by
      intro o ho w1 w2 hw
      have powMono : ∀ (f : ℚ → ℚ), MonotonePrim f → ∀ (K e : ℚ), 0 ≤ K →
          (if w1 - e ≤ 0 then 0 else K * f (w1 - e)) ≤
            (if w2 - e ≤ 0 then 0 else K * f (w2 - e)) := by
        intro f hf K e hK
        by_cases h1 : w1 - e ≤ 0
        · rw [if_pos h1]
          by_cases h2 : w2 - e ≤ 0
          · rw [if_pos h2]
          · rw [if_neg h2]
            exact mul_nonneg hK (hf.2 _ (by linarith))
        · rw [if_neg h1, if_neg (by linarith)]
          exact mul_le_mul_of_nonneg_left
            (hf.1 _ _ (by linarith) (by linarith)) hK
      cases o with
      | weir subtype c l e =>
        obtain ⟨hc, hl⟩ := ho
        have := powMono p.pow15 hpow15 (c * l) e (mul_nonneg hc hl)
        cases subtype <;>
          simpa only [outletDischarge, broadCrestedWeirDischarge,
            sharpCrestedWeirDischarge, mul_assoc] using this
      | vnotchWeir c a e =>
        obtain ⟨hc, ha0, ha180⟩ := ho
        have := powMono p.pow25 hpow25 (c * p.tanHalfDeg a) e
          (mul_nonneg hc (htan a ha0 ha180))
        simpa only [outletDischarge, vNotchWeirDischarge, mul_assoc] using this
      | orifice c d e =>
        have hc : (0:ℚ) ≤ c := ho
        have hA : 0 ≤ p.piVal * d * d / 4 := by
          have hd : 0 ≤ d * d := mul_self_nonneg d
          have : 0 ≤ p.piVal * (d * d) := mul_nonneg hpi hd
          nlinarith
        simp only [outletDischarge, circularOrificeDischarge, orificeDischarge]
        by_cases h1 : w1 - e ≤ 0
        · rw [if_pos h1]
          by_cases h2 : w2 - e ≤ 0
          · rw [if_pos h2]
          · rw [if_neg h2]
            exact mul_nonneg (mul_nonneg hc hA)
              (hsqrt.2 _ (by push_neg at h2; linarith))
        · rw [if_neg h1, if_neg (by linarith)]
          push_neg at h1
          exact mul_le_mul_of_nonneg_left
            (hsqrt.1 _ _ (by linarith) (by linarith))
            (mul_nonneg hc hA)
    refine ⟨hmono, ?_⟩
    intro outlets hvalid w1 w2 hw
    rw [hsum, hsum]
    exact List.sum_le_sum fun o ho => hmono o (hvalid o ho) w1 w2 hw

/-- Witness for C7: the identity primitives are monotone, and the
discharge of a valid concrete weir is monotone between WSE 1 and 2, via
`outletDischarge_spec`. -/
theorem outletDischarge_spec_witness :
    outletDischarge idPrims (.weir .broadCrested 3 2 0) 1 ≤
      outletDischarge idPrims (.weir .broadCrested 3 2 0) 2 := by
  have hid : MonotonePrim id := ⟨fun _ _ _ h => h, fun _ h => h⟩
  exact (outletDischarge_spec.2.2.2 idPrims hid hid hid
    (fun θ h0 _ => le_of_lt h0) (by norm_num [idPrims])).1
    (.weir .broadCrested 3 2 0) ⟨by norm_num, by norm_num⟩ 1 2 (by norm_num)

/-! ## C8 — `getIncrementalRainfall` -/

/-- The well-formedness relation of a distribution table: strictly
increasing times, non-decreasing cumulative fractions. -/
def TableR (a b : ℚ × ℚ) : Prop := a.1 < b.1 ∧ a.2 ≤ b.2

instance tableRTrans : IsTrans (ℚ × ℚ) TableR :=
  ⟨fun _ _ _ h1 h2 => ⟨lt_trans h1.1 h2.1, le_trans h1.2 h2.2⟩⟩

/-- Executable check of `TableR` along a list (kernel-reducible, unlike
the generic `Chain'` instance). -/
def tableSortedB : List (ℚ × ℚ) → Bool
  | [] => true
  | [_] => true
  | a :: b :: r =>
    (decide (a.1 < b.1) && decide (a.2 ≤ b.2)) && tableSortedB (b :: r)

/-- `tableSortedB` really checks the chain. -/
lemma tableSortedB_sound : ∀ l, tableSortedB l = true → List.Chain' TableR l
  | [], _ => List.chain'_nil
  | [_], _ => List.chain'_singleton _
  | a :: b :: r, h => by
    simp only [tableSortedB, Bool.and_eq_true, decide_eq_true_eq] at h
    exact List.Chain'.cons ⟨h.1.1, h.1.2⟩ (tableSortedB_sound (b :: r) h.2)

/-- Along a `TableR` chain, the head value is at most the last value. -/
lemma chain_snd_le_getLast :
    ∀ (x : ℚ × ℚ) (l : List (ℚ × ℚ)), List.Chain' TableR (x :: l) →
      x.2 ≤ ((x :: l).getLast (by simp)).2
  | _, [], _ => le_refl _
  | x, y :: l, h => by
    rw [List.getLast_cons (by simp)]
    exact le_trans (List.chain'_cons.mp h).1.2
      (chain_snd_le_getLast y l (List.chain'_cons.mp h).2)

/-- Along a `TableR` chain with a non-trivial tail, the head time is
strictly below the last time. -/
lemma chain_fst_lt_getLast :
    ∀ (x y : ℚ × ℚ) (l : List (ℚ × ℚ)), List.Chain' TableR (x :: y :: l) →
      x.1 < ((x :: y :: l).getLast (by simp)).1
  | x, y, [], h => (List.chain'_cons.mp h).1.1
  | x, y, z :: l, h => by
    rw [List.getLast_cons (by simp)]
    exact lt_trans (List.chain'_cons.mp h).1.1
      (chain_fst_lt_getLast y z l (List.chain'_cons.mp h).2)

/-- Lower bound of `pairScan`: at a query strictly above the head time
and at most the last time, the result is at least the head value. -/
lemma pairScan_lb :
    ∀ (prev : ℚ × ℚ) (rest : List (ℚ × ℚ)) (t dflt : ℚ),
      List.Chain' TableR (prev :: rest) →
      prev.1 < t → t ≤ ((prev :: rest).getLast (by simp)).1 →
      prev.2 ≤ pairScan prev rest t dflt
  | prev, [], t, dflt, _, hlo, hhi => absurd (lt_of_lt_of_le hlo hhi) (lt_irrefl _)
  | prev, q :: qs, t, dflt, h, hlo, hhi => by
    obtain ⟨⟨hq1, hq2⟩, htail⟩ := List.chain'_cons.mp h
    unfold pairScan
    by_cases hc : t ≤ q.1
    · rw [if_pos hc]
      have hden : 0 < q.1 - prev.1 := by linarith
      have hfrac : 0 ≤ (t - prev.1) / (q.1 - prev.1) :=
        div_nonneg (by linarith) (le_of_lt hden)
      nlinarith [mul_nonneg hfrac (by linarith : (0:ℚ) ≤ q.2 - prev.2)]
    · rw [if_neg hc]
      push_neg at hc
      rw [List.getLast_cons (by simp)] at hhi
      exact le_trans hq2 (pairScan_lb q qs t dflt htail hc hhi)

/-- Upper bound of `pairScan`: at a query at most the last time, the
result is at most the last value. -/
lemma pairScan_ub :
    ∀ (prev : ℚ × ℚ) (q : ℚ × ℚ) (qs : List (ℚ × ℚ)) (t dflt : ℚ),
      List.Chain' TableR (prev :: q :: qs) →
      t ≤ ((prev :: q :: qs).getLast (by simp)).1 →
      pairScan prev (q :: qs) t dflt ≤ ((prev :: q :: qs).getLast (by simp)).2
  | prev, q, qs, t, dflt, h, hhi => by
    obtain ⟨⟨hq1, hq2⟩, htail⟩ := List.chain'_cons.mp h
    rw [List.getLast_cons (by simp)] at hhi ⊢
    unfold pairScan
    by_cases hc : t ≤ q.1
    · rw [if_pos hc]
      have hden : 0 < q.1 - prev.1 := by linarith
      have hfrac : (t - prev.1) / (q.1 - prev.1) ≤ 1 :=
        (div_le_one hden).mpr (by linarith)
      have hql : q.2 ≤ ((q :: qs).getLast (by simp)).2 :=
        chain_snd_le_getLast q qs htail
      nlinarith [mul_nonneg (by linarith : (0:ℚ) ≤ 1 - (t - prev.1) / (q.1 - prev.1))
        (by linarith : (0:ℚ) ≤ q.2 - prev.2)]
    · rw [if_neg hc]
      push_neg at hc
      match qs, htail, hhi with
      | [], _, hhi => exact absurd (lt_of_lt_of_le hc hhi) (lt_irrefl _)
      | r :: rs, htail, hhi => exact pairScan_ub q r rs t dflt htail hhi

/-- Monotonicity of `pairScan` between two interior queries. -/
lemma pairScan_mono :
    ∀ (prev : ℚ × ℚ) (rest : List (ℚ × ℚ)) (t1 t2 dflt : ℚ),
      List.Chain' TableR (prev :: rest) →
      prev.1 < t1 → t1 ≤ t2 → t2 ≤ ((prev :: rest).getLast (by simp)).1 →
      pairScan prev rest t1 dflt ≤ pairScan prev rest t2 dflt
  | prev, [], t1, t2, dflt, _, hlo, h12, hhi =>
    absurd (lt_of_lt_of_le hlo (le_trans h12 hhi)) (lt_irrefl _)
  | prev, q :: qs, t1, t2, dflt, h, hlo, h12, hhi => by
    obtain ⟨⟨hq1, hq2⟩, htail⟩ := List.chain'_cons.mp h
    unfold pairScan
    by_cases hc1 : t1 ≤ q.1
    · rw [if_pos hc1]
      by_cases hc2 : t2 ≤ q.1
      · rw [if_pos hc2]
        have hden : 0 < q.1 - prev.1 := by linarith
        have hdiv : (t1 - prev.1) / (q.1 - prev.1) ≤ (t2 - prev.1) / (q.1 - prev.1) :=
          (div_le_div_right hden).mpr (by linarith)
        nlinarith [mul_le_mul_of_nonneg_right hdiv
          (by linarith : (0:ℚ) ≤ q.2 - prev.2)]
      · rw [if_neg hc2]
        push_neg at hc2
        rw [List.getLast_cons (by simp)] at hhi
        have hup : prev.2 + (t1 - prev.1) / (q.1 - prev.1) * (q.2 - prev.2) ≤ q.2 := by
          have hden : 0 < q.1 - prev.1 := by linarith
          have hfrac : (t1 - prev.1) / (q.1 - prev.1) ≤ 1 :=
            (div_le_one hden).mpr (by linarith)
          nlinarith [mul_nonneg
            (by linarith : (0:ℚ) ≤ 1 - (t1 - prev.1) / (q.1 - prev.1))
            (by linarith : (0:ℚ) ≤ q.2 - prev.2)]
        exact le_trans hup (pairScan_lb q qs t2 dflt htail hc2 hhi)
    · rw [if_neg hc1, if_neg (by push_neg at hc1 ⊢; linarith)]
      push_neg at hc1
      rw [List.getLast_cons (by simp)] at hhi
      exact pairScan_mono q qs t1 t2 dflt htail hc1 h12 hhi

/-- Unfolding of `interpolateCumulative` on a non-empty table. -/
lemma interpolateCumulative_cons (d : ℚ × ℚ) (rest : List (ℚ × ℚ)) (t : ℚ) :
    interpolateCumulative (d :: rest) t =
      if t ≤ d.1 then d.2
      else if t ≥ ((d :: rest).getLast (by simp)).1 then
        ((d :: rest).getLast (by simp)).2
      else pairScan d rest t ((d :: rest).getLast (by simp)).2 := rfl

/-- Piecewise-linear interpolation over a well-formed table is monotone
in the query time. -/
lemma interpolateCumulative_mono {dist : List (ℚ × ℚ)}
    (hchain : List.Chain' TableR dist) {t1 t2 : ℚ} (h12 : t1 ≤ t2) :
    interpolateCumulative dist t1 ≤ interpolateCumulative dist t2 := by
  match dist, hchain with
  | [], _ => exact le_refl _
  | [d], _ =>
    have hsingle : ∀ t, interpolateCumulative [d] t = d.2 := by
      intro t
      rw [interpolateCumulative_cons]
      by_cases c : t ≤ d.1
      · rw [if_pos c]
      · rw [if_neg c,
          if_pos (by simp only [List.getLast_singleton]; push_neg at c; exact le_of_lt c)]
        simp only [List.getLast_singleton]
    rw [hsingle t1, hsingle t2]
  | d :: q :: qs, hchain =>
    show interpolateCumulative (d :: q :: qs) t1 ≤
      interpolateCumulative (d :: q :: qs) t2
    · rw [interpolateCumulative_cons, interpolateCumulative_cons]
      have hd_last : d.2 ≤ ((d :: q :: qs).getLast (by simp)).2 :=
        chain_snd_le_getLast d (q :: qs) hchain
      have hx_last : d.1 < ((d :: q :: qs).getLast (by simp)).1 :=
        chain_fst_lt_getLast d q qs hchain
      by_cases c1 : t1 ≤ d.1
      · rw [if_pos c1]
        by_cases c2 : t2 ≤ d.1
        · rw [if_pos c2]
        · rw [if_neg c2]
          push_neg at c2
          by_cases c3 : t2 ≥ ((d :: q :: qs).getLast (by simp)).1
          · rw [if_pos c3]; exact hd_last
          · rw [if_neg c3]
            push_neg at c3
            exact pairScan_lb d (q :: qs) t2 _ hchain c2 (le_of_lt c3)
      · rw [if_neg c1]
        push_neg at c1
        have nc1' : ¬ t2 ≤ d.1 := by linarith
        rw [if_neg nc1']
        by_cases c3 : t1 ≥ ((d :: q :: qs).getLast (by simp)).1
        · rw [if_pos c3, if_pos (by exact le_trans c3 h12)]
        · rw [if_neg c3]
          push_neg at c3
          by_cases c4 : t2 ≥ ((d :: q :: qs).getLast (by simp)).1
          · rw [if_pos c4]
            exact pairScan_ub d q qs t1 _ hchain (le_of_lt c3)
          · rw [if_neg c4]
            push_neg at c4
            exact pairScan_mono d (q :: qs) t1 t2 _ hchain c1 h12 (le_of_lt c4)

/-- The four distribution tables are well formed. -/
lemma distributions_sorted (st : StormType) :
    List.Chain' TableR (DISTRIBUTIONS st) := by
  apply tableSortedB_sound
  cases st <;> with_unfolding_all decide

/-- The cumulative fraction is 0 at time 0 for every storm type. -/
lemma interpolateCumulative_zero (st : StormType) :
    interpolateCumulative (DISTRIBUTIONS st) 0 = 0 := by
  cases st <;> with_unfolding_all decide

/-- The cumulative fraction is 1 at hour 24 for every storm type. -/
lemma interpolateCumulative_24 (st : StormType) :
    interpolateCumulative (DISTRIBUTIONS st) 24 = 1 := by
  cases st <;> with_unfolding_all decide

/-- `getCumulativeRainfall` is monotone in time for non-negative total
depth. -/
lemma getCumulativeRainfall_mono (st : StormType) {P : ℚ} (hP : 0 ≤ P)
    {t1 t2 : ℚ} (h12 : t1 ≤ t2) :
    getCumulativeRainfall st P t1 ≤ getCumulativeRainfall st P t2 :=
  mul_le_mul_of_nonneg_left
    (interpolateCumulative_mono (distributions_sorted st) h12) hP

/-- One unfolding step of `incRainLoop`. -/
lemma incRainLoop_succ (st : StormType) (P Δt : ℚ) (fuel k : ℕ)
    (prevCum : ℚ) (acc : List (ℚ × ℚ)) :
    incRainLoop st P Δt (fuel + 1) k prevCum acc =
      if (k : ℚ) * Δt ≤ 24 + Δt / 2 then
        if min ((k : ℚ) * Δt) 24 ≥ 24 then
          acc ++ [(min ((k : ℚ) * Δt) 24,
            getCumulativeRainfall st P (min ((k : ℚ) * Δt) 24) - prevCum)]
        else
          incRainLoop st P Δt fuel (k + 1)
            (getCumulativeRainfall st P (min ((k : ℚ) * Δt) 24))
            (acc ++ [(min ((k : ℚ) * Δt) 24,
              getCumulativeRainfall st P (min ((k : ℚ) * Δt) 24) - prevCum)])
      else acc := rfl

/-- Characterisation of the incremental-rainfall loop from step `k` on,
when the loop bound reaches hour 24
(`⌈24/Δt⌉·Δt ≤ 24 + Δt/2`). -/
lemma incRainLoop_run (st : StormType) (P Δt : ℚ) (hP : 0 < P) (hΔt : 0 < Δt)
    (hcond : ((Nat.ceil ((24 : ℚ) / Δt) : ℕ) : ℚ) * Δt ≤ 24 + Δt / 2) :
    ∀ (fuel : ℕ), ∀ (k : ℕ) (acc : List (ℚ × ℚ)),
      1 ≤ k → k ≤ Nat.ceil ((24 : ℚ) / Δt) →
      Nat.ceil ((24 : ℚ) / Δt) - k < fuel →
      ∃ L, incRainLoop st P Δt fuel k
          (getCumulativeRainfall st P (min (((k - 1 : ℕ) : ℚ) * Δt) 24)) acc =
            acc ++ L ∧
        L ≠ [] ∧
        (∃ v, L.getLast? = some (24, v)) ∧
        (∀ pr ∈ L, 0 ≤ pr.2) ∧
        (L.map (·.2)).sum =
          getCumulativeRainfall st P 24 -
            getCumulativeRainfall st P (min (((k - 1 : ℕ) : ℚ) * Δt) 24) := by
  have h24m : (24 : ℚ) ≤ ((Nat.ceil ((24 : ℚ) / Δt) : ℕ) : ℚ) * Δt := by
    have h1 : (24 : ℚ) / Δt ≤ ((Nat.ceil ((24 : ℚ) / Δt) : ℕ) : ℚ) :=
      Nat.le_ceil _
    calc (24 : ℚ) = 24 / Δt * Δt := by field_simp
    _ ≤ _ := mul_le_mul_of_nonneg_right h1 (le_of_lt hΔt)
  have hlt24 : ∀ k : ℕ, k < Nat.ceil ((24 : ℚ) / Δt) → (k : ℚ) * Δt < 24 := by
    intro k hk
    have h1 : (k : ℚ) < 24 / Δt := Nat.lt_ceil.mp hk
    calc (k : ℚ) * Δt < 24 / Δt * Δt :=
      mul_lt_mul_of_pos_right h1 hΔt
    _ = 24 := by field_simp
  intro fuel
  induction fuel with
  | zero => intro k acc _ _ hfuel; omega
  | succ f ih =>
    intro k acc hk1 hkm hfuel
    rw [incRainLoop_succ]
    have hcount : (k : ℚ) * Δt ≤ 24 + Δt / 2 := by
      have : (k : ℚ) ≤ ((Nat.ceil ((24 : ℚ) / Δt) : ℕ) : ℚ) := by
        exact_mod_cast hkm
      calc (k : ℚ) * Δt ≤ ((Nat.ceil ((24 : ℚ) / Δt) : ℕ) : ℚ) * Δt :=
        mul_le_mul_of_nonneg_right this (le_of_lt hΔt)
      _ ≤ 24 + Δt / 2 := hcond
    rw [if_pos hcount]
    have hprevle : getCumulativeRainfall st P (min (((k - 1 : ℕ) : ℚ) * Δt) 24) ≤
        getCumulativeRainfall st P (min ((k : ℚ) * Δt) 24) := by
      apply getCumulativeRainfall_mono st (le_of_lt hP)
      apply min_le_min _ (le_refl _)
      apply mul_le_mul_of_nonneg_right _ (le_of_lt hΔt)
      exact_mod_cast Nat.sub_le k 1
    rcases Nat.lt_or_ge k (Nat.ceil ((24 : ℚ) / Δt)) with hklt | hkge
    · -- interior step: time = k·Δt < 24, recurse
      have htime : min ((k : ℚ) * Δt) 24 = (k : ℚ) * Δt :=
        min_eq_left (le_of_lt (hlt24 k hklt))
      rw [if_neg (by rw [htime]; push_neg; exact hlt24 k hklt)]
      have hk1' : ((k + 1 - 1 : ℕ) : ℚ) = (k : ℚ) := by push_cast; ring
      have hrec := ih (k + 1) (acc ++ [(min ((k : ℚ) * Δt) 24,
          getCumulativeRainfall st P (min ((k : ℚ) * Δt) 24) -
            getCumulativeRainfall st P (min (((k - 1 : ℕ) : ℚ) * Δt) 24))])
        (by omega) hklt (by omega)
      rw [hk1'] at hrec
      obtain ⟨L', hL'eq, hL'ne, hL'last, hL'nonneg, hL'sum⟩ := hrec
      refine ⟨(min ((k : ℚ) * Δt) 24,
          getCumulativeRainfall st P (min ((k : ℚ) * Δt) 24) -
            getCumulativeRainfall st P (min (((k - 1 : ℕ) : ℚ) * Δt) 24)) :: L',
        ?_, by simp, ?_, ?_, ?_⟩
      · rw [hL'eq, List.append_assoc]; rfl
      · obtain ⟨v, hv⟩ := hL'last
        refine ⟨v, ?_⟩
        match L', hL'ne, hv with
        | x :: xs, _, hv => rw [List.getLast?_cons_cons]; exact hv
      · intro pr hpr
        rcases List.mem_cons.mp hpr with rfl | hpr'
        · simp only; linarith
        · exact hL'nonneg pr hpr'
      · rw [List.map_cons, List.sum_cons, hL'sum]; ring
    · -- final step: k = ⌈24/Δt⌉, time = 24, emit and stop
      have hkeq : k = Nat.ceil ((24 : ℚ) / Δt) := le_antisymm hkm hkge
      have htime : min ((k : ℚ) * Δt) 24 = 24 := by
        apply min_eq_right
        rw [hkeq]; exact h24m
      rw [if_pos (by rw [htime])]
      refine ⟨[(min ((k : ℚ) * Δt) 24,
          getCumulativeRainfall st P (min ((k : ℚ) * Δt) 24) -
            getCumulativeRainfall st P (min (((k - 1 : ℕ) : ℚ) * Δt) 24))],
        rfl, by simp, ⟨_, by rw [htime]; rfl⟩, ?_, ?_⟩
      · intro pr hpr
        rcases List.mem_singleton.mp hpr with rfl
        simp only; linarith
      · rw [htime]; simp

/--
Claim-id: C8 (amended).
For every storm type, `totalDepth > 0` and `timeStep > 0` SUCH THAT the
first multiple of `timeStep` at or beyond hour 24 is within the loop
bound (`⌈24/Δt⌉·Δt ≤ 24 + Δt/2`; in particular whenever `Δt` divides
24), `getIncrementalRainfall` returns a non-empty sequence whose last
sample time is exactly 24 hours, whose incremental depths are all
non-negative, and whose depths sum to exactly `totalDepth`.  (Without
the side condition the loop can stop before hour 24, refuting the
original claim; see the C8 counterexample below.)
-/
theorem getIncrementalRainfall_spec (st : StormType) (P Δt : ℚ)
    (hP : 0 < P) (hΔt : 0 < Δt)
    (hcond : ((Nat.ceil ((24 : ℚ) / Δt) : ℕ) : ℚ) * Δt ≤ 24 + Δt / 2) :
    ∃ L, getIncrementalRainfall st P Δt = .ok L ∧ L ≠ [] ∧
      (∃ v, L.getLast? = some (24, v)) ∧ (∀ pr ∈ L, 0 ≤ pr.2) ∧
      (L.map (·.2)).sum = P := by
  have hcum0 : getCumulativeRainfall st P (min (((1 - 1 : ℕ) : ℚ) * Δt) 24) = 0 := by
    have : min (((1 - 1 : ℕ) : ℚ) * Δt) 24 = 0 := by
      norm_num
    rw [this]
    unfold getCumulativeRainfall
    rw [interpolateCumulative_zero st, mul_zero]
  have hm1 : 1 ≤ Nat.ceil ((24 : ℚ) / Δt) :=
    Nat.one_le_iff_ne_zero.mpr (Nat.pos_iff_ne_zero.mp
      (Nat.ceil_pos.mpr (by positivity)))
  obtain ⟨L, hLeq, hLne, hLlast, hLnonneg, hLsum⟩ :=
    incRainLoop_run st P Δt hP hΔt hcond (Nat.ceil ((24 : ℚ) / Δt) + 2) 1 []
      (le_refl 1) hm1 (by omega)
  rw [hcum0] at hLeq hLsum
  refine ⟨L, ?_, hLne, hLlast, hLnonneg, ?_⟩
  · unfold getIncrementalRainfall
    rw [if_neg (by push_neg; exact hΔt)]
    rw [hLeq, List.nil_append]
  · rw [hLsum]
    unfold getCumulativeRainfall
    rw [interpolateCumulative_24 st]
    ring

/-- Witness for C8: storm type II, 5 inches, Δt = 8 h (which divides 24),
via `getIncrementalRainfall_spec`. -/
theorem getIncrementalRainfall_spec_witness :
    ∃ L, getIncrementalRainfall .II 5 8 = .ok L ∧ L ≠ [] ∧
      (∃ v, L.getLast? = some (24, v)) ∧ (∀ pr ∈ L, 0 ≤ pr.2) ∧
      (L.map (·.2)).sum = 5 := by
  have hceil : Nat.ceil ((24 : ℚ) / 8) = 3 := by
    rw [Nat.ceil_eq_iff (by norm_num)]
    norm_num
  exact getIncrementalRainfall_spec .II 5 8 (by norm_num) (by norm_num)
    (by rw [hceil]; norm_num)

/--
Claim-id: C8 (counterexample).
At `Δt = 7` the loop bound `t ≤ 24 + Δt/2` stops the loop at hour 21:
the last sample time is 21 (not 24) and the increments sum to
`5·F(21) = 193/40 ≠ 5`.
-/
theorem getIncrementalRainfall_claim_false :
    getIncrementalRainfall StormType.II 5 7 =
      .ok [(7, 1/2), (14, 18/5), (21, 29/40)] ∧
    ([(7, (1:ℚ)/2), (14, 18/5), (21, 29/40)].getLast?.map Prod.fst) = some 21 ∧
    (21 : ℚ) ≠ 24 ∧
    ([(7, (1:ℚ)/2), (14, 18/5), (21, 29/40)].map (·.2)).sum = 193/40 ∧
    (193/40 : ℚ) ≠ 5 := by
  refine ⟨?_, by rfl, by norm_num, ?_, by norm_num⟩
  · with_unfolding_all decide
  · norm_num

/-! ## C9 — `generateHydrograph` -/

/-- `addAt` preserves length. -/
lemma addAt_length (arr : List ℚ) (idx : ℕ) (v : ℚ) :
    (addAt arr idx v).length = arr.length := by
  simp [addAt]

/-- `convInner` preserves length. -/
lemma convInner_length (e : ℚ) :
    ∀ (us : List ℚ) (idx : ℕ) (arr : List ℚ),
      (convInner e us idx arr).length = arr.length
  | [], _, _ => rfl
  | u :: us, idx, arr => by
    rw [convInner, convInner_length e us (idx + 1) (addAt arr idx (e * u)),
      addAt_length]

/-- `convOuter` preserves length. -/
lemma convOuter_length :
    ∀ (es : List ℚ) (j : ℕ) (uh arr : List ℚ),
      (convOuter es j uh arr).length = arr.length
  | [], _, _, _ => rfl
  | e :: es, j, uh, arr => by
    rw [convOuter]
    by_cases h : e ≤ 0
    · rw [if_pos h, convOuter_length es (j + 1) uh arr]
    · rw [if_neg h, convOuter_length es (j + 1) uh (convInner e uh j arr),
        convInner_length]

/-- The invariant maintained by the output-assembly loop of
`generateHydrograph`: times are `j·Δt`, flows are non-negative, the peak
is the running maximum (with 0), every flow is at most the peak, and the
time-to-peak marks the first attainment of the peak. -/
def AssembleInv (dt : ℚ) (st : List HydrographPoint × ℚ × ℚ) : Prop :=
  (∀ j, j < st.1.length → (st.1.getD j ⟨0, 0⟩).time = (j : ℚ) * dt) ∧
  (∀ pt ∈ st.1, 0 ≤ pt.flow) ∧
  0 ≤ st.2.1 ∧
  st.2.1 = (st.1.map (·.flow)).foldl max 0 ∧
  (∀ pt ∈ st.1, pt.flow ≤ st.2.1) ∧
  (if st.1.isEmpty then st.2.1 = 0 ∧ st.2.2 = 0
   else ∃ idx, idx < st.1.length ∧ st.1.getD idx ⟨0, 0⟩ = ⟨st.2.2, st.2.1⟩ ∧
     ∀ j, j < idx → (st.1.getD j ⟨0, 0⟩).flow < st.2.1)

/-- One unfolding step of `hydAssemble`. -/
lemma hydAssemble_cons (dt v : ℚ) (vs : List ℚ) (i : ℕ)
    (pts : List HydrographPoint) (pk tp : ℚ) :
    hydAssemble dt (v :: vs) i (pts, pk, tp) =
      if max 0 v > pk then
        hydAssemble dt vs (i + 1)
          (pts ++ [⟨(i : ℚ) * dt, max 0 v⟩], max 0 v, (i : ℚ) * dt)
      else
        hydAssemble dt vs (i + 1)
          (pts ++ [⟨(i : ℚ) * dt, max 0 v⟩], pk, tp) := rfl

/-- Appending the next point preserves `AssembleInv` (the peak and its
time updated as in the loop body). -/
lemma assembleInv_step (dt v : ℚ) (pts : List HydrographPoint) (pk tp : ℚ)
    (hinv : AssembleInv dt (pts, pk, tp)) :
    AssembleInv dt (pts ++ [⟨(pts.length : ℚ) * dt, max 0 v⟩],
      if max 0 v > pk then max 0 v else pk,
      if max 0 v > pk then (pts.length : ℚ) * dt else tp) := by
  obtain ⟨htimes, hnn, hpk0, hpkmax, hbound, hattain⟩ := hinv
  simp only at htimes hnn hpk0 hpkmax hbound hattain
  have hf0 : 0 ≤ max 0 v := le_max_left 0 v
  refine ⟨?_, ?_, ?_, ?_, ?_, ?_⟩
  · intro j hj
    simp only [List.length_append, List.length_singleton] at hj
    rcases Nat.lt_or_ge j pts.length with hlt | hge
    · simp only
      rw [List.getD_append _ _ _ _ hlt]
      exact htimes j hlt
    · have hj2 : j = pts.length := by omega
      simp only
      rw [hj2, List.getD_append_right _ _ _ _ (le_refl _)]
      simp
  · intro pt hpt
    rcases List.mem_append.mp hpt with h | h
    · exact hnn pt h
    · rcases List.mem_singleton.mp h with rfl
      exact hf0
  · simp only
    by_cases hc : max 0 v > pk
    · rw [if_pos hc]; exact hf0
    · rw [if_neg hc]; exact hpk0
  · simp only
    rw [List.map_append, List.foldl_append, ← hpkmax]
    simp only [List.map_cons, List.map_nil, List.foldl_cons, List.foldl_nil]
    by_cases hc : max 0 v > pk
    · rw [if_pos hc]
      exact (max_eq_right (le_of_lt hc)).symm
    · rw [if_neg hc]
      exact (max_eq_left (not_lt.mp hc)).symm
  · intro pt hpt
    simp only
    by_cases hc : max 0 v > pk
    · rw [if_pos hc]
      rcases List.mem_append.mp hpt with h | h
      · exact le_trans (hbound pt h) (le_of_lt hc)
      · rcases List.mem_singleton.mp h with rfl
        exact le_refl _
    · rw [if_neg hc]
      rcases List.mem_append.mp hpt with h | h
      · exact hbound pt h
      · rcases List.mem_singleton.mp h with rfl
        exact not_lt.mp hc
  · have hne : ¬ (pts ++ [(⟨(pts.length : ℚ) * dt, max 0 v⟩ : HydrographPoint)]).isEmpty := by
      simp
    rw [if_neg hne]
    by_cases hc : max 0 v > pk
    · refine ⟨pts.length, by simp, ?_, ?_⟩
      · simp only [if_pos hc]
        rw [List.getD_append_right _ _ _ _ (le_refl _)]
        simp
      · intro j hj
        simp only [if_pos hc]
        rw [List.getD_append _ _ _ _ hj]
        refine lt_of_le_of_lt (hbound _ ?_) hc
        rw [List.getD_eq_getElem _ _ hj]
        exact List.getElem_mem _
    · by_cases hemp : pts.isEmpty
      · rw [if_pos hemp] at hattain
        obtain ⟨hpk, htp⟩ := hattain
        have hfe : max 0 v = 0 := by
          have h2 : max 0 v ≤ pk := not_lt.mp hc
          rw [hpk] at h2
          exact le_antisymm h2 hf0
        have hpts_nil : pts = [] := List.isEmpty_iff.mp hemp
        refine ⟨0, by simp, ?_, by omega⟩
        simp only [if_neg hc]
        rw [hpts_nil]
        simp [hfe, hpk, htp]
      · rw [if_neg hemp] at hattain
        obtain ⟨idx, hidx, heq, hfirst⟩ := hattain
        refine ⟨idx, by simp only [List.length_append]; omega, ?_, ?_⟩
        · simp only [if_neg hc]
          rw [List.getD_append _ _ _ _ hidx]
          exact heq
        · intro j hj
          simp only [if_neg hc]
          rw [List.getD_append _ _ _ _ (lt_trans hj hidx)]
          exact hfirst j hj

/-- `hydAssemble` preserves `AssembleInv` and extends the list by one
point per input value. -/
lemma hydAssemble_inv (dt : ℚ) :
    ∀ (vs : List ℚ) (pts : List HydrographPoint) (pk tp : ℚ),
      AssembleInv dt (pts, pk, tp) →
      AssembleInv dt (hydAssemble dt vs pts.length (pts, pk, tp)) ∧
        (hydAssemble dt vs pts.length (pts, pk, tp)).1.length =
          pts.length + vs.length
  | [], pts, pk, tp, hinv => ⟨hinv, by simp [hydAssemble]⟩
  | v :: vs, pts, pk, tp, hinv => by
    have hstep := assembleInv_step dt v pts pk tp hinv
    rw [hydAssemble_cons]
    have hlen2 : (pts ++ [(⟨(pts.length : ℚ) * dt, max 0 v⟩ : HydrographPoint)]).length =
        pts.length + 1 := by simp
    by_cases hc : max 0 v > pk
    · simp only [if_pos hc] at hstep ⊢
      have hrec := hydAssemble_inv dt vs
        (pts ++ [⟨(pts.length : ℚ) * dt, max 0 v⟩]) (max 0 v)
        ((pts.length : ℚ) * dt) hstep
      rw [hlen2] at hrec
      refine ⟨hrec.1, ?_⟩
      rw [hrec.2]
      simp only [List.length_cons]
      omega
    · simp only [if_neg hc] at hstep ⊢
      have hrec := hydAssemble_inv dt vs
        (pts ++ [⟨(pts.length : ℚ) * dt, max 0 v⟩]) pk tp hstep
      rw [hlen2] at hrec
      refine ⟨hrec.1, ?_⟩
      rw [hrec.2]
      simp only [List.length_cons]
      omega

/-- The assembly stage produces exactly one point per flow value, with
times `i·Δt`, clamped non-negative flows, the peak equal to the maximum,
and the time-to-peak marking its first attainment. -/
lemma assembleHydrograph_spec (dt : ℚ) (flowValues : List ℚ) :
    (assembleHydrograph dt flowValues).hydrograph.length = flowValues.length ∧
    (∀ i, i < (assembleHydrograph dt flowValues).hydrograph.length →
      ((assembleHydrograph dt flowValues).hydrograph.getD i ⟨0, 0⟩).time =
        (i : ℚ) * dt) ∧
    (∀ pt ∈ (assembleHydrograph dt flowValues).hydrograph, 0 ≤ pt.flow) ∧
    (assembleHydrograph dt flowValues).peakFlow =
      ((assembleHydrograph dt flowValues).hydrograph.map (·.flow)).foldl max 0 ∧
    (flowValues ≠ [] →
      ∃ idx, idx < (assembleHydrograph dt flowValues).hydrograph.length ∧
        (assembleHydrograph dt flowValues).hydrograph.getD idx ⟨0, 0⟩ =
          ⟨(assembleHydrograph dt flowValues).timeToPeak,
            (assembleHydrograph dt flowValues).peakFlow⟩ ∧
        ∀ j, j < idx →
          ((assembleHydrograph dt flowValues).hydrograph.getD j ⟨0, 0⟩).flow <
            (assembleHydrograph dt flowValues).peakFlow) := by
  have hinv0 : AssembleInv dt (([] : List HydrographPoint), (0:ℚ), (0:ℚ)) := by
    refine ⟨?_, ?_, le_refl _, rfl, ?_, ?_⟩
    · intro j hj; simp at hj
    · intro pt hpt; simp at hpt
    · intro pt hpt; simp at hpt
    · simp
  have hmain := hydAssemble_inv dt flowValues [] 0 0 hinv0
  rw [List.length_nil] at hmain
  obtain ⟨⟨htimes, hnn, _, hpkmax, _, hattain⟩, hlen⟩ := hmain
  have hlen2 : (assembleHydrograph dt flowValues).hydrograph.length =
      flowValues.length := by
    show (hydAssemble dt flowValues 0 ([], 0, 0)).1.length = _
    rw [hlen]; omega
  refine ⟨hlen2, htimes, hnn, hpkmax, ?_⟩
  intro hne
  have hne2 : ¬ (hydAssemble dt flowValues 0
      (([] : List HydrographPoint), (0:ℚ), (0:ℚ))).1.isEmpty := by
    rw [List.isEmpty_iff]
    intro hcontra
    apply hne
    have := congrArg List.length hcontra
    rw [hlen] at this
    simp at this
    exact this
  rw [if_neg hne2] at hattain
  exact hattain

/--
Claim-id: C9.
Every hydrograph returned by `generateHydrograph` (positive area,
`CN ∈ (0,100]`, `Tc > 0`, auto time step) is a non-empty sequence with
sample times `0, Δt, 2Δt, …` (hence strictly increasing with uniform
spacing `Δt = max(0.01, min(Tc/5, 0.1)) > 0`), all flows are
non-negative (negative convolution results are clamped to 0), the
reported `peakFlow` is the maximum flow of the sequence, and
`timeToPeak` is the earliest time attaining that maximum.
-/
theorem generateHydrograph_spec (area cn tc : ℚ) (st : StormType) (P : ℚ)
    (harea : 0 < area) (hcn0 : 0 < cn) (hcn100 : cn ≤ 100) (htc : 0 < tc) :
    ∀ res, generateHydrograph area cn tc st P none (1/5) = .ok res →
      res.hydrograph ≠ [] ∧
      0 < max (1/100) (min (tc/5) (1/10)) ∧
      (∀ i, i < res.hydrograph.length →
        (res.hydrograph.getD i ⟨0, 0⟩).time =
          (i : ℚ) * max (1/100) (min (tc/5) (1/10))) ∧
      (∀ pt ∈ res.hydrograph, 0 ≤ pt.flow) ∧
      res.peakFlow = (res.hydrograph.map (·.flow)).foldl max 0 ∧
      (∃ idx, idx < res.hydrograph.length ∧
        res.hydrograph.getD idx ⟨0, 0⟩ = ⟨res.timeToPeak, res.peakFlow⟩ ∧
        ∀ j, j < idx → (res.hydrograph.getD j ⟨0, 0⟩).flow < res.peakFlow) := by
  intro res hres
  have hD0 : (0:ℚ) < max (1/100) (min (tc/5) (1/10)) :=
    lt_of_lt_of_le (by norm_num) (le_max_left _ _)
  unfold generateHydrograph at hres
  simp only [Option.getD_none] at hres
  cases hex : excessLoop st P cn (1/5) (max (1/100) (min (tc/5) (1/10)))
      (Nat.ceil (24 / max (1/100) (min (tc/5) (1/10)))) 1 0 [] with
  | error e => rw [hex] at hres; exact absurd hres (by simp)
  | ok ex =>
    rw [hex] at hres
    simp only [Except.ok.injEq] at hres
    rw [← hres]
    refine ⟨?_, hD0, (assembleHydrograph_spec _ _).2.1,
      (assembleHydrograph_spec _ _).2.2.1,
      (assembleHydrograph_spec _ _).2.2.2.1,
      (assembleHydrograph_spec _ _).2.2.2.2 ?_⟩
    · apply List.ne_nil_of_length_pos
      rw [(assembleHydrograph_spec _ _).1, convOuter_length, List.length_replicate]
      omega
    · apply List.ne_nil_of_length_pos
      rw [convOuter_length, List.length_replicate]
      omega

/-- The cumulative rainfall is non-negative for non-negative depth and
time. -/
lemma getCumulativeRainfall_nonneg (st : StormType) {P t : ℚ} (hP : 0 ≤ P)
    (ht : 0 ≤ t) : 0 ≤ getCumulativeRainfall st P t := by
  have h0 : getCumulativeRainfall st P 0 = 0 := by
    rw [getCumulativeRainfall, interpolateCumulative_zero, mul_zero]
  have hm := getCumulativeRainfall_mono st hP ht
  rw [h0] at hm
  exact hm

/-- The excess-rainfall loop never fails for a valid curve number and
non-negative rainfall depth and time step. -/
lemma excessLoop_ok (st : StormType) (P cn ia dt : ℚ)
    (hcn0 : 0 < cn) (hcn100 : cn ≤ 100) (hP : 0 ≤ P) (hdt : 0 ≤ dt) :
    ∀ (fuel i : ℕ) (prev : ℚ) (acc : List ℚ),
      ∃ L, excessLoop st P cn ia dt fuel i prev acc = .ok L
  | 0, _, _, acc => ⟨acc, rfl⟩
  | fuel + 1, i, prev, acc => by
    have ht : 0 ≤ min ((i : ℚ) * dt) 24 :=
      le_min (mul_nonneg (by positivity) hdt) (by norm_num)
    have hcum := getCumulativeRainfall_nonneg st hP ht
    simp only [excessLoop]
    rw [calculateRunoff_ok hcn0 hcn100 hcum]
    exact excessLoop_ok st P cn ia dt hcn0 hcn100 hP hdt fuel (i + 1) _ _

/-- `generateHydrograph` with the automatic time step never fails for a
valid curve number and non-negative depth. -/
lemma generateHydrograph_ok (area cn tc : ℚ) (st : StormType) (P : ℚ)
    (hcn0 : 0 < cn) (hcn100 : cn ≤ 100) (hP : 0 ≤ P) :
    ∃ res, generateHydrograph area cn tc st P none (1/5) = .ok res := by
  have hdt : (0 : ℚ) ≤ max (1 / 100) (min (tc / 5) (1 / 10)) :=
    le_trans (by norm_num) (le_max_left _ _)
  obtain ⟨L, hL⟩ := excessLoop_ok st P cn (1/5)
    (max (1 / 100) (min (tc / 5) (1 / 10))) hcn0 hcn100 hP hdt
    (Nat.ceil (24 / max (1 / 100) (min (tc / 5) (1 / 10)))) 1 0 []
  unfold generateHydrograph
  simp only [Option.getD_none]
  rw [hL]
  exact ⟨_, rfl⟩

/-- Witness for C9: the spec instantiated at a concrete subcatchment
(100 ac, CN 80, Tc 0.5 h, Type II, 3 in), via `generateHydrograph_spec`. -/
theorem generateHydrograph_spec_witness :
    ∃ res, generateHydrograph 100 80 (1/2) .II 3 none (1/5) = .ok res ∧
      res.hydrograph ≠ [] ∧
      0 < max (1/100 : ℚ) (min ((1/2)/5) (1/10)) ∧
      (∀ i, i < res.hydrograph.length →
        (res.hydrograph.getD i ⟨0, 0⟩).time =
          (i : ℚ) * max (1/100) (min ((1/2)/5) (1/10))) ∧
      (∀ pt ∈ res.hydrograph, 0 ≤ pt.flow) ∧
      res.peakFlow = (res.hydrograph.map (·.flow)).foldl max 0 ∧
      (∃ idx, idx < res.hydrograph.length ∧
        res.hydrograph.getD idx ⟨0, 0⟩ = ⟨res.timeToPeak, res.peakFlow⟩ ∧
        ∀ j, j < idx → (res.hydrograph.getD j ⟨0, 0⟩).flow < res.peakFlow)
    := by
  obtain ⟨res, hres⟩ := generateHydrograph_ok 100 80 (1/2) .II 3
    (by norm_num) (by norm_num) (by norm_num)
  exact ⟨res, hres,
    generateHydrograph_spec 100 80 (1/2) .II 3 (by norm_num) (by norm_num)
      (by norm_num) (by norm_num) res hres⟩

/-! ## Pond routing infrastructure (C1, C10) -/

/-- The stage produced by `siScan` lies between any bounds enclosing all
table stages (the interpolation coefficient is in `(0,1]` because the
scan stops at the first bracketing row). -/
lemma siScan_stage_mem :
    ∀ (prev : SIRow) (rest : List SIRow) (v lo hi : ℚ),
      (∀ row ∈ prev :: rest, lo ≤ row.stage ∧ row.stage ≤ hi) →
      prev.indicator < v →
      lo ≤ (siScan prev rest v).stage ∧ (siScan prev rest v).stage ≤ hi
  | prev, [], v, lo, hi, hmem, _ => by
    unfold siScan
    exact hmem prev (by simp)
  | prev, q :: qs, v, lo, hi, hmem, hv => by
    unfold siScan
    by_cases hc : v ≤ q.indicator
    · rw [if_pos hc]
      obtain ⟨hplo, hphi⟩ := hmem prev (by simp)
      obtain ⟨hqlo, hqhi⟩ := hmem q (by simp)
      have hden : 0 < q.indicator - prev.indicator := by linarith
      set fr := (v - prev.indicator) / (q.indicator - prev.indicator) with hfrdef
      have hfr0 : 0 ≤ fr := div_nonneg (by linarith) (le_of_lt hden)
      have hfr1 : fr ≤ 1 := (div_le_one hden).mpr (by linarith)
      constructor
      · simp only
        nlinarith [mul_le_mul_of_nonneg_left hqlo hfr0,
          mul_le_mul_of_nonneg_left hplo (by linarith : (0:ℚ) ≤ 1 - fr)]
      · simp only
        nlinarith [mul_le_mul_of_nonneg_left hqhi hfr0,
          mul_le_mul_of_nonneg_left hphi (by linarith : (0:ℚ) ≤ 1 - fr)]
    · rw [if_neg hc]
      push_neg at hc
      exact siScan_stage_mem q qs v lo hi
        (fun row hrow => hmem row (List.mem_cons_of_mem _ hrow)) hc

/-- The stage returned by the table lookup lies between any bounds
enclosing all table stages. -/
lemma interpolateFromSICurve_cons (r : SIRow) (rest : List SIRow) (v : ℚ) :
    interpolateFromSICurve (r :: rest) v =
      if v ≤ r.indicator then ⟨r.outflow, r.stage, r.storage⟩
      else if v ≥ ((r :: rest).getLast (by simp)).indicator then
        ⟨((r :: rest).getLast (by simp)).outflow,
         ((r :: rest).getLast (by simp)).stage,
         ((r :: rest).getLast (by simp)).storage⟩
      else siScan r rest v := rfl

/-- The stage returned by the table lookup lies between any bounds
enclosing all table stages. -/
lemma interpolateFromSICurve_stage_mem (rows : List SIRow) (v lo hi : ℚ)
    (hne : rows ≠ [])
    (hmem : ∀ row ∈ rows, lo ≤ row.stage ∧ row.stage ≤ hi) :
    lo ≤ (interpolateFromSICurve rows v).stage ∧
      (interpolateFromSICurve rows v).stage ≤ hi := by
  match rows, hne with
  | r :: rest, _ =>
    rw [interpolateFromSICurve_cons]
    by_cases h1 : v ≤ r.indicator
    · rw [if_pos h1]
      exact hmem r (by simp)
    · rw [if_neg h1]
      by_cases h2 : v ≥ ((r :: rest).getLast (by simp)).indicator
      · rw [if_pos h2]
        exact hmem _ (List.getLast_mem _)
      · rw [if_neg h2]
        push_neg at h1
        exact siScan_stage_mem r rest v lo hi hmem h1

/-- Every row of the storage-indication table has its stage between the
first and last stages of the stage–storage curve. -/
lemma build_rows_stage_bounds (p : Prims) (ss : List StageStoragePoint)
    (outlets : List OutletStructure) (dt : ℚ)
    (hle : (ss.headD ⟨0, 0⟩).stage ≤ (ss.getLastD ⟨0, 0⟩).stage) :
    ∀ row ∈ buildStorageIndicationCurve p ss outlets dt,
      (ss.headD ⟨0, 0⟩).stage ≤ row.stage ∧
        row.stage ≤ (ss.getLastD ⟨0, 0⟩).stage := by
  intro row hrow
  unfold buildStorageIndicationCurve at hrow
  rcases List.mem_map.mp hrow with ⟨i, hi, rfl⟩
  rw [List.mem_range] at hi
  have hi200 : (i : ℚ) ≤ 200 := by exact_mod_cast Nat.lt_succ_iff.mp hi
  have hi0 : (0 : ℚ) ≤ (i : ℚ) := Nat.cast_nonneg i
  constructor
  · simp only
    nlinarith
  · simp only
    nlinarith

/-- The storage-indication table is never empty. -/
lemma build_rows_ne_nil (p : Prims) (ss : List StageStoragePoint)
    (outlets : List OutletStructure) (dt : ℚ) :
    buildStorageIndicationCurve p ss outlets dt ≠ [] := by
  unfold buildStorageIndicationCurve
  intro h
  have h2 := congrArg List.length h
  simp at h2

/-- Properties of the main routing loop of `routePond`: the time series
grows by one entry per interval; the final peak outflow is the running
maximum over the new outflows; if no new outflow exceeds the incoming
peak, the peak and its time are unchanged; the peak stage and storage
never decrease; and each new entry's stage respects any bounds
guaranteed by the table lookup. -/
lemma routePondLoop_props (siCurve : List SIRow) (dt : ℚ) :
    ∀ (rest : List (ℚ × ℚ)) (prev : ℚ × ℚ) (st : PondState),
      ∃ L,
        (routePondLoop siCurve dt st prev rest).timeSeries =
          st.timeSeries ++ L ∧
        (routePondLoop siCurve dt st prev rest).peakOutflow =
          (L.map (·.outflow)).foldl max st.peakOutflow ∧
        ((∀ e ∈ L, e.outflow ≤ st.peakOutflow) →
          (routePondLoop siCurve dt st prev rest).peakOutflow =
            st.peakOutflow ∧
          (routePondLoop siCurve dt st prev rest).timeToPeakOutflow =
            st.timeToPeakOutflow) ∧
        st.peakStage ≤ (routePondLoop siCurve dt st prev rest).peakStage ∧
        st.peakStorage ≤ (routePondLoop siCurve dt st prev rest).peakStorage ∧
        (∀ lo hi,
          (∀ v, lo ≤ (interpolateFromSICurve siCurve v).stage ∧
            (interpolateFromSICurve siCurve v).stage ≤ hi) →
          ∀ e ∈ L, lo ≤ e.stage ∧ e.stage ≤ hi)
  | [], prev, st => by
    refine ⟨[], by simp [routePondLoop], by simp [routePondLoop], ?_, ?_, ?_, ?_⟩
    · intro _; exact ⟨by simp [routePondLoop], by simp [routePondLoop]⟩
    · simp [routePondLoop]
    · simp [routePondLoop]
    · intro lo hi _ e he; simp at he
  | cur :: more, prev, st => by
    set r := interpolateFromSICurve siCurve
      (prev.2 + cur.2 + (2 * st.storage / (dt * 3600) - st.outflow)) with hrdef
    set st2 : PondState :=
      { outflow := r.outflow
        storage := r.storage
        timeSeries := st.timeSeries ++ [⟨cur.1, cur.2, r.outflow, r.stage, r.storage⟩]
        peakInflow := if cur.2 > st.peakInflow then cur.2 else st.peakInflow
        peakOutflow := if r.outflow > st.peakOutflow then r.outflow else st.peakOutflow
        timeToPeakOutflow :=
          if r.outflow > st.peakOutflow then cur.1 else st.timeToPeakOutflow
        peakStage := if r.stage > st.peakStage then r.stage else st.peakStage
        peakStorage :=
          if r.storage > st.peakStorage then r.storage else st.peakStorage }
      with hst2def
    have hunfold : routePondLoop siCurve dt st prev (cur :: more) =
        routePondLoop siCurve dt st2 cur more := rfl
    obtain ⟨L, hts, hpk, hcond, hstage, hstor, hbounds⟩ :=
      routePondLoop_props siCurve dt more cur st2
    rw [hunfold]
    refine ⟨⟨cur.1, cur.2, r.outflow, r.stage, r.storage⟩ :: L, ?_, ?_, ?_, ?_, ?_, ?_⟩
    · rw [hts]
      show _ = st.timeSeries ++ (_ :: L)
      rw [hst2def]
      simp
    · rw [hpk]
      show _ = (L.map (·.outflow)).foldl max (max st.peakOutflow r.outflow)
      congr 1
      rw [hst2def]
      simp only
      by_cases hc : r.outflow > st.peakOutflow
      · rw [if_pos hc, max_eq_right (le_of_lt hc)]
      · rw [if_neg hc, max_eq_left (not_lt.mp hc)]
    · intro hall
      have hle : r.outflow ≤ st.peakOutflow := by
        have := hall _ (List.mem_cons_self _ _)
        simpa using this
      have hc : ¬ r.outflow > st.peakOutflow := not_lt.mpr hle
      have hsame : st2.peakOutflow = st.peakOutflow ∧
          st2.timeToPeakOutflow = st.timeToPeakOutflow := by
        rw [hst2def]
        exact ⟨by simp only; rw [if_neg hc], by simp only; rw [if_neg hc]⟩
      have hall2 : ∀ e ∈ L, e.outflow ≤ st2.peakOutflow := by
        intro e he
        rw [hsame.1]
        exact hall e (List.mem_cons_of_mem _ he)
      obtain ⟨h1, h2⟩ := hcond hall2
      exact ⟨by rw [h1, hsame.1], by rw [h2, hsame.2]⟩
    · refine le_trans ?_ hstage
      rw [hst2def]
      simp only
      by_cases hc : r.stage > st.peakStage
      · rw [if_pos hc]; exact le_of_lt hc
      · rw [if_neg hc]
    · refine le_trans ?_ hstor
      rw [hst2def]
      simp only
      by_cases hc : r.storage > st.peakStorage
      · rw [if_pos hc]; exact le_of_lt hc
      · rw [if_neg hc]
    · intro lo hi hlook e he
      rcases List.mem_cons.mp he with rfl | he'
      · exact hlook _
      · exact hbounds lo hi hlook e he'

/-- Core properties of a successful `routePond` run: the reported peak
outflow is the running maximum (from 0) of the post-initial outflows;
the time of peak stays 0 when no post-initial outflow is positive; peak
stage and storage start from the initial condition; and every recorded
stage lies between bounds that enclose the curve ends and the initial
WSE. -/
lemma routePond_ok_props (p : Prims) (input : PondRoutingInput)
    (r : PondRoutingResult) (hr : routePond p input = .ok r) :
    r.peakOutflow = ((r.timeSeries.drop 1).map (·.outflow)).foldl max 0 ∧
    ((∀ e ∈ r.timeSeries.drop 1, e.outflow ≤ 0) → r.timeToPeakOutflow = 0) ∧
    input.initialWSE ≤ r.peakStage ∧
    interpolateStorage input.stageStorage input.initialWSE ≤ r.peakStorage ∧
    (∀ lo hi, (input.stageStorage.headD ⟨0, 0⟩).stage = lo →
      (input.stageStorage.getLastD ⟨0, 0⟩).stage = hi → lo ≤ hi →
      lo ≤ input.initialWSE → input.initialWSE ≤ hi →
      ∀ e ∈ r.timeSeries, lo ≤ e.stage ∧ e.stage ≤ hi) := by
  obtain ⟨inflow, ss, outs, wse⟩ := input
  match hin : inflow with
  | [] => exact absurd hr (by simp [routePond])
  | [x] => exact absurd hr (by simp [routePond])
  | a :: b :: rest =>
    unfold routePond at hr
    simp only [Except.ok.injEq] at hr
    subst hr
    obtain ⟨L, hts, hpk, hcond, hstage, hstor, hbounds⟩ :=
      routePondLoop_props
        (buildStorageIndicationCurve p ss outs (b.1 - a.1)) (b.1 - a.1)
        (b :: rest) a
        { outflow := compositeOutletDischarge p outs wse
          storage := interpolateStorage ss wse
          timeSeries := [⟨a.1, a.2, compositeOutletDischarge p outs wse, wse,
            interpolateStorage ss wse⟩]
          peakInflow := a.2
          peakOutflow := 0
          peakStage := wse
          peakStorage := interpolateStorage ss wse
          timeToPeakOutflow := 0 }
    dsimp only at hts hpk hcond hstage hstor hbounds ⊢
    refine ⟨?_, ?_, hstage, hstor, ?_⟩
    · rw [hts]
      exact hpk
    · intro hall
      refine (hcond ?_).2
      intro e he
      exact hall e (by rw [hts]; exact he)
    · intro lo hi hlo hhi hlohi hwselo hwsehi e he
      rw [hts] at he
      rcases List.mem_append.mp he with h | h
      · rcases List.mem_singleton.mp h with rfl
        exact ⟨hwselo, hwsehi⟩
      · refine hbounds lo hi ?_ e h
        intro v
        apply interpolateFromSICurve_stage_mem _ v lo hi
          (build_rows_ne_nil p ss outs (b.1 - a.1))
        rw [← hlo, ← hhi]
        exact build_rows_stage_bounds p ss outs (b.1 - a.1)
          (by rw [hlo, hhi]; exact hlohi)

/--
Claim-id: C10.
`routePond` excludes the initial condition from peak-outflow tracking:
the reported `peakOutflow` is the running maximum (starting from 0) of
the outflows at time-series indices ≥ 1, and `timeToPeakOutflow` stays 0
when no post-initial outflow is positive — while `peakStage` and
`peakStorage` DO start from the initial condition; consequently there is
an input whose initial WSE discharges more than every subsequent
outflow, where the reported `peakOutflow` is strictly below the maximum
outflow present in the returned time series.
-/
theorem routePond_peak_exclusion :
    (∀ (p : Prims) (input : PondRoutingInput) (r : PondRoutingResult),
      routePond p input = .ok r →
      r.peakOutflow = ((r.timeSeries.drop 1).map (·.outflow)).foldl max 0 ∧
      ((∀ e ∈ r.timeSeries.drop 1, e.outflow ≤ 0) →
        r.timeToPeakOutflow = 0) ∧
      input.initialWSE ≤ r.peakStage ∧
      interpolateStorage input.stageStorage input.initialWSE ≤
        r.peakStorage) ∧
    (∃ (input : PondRoutingInput) (r : PondRoutingResult),
      routePond idPrims input = .ok r ∧
      0 < compositeOutletDischarge idPrims input.outlets input.initialWSE ∧
      (∀ e ∈ r.timeSeries.drop 1,
        e.outflow <
          compositeOutletDischarge idPrims input.outlets input.initialWSE) ∧
      r.peakOutflow < listMax (r.timeSeries.map (·.outflow))) := by
  constructor
  · intro p input r hr
    obtain ⟨h1, h2, h3, h4, _⟩ := routePond_ok_props p input r hr
    exact ⟨h1, h2, h3, h4⟩
  · refine ⟨⟨[(0, 0), (1, 0)], [⟨0, 0⟩, ⟨1, 1⟩],
      [.weir .broadCrested 3 1 0], 1⟩,
      ⟨[⟨0, 0, 3, 1, 1⟩, ⟨1, 0, 0, 0, 0⟩], 0, 0, 1, 1, 0⟩,
      ?_, ?_, ?_, ?_⟩
    · with_unfolding_all decide
    · with_unfolding_all decide
    · with_unfolding_all decide
    · with_unfolding_all decide

/-- Witness for C10: the general part applied to a concrete outlet-free
pond, via `routePond_peak_exclusion`. -/
theorem routePond_peak_exclusion_witness :
    routePond idPrims ⟨[(0, 0), (1, 0)], [⟨0, 0⟩, ⟨1, 1⟩], [], 1/2⟩ =
      .ok ⟨[⟨0, 0, 0, 1/2, 1/2⟩, ⟨1, 0, 0, 1/2, 1/2⟩], 0, 0, 1/2, 1/2, 0⟩ ∧
    (0 : ℚ) =
      (([(⟨1, 0, 0, 1/2, 1/2⟩ : PondTimeSeriesEntry)]).map (·.outflow)).foldl
        max 0 := by
  have h : routePond idPrims ⟨[(0, 0), (1, 0)], [⟨0, 0⟩, ⟨1, 1⟩], [], 1/2⟩ =
      .ok ⟨[⟨0, 0, 0, 1/2, 1/2⟩, ⟨1, 0, 0, 1/2, 1/2⟩], 0, 0, 1/2, 1/2, 0⟩ := by
    with_unfolding_all decide
  exact ⟨h, (routePond_peak_exclusion.1 idPrims _ _ h).1⟩

/--
Claim-id: C1 (amended).
For every successful pond routing, the stage invariants of the original
claim hold: the reported peak stage is at least the initial WSE, and
every recorded time-series stage lies in the closed interval spanned by
the stage-storage curve's first and last stages, provided that interval
contains the initial WSE.  The original claim's other two conjuncts —
peak outflow ≤ peak inflow, and time of peak outflow ≥ time of peak
inflow − Δt — do NOT hold of the code: peak-outflow tracking starts at
0 and skips the stored initial entry, so a routing whose post-initial
outflows are never positive reports `timeToPeakOutflow = 0` no matter
when the inflow peaks, and an initially full pond draining against zero
inflow reports a positive `peakOutflow` with `peakInflow = 0` (see the
C1 counterexample below, which refutes both conjuncts).
-/
theorem routePond_stage_invariants (p : Prims) (input : PondRoutingInput)
    (r : PondRoutingResult) (lo hi : ℚ)
    (hr : routePond p input = .ok r)
    (hlo : (input.stageStorage.headD ⟨0, 0⟩).stage = lo)
    (hhi : (input.stageStorage.getLastD ⟨0, 0⟩).stage = hi)
    (hlohi : lo ≤ hi)
    (hwlo : lo ≤ input.initialWSE) (hwhi : input.initialWSE ≤ hi) :
    input.initialWSE ≤ r.peakStage ∧
    ∀ e ∈ r.timeSeries, lo ≤ e.stage ∧ e.stage ≤ hi := by
  obtain ⟨_, _, h3, _, h5⟩ := routePond_ok_props p input r hr
  exact ⟨h3, h5 lo hi hlo hhi hlohi hwlo hwhi⟩

/-- Witness for C1: a concrete outlet-free pond routing (two zero-inflow
samples, curve stages 0..1, initial WSE 1/2), via
`routePond_stage_invariants`. -/
theorem routePond_stage_invariants_witness :
    (1 : ℚ)/2 ≤
      (⟨[⟨0, 0, 0, 1/2, 1/2⟩, ⟨1, 0, 0, 1/2, 1/2⟩], 0, 0, 1/2, 1/2, 0⟩ :
        PondRoutingResult).peakStage ∧
    ∀ e ∈ (⟨[⟨0, 0, 0, 1/2, 1/2⟩, ⟨1, 0, 0, 1/2, 1/2⟩], 0, 0, 1/2, 1/2,
        0⟩ : PondRoutingResult).timeSeries,
      (0 : ℚ) ≤ e.stage ∧ e.stage ≤ 1 :=
  routePond_stage_invariants idPrims
    ⟨[(0, 0), (1, 0)], [⟨0, 0⟩, ⟨1, 1⟩], [], 1/2⟩
    ⟨[⟨0, 0, 0, 1/2, 1/2⟩, ⟨1, 0, 0, 1/2, 1/2⟩], 0, 0, 1/2, 1/2, 0⟩
    0 1 (by with_unfolding_all decide) rfl rfl
    (by norm_num) (by norm_num) (by norm_num)

set_option maxRecDepth 4000 in
/--
Claim-id: C1 (counterexample).
Both non-stage conjuncts of the original claim fail on admissible
inputs.  Timing: two uniformly spaced non-negative inflow samples at
t = 10, 11 (Δt = 1), strictly increasing stage-storage curve 0..1,
initial WSE 1/2 inside the range, no outlets — the peak inflow occurs at
t = 10 but all recorded outflows are 0, so the code reports
`timeToPeakOutflow = 0`, and 0 ≥ 10 − 1 is false.  Peak magnitude: an
initially full pond (WSE 200 at the top of the strictly increasing
curve 0..200) with zero inflow drains through a broad-crested weir
whose crest sits at the 199th curve stage, so the only positive head
ever evaluated is exactly 1 (`pow15 1 = 1`, where `id` agrees with the
float power): the routing step discharges 1/1200 while the peak inflow
is 0, so reported `peakOutflow ≤ peakInflow` is false.
-/
theorem routePond_claim_false :
    (routePond idPrims ⟨[(10, 5), (11, 5)], [⟨0, 0⟩, ⟨1, 1⟩], [], 1/2⟩ =
      .ok ⟨[⟨10, 5, 0, 1/2, 1/2⟩, ⟨11, 5, 0, 1, 1⟩], 5, 0, 1, 1, 0⟩ ∧
    timeOfPeakInflow [(10, 5), (11, 5)] = 10 ∧
    ¬ ((⟨[⟨10, 5, 0, 1/2, 1/2⟩, ⟨11, 5, 0, 1, 1⟩], 5, 0, 1, 1, 0⟩ :
          PondRoutingResult).timeToPeakOutflow ≥
        timeOfPeakInflow [(10, 5), (11, 5)] - (11 - 10))) ∧
    (routePond idPrims ⟨[(0, 0), (1, 0)], [⟨0, 0⟩, ⟨200, 1800⟩],
        [.weir .broadCrested (1/400) 1 199], 200⟩ =
      .ok ⟨[⟨0, 0, 1/400, 200, 1800⟩, ⟨1, 0, 1/1200, 598/3, 1794⟩],
        0, 1/1200, 200, 1800, 1⟩ ∧
    ¬ ((⟨[⟨0, 0, 1/400, 200, 1800⟩, ⟨1, 0, 1/1200, 598/3, 1794⟩],
          0, 1/1200, 200, 1800, 1⟩ : PondRoutingResult).peakOutflow ≤
        (⟨[⟨0, 0, 1/400, 200, 1800⟩, ⟨1, 0, 1/1200, 598/3, 1794⟩],
          0, 1/1200, 200, 1800, 1⟩ : PondRoutingResult).peakInflow)) := by
  refine ⟨⟨?_, ?_, ?_⟩, ?_, ?_⟩
  · with_unfolding_all decide
  · with_unfolding_all decide
  · with_unfolding_all decide
  · with_unfolding_all decide
  · with_unfolding_all decide

/-- `getD` on a time-projected list, with the matching defaults. -/
lemma getD_map_time : ∀ (out : List HydrographPoint) (j : ℕ),
    (out.map (·.time)).getD j 0 =
      (out.getD j (⟨0, 0⟩ : HydrographPoint)).time
  | [], _ => rfl
  | _ :: _, 0 => rfl
  | _ :: t, j + 1 => getD_map_time t j

/-- `getD` commutes with `take` below the cut. -/
lemma getD_take_lt : ∀ (l : List HydrographPoint) (m i : ℕ), i < m →
    (l.take m).getD i (⟨0, 0⟩ : HydrographPoint) =
      l.getD i (⟨0, 0⟩ : HydrographPoint)
  | [], _, _, _ => by rw [List.take_nil]
  | _ :: _, _ + 1, 0, _ => rfl
  | _ :: t, m + 1, i + 1, h => getD_take_lt t m i (by omega)
  | _ :: _, 0, _, h => absurd h (by omega)

/-- Overwriting an entry with its own time (any flow) preserves the
sequence of sample times. -/
lemma set_time_preserves : ∀ (out : List HydrographPoint) (j : ℕ) (f : ℚ),
    (out.set j
        ⟨(out.getD j (⟨0, 0⟩ : HydrographPoint)).time, f⟩).map (·.time) =
      out.map (·.time)
  | [], _, _ => rfl
  | _ :: _, 0, _ => rfl
  | a :: t, j + 1, f => by
    show (a :: t.set j ⟨(t.getD j (⟨0, 0⟩ : HydrographPoint)).time, f⟩).map
        (·.time) = (a :: t).map (·.time)
    simp only [List.map_cons]
    rw [set_time_preserves t j f]

/-- Elements and the seed are bounded by a `foldl max`. -/
lemma foldl_max_le : ∀ (l : List ℚ) (init : ℚ),
    init ≤ l.foldl max init ∧ ∀ x ∈ l, x ≤ l.foldl max init
  | [], _ => ⟨le_refl _, by simp⟩
  | y :: t, init => by
    obtain ⟨h1, h2⟩ := foldl_max_le t (max init y)
    refine ⟨le_trans (le_max_left _ _) h1, ?_⟩
    intro x hx
    rcases List.mem_cons.mp hx with rfl | hx
    · exact le_trans (le_max_right _ _) h1
    · exact h2 x hx

/-- Every member of a non-empty list is bounded by its `listMax`. -/
lemma le_listMax (l : List ℚ) (x : ℚ) (hx : x ∈ l) : x ≤ listMax l := by
  match l with
  | [] => exact absurd hx (by simp)
  | y :: t =>
    rcases List.mem_cons.mp hx with rfl | hx
    · exact (foldl_max_le t x).1
    · exact (foldl_max_le t y).2 x hx

/-- In a list of uniformly spaced values, the entry `a` steps after
position `b` is the entry at `b` plus `a` increments. -/
lemma times_arith (T : List ℚ) (dt : ℚ)
    (hdt : ∀ k, k + 1 < T.length → T.getD (k + 1) 0 = T.getD k 0 + dt) :
    ∀ (a b : ℕ), b + a < T.length →
      T.getD (b + a) 0 = T.getD b 0 + (a : ℚ) * dt
  | 0, b, _ => by simp
  | a + 1, b, h => by
    have h1 : b + a < T.length := by omega
    have h2 : b + a + 1 < T.length := by omega
    have hrec := times_arith T dt hdt a b h1
    rw [show b + (a + 1) = (b + a) + 1 from by omega, hdt (b + a) h2, hrec]
    push_cast
    ring

/-- One-step unfolding of `reachTranslateLoop` on a cons cell. -/
lemma reachTranslateLoop_cons (lag : ℤ) (pt : HydrographPoint)
    (rest : List HydrographPoint) (i : ℕ) (out : List HydrographPoint)
    (pk tp : ℚ) :
    reachTranslateLoop lag (pt :: rest) i (out, pk, tp) =
      (if (i : ℤ) + lag < (out.length : ℤ) then
        if 0 ≤ (i : ℤ) + lag then
          (if pt.flow > pk then
            reachTranslateLoop lag rest (i + 1)
              (out.set ((i : ℤ) + lag).toNat
                ⟨(out.getD ((i : ℤ) + lag).toNat
                    (⟨0, 0⟩ : HydrographPoint)).time, pt.flow⟩,
               pt.flow,
               (out.getD ((i : ℤ) + lag).toNat
                 (⟨0, 0⟩ : HydrographPoint)).time)
          else
            reachTranslateLoop lag rest (i + 1)
              (out.set ((i : ℤ) + lag).toNat
                ⟨(out.getD ((i : ℤ) + lag).toNat
                    (⟨0, 0⟩ : HydrographPoint)).time, pt.flow⟩,
               pk, tp))
        else .error "negative outflow index"
      else reachTranslateLoop lag rest (i + 1) (out, pk, tp)) := rfl

/-- `peakAux` on an empty list is the identity. -/
lemma peakAux_nil (T : List ℚ) (j : ℕ) (s : ℚ × ℚ) :
    peakAux T j [] s = s := rfl

/-- One-step unfolding of `peakAux` on a cons cell. -/
lemma peakAux_cons (T : List ℚ) (j : ℕ) (pt : HydrographPoint)
    (rest : List HydrographPoint) (s : ℚ × ℚ) :
    peakAux T j (pt :: rest) s =
      if pt.flow > s.1 then peakAux T (j + 1) rest (pt.flow, T.getD j 0)
      else peakAux T (j + 1) rest s := rfl

/-- `peakAux` is the identity when no point beats the running peak. -/
lemma peakAux_const (T : List ℚ) :
    ∀ (L : List HydrographPoint) (j : ℕ) (s : ℚ × ℚ),
      (∀ pt ∈ L, pt.flow ≤ s.1) → peakAux T j L s = s
  | [], _, _, _ => rfl
  | pt :: rest, j, s, h => by
    rw [peakAux_cons, if_neg (by push_neg; exact h pt (List.mem_cons_self pt rest))]
    exact peakAux_const T rest (j + 1) s
      (fun q hq => h q (List.mem_cons_of_mem _ hq))

/-- `peakAux` lands on the first attainment of the maximum: if `L`
attains a bound `M` first at position `j0` and the running peak starts
strictly below `M`, the fold ends at `(M, T[j + j0])`. -/
lemma peakAux_first_peak (T : List ℚ) (M : ℚ) :
    ∀ (L : List HydrographPoint) (j0 j : ℕ) (s : ℚ × ℚ),
      j0 < L.length →
      (L.getD j0 (⟨0, 0⟩ : HydrographPoint)).flow = M →
      (∀ pt ∈ L, pt.flow ≤ M) →
      (∀ k < j0, (L.getD k (⟨0, 0⟩ : HydrographPoint)).flow < M) →
      s.1 < M →
      peakAux T j L s = (M, T.getD (j + j0) 0)
  | [], j0, _, _, h, _, _, _, _ => absurd h (by simp)
  | pt :: rest, 0, j, s, _, hM, hall, _, hs => by
    have hpt : pt.flow = M := hM
    have hle : ∀ q ∈ rest, q.flow ≤ (pt.flow, T.getD j 0).1 := by
      intro q hq
      show q.flow ≤ pt.flow
      rw [hpt]
      exact hall q (List.mem_cons_of_mem pt hq)
    rw [peakAux_cons, if_pos (show pt.flow > s.1 by rw [hpt]; exact hs)]
    rw [peakAux_const T rest (j + 1) _ hle, hpt, Nat.add_zero]
  | pt :: rest, k + 1, j, s, h, hM, hall, hfirst, hs => by
    have hptlt : pt.flow < M := hfirst 0 (Nat.succ_pos k)
    have hlen : k < rest.length := by
      simp only [List.length_cons] at h
      omega
    have hM2 : (rest.getD k (⟨0, 0⟩ : HydrographPoint)).flow = M := hM
    have hall2 : ∀ q ∈ rest, q.flow ≤ M :=
      fun q hq => hall q (List.mem_cons_of_mem _ hq)
    have hfirst2 : ∀ kk < k,
        (rest.getD kk (⟨0, 0⟩ : HydrographPoint)).flow < M :=
      fun kk hkk => hfirst (kk + 1) (by omega)
    rw [peakAux_cons]
    by_cases hc : pt.flow > s.1
    · rw [if_pos hc,
        peakAux_first_peak T M rest k (j + 1) (pt.flow, T.getD j 0) hlen hM2
          hall2 hfirst2 hptlt,
        show j + 1 + k = j + (k + 1) from by omega]
    · rw [if_neg hc,
        peakAux_first_peak T M rest k (j + 1) s hlen hM2 hall2 hfirst2 hs,
        show j + 1 + k = j + (k + 1) from by omega]

/-- Characterization of `reachTranslateLoop` for a non-negative lag: it
never errors, the output sample times are unchanged, and the final
`(peak, timeOfPeak)` pair is the `peakAux` fold over the prefix of
points whose shifted index stays in range. -/
lemma reachTranslateLoop_spec (lag : ℤ) (hlag : 0 ≤ lag) :
    ∀ (pts : List HydrographPoint) (i : ℕ) (out : List HydrographPoint)
      (pk tp : ℚ),
      ∃ res,
        reachTranslateLoop lag pts i (out, pk, tp) =
          .ok (res,
            peakAux (out.map (·.time)) (i + lag.toNat)
              (pts.take (out.length - (i + lag.toNat))) (pk, tp)) ∧
        res.map (·.time) = out.map (·.time)
  | [], i, out, pk, tp => ⟨out, by rw [List.take_nil]; rfl, rfl⟩
  | pt :: rest, i, out, pk, tp => by
    have hnn : 0 ≤ (i : ℤ) + lag := by omega
    have htn : ((i : ℤ) + lag).toNat = i + lag.toNat := by omega
    by_cases hidx : (i : ℤ) + lag < (out.length : ℤ)
    · have hjlt : i + lag.toNat < out.length := by omega
      have htake : out.length - (i + lag.toNat) =
          (out.length - (i + 1 + lag.toNat)) + 1 := by omega
      have htime2 := set_time_preserves out (i + lag.toNat) pt.flow
      have hlen2 : (out.set (i + lag.toNat)
          ⟨(out.getD (i + lag.toNat) (⟨0, 0⟩ : HydrographPoint)).time,
            pt.flow⟩).length = out.length := List.length_set out _ _
      have hgd := getD_map_time out (i + lag.toNat)
      by_cases hpk : pt.flow > pk
      · obtain ⟨res, hres, htime⟩ :=
          reachTranslateLoop_spec lag hlag rest (i + 1)
            (out.set (i + lag.toNat)
              ⟨(out.getD (i + lag.toNat) (⟨0, 0⟩ : HydrographPoint)).time,
                pt.flow⟩)
            pt.flow
            (out.getD (i + lag.toNat) (⟨0, 0⟩ : HydrographPoint)).time
        refine ⟨res, ?_, htime.trans htime2⟩
        rw [reachTranslateLoop_cons, if_pos hidx, if_pos hnn, htn,
          if_pos hpk, hres, htime2, hlen2, htake, List.take_succ_cons,
          peakAux_cons, if_pos hpk, hgd,
          show i + lag.toNat + 1 = i + 1 + lag.toNat from by omega]
      · obtain ⟨res, hres, htime⟩ :=
          reachTranslateLoop_spec lag hlag rest (i + 1)
            (out.set (i + lag.toNat)
              ⟨(out.getD (i + lag.toNat) (⟨0, 0⟩ : HydrographPoint)).time,
                pt.flow⟩)
            pk tp
        refine ⟨res, ?_, htime.trans htime2⟩
        rw [reachTranslateLoop_cons, if_pos hidx, if_pos hnn, htn,
          if_neg hpk, hres, htime2, hlen2, htake, List.take_succ_cons,
          peakAux_cons, if_neg hpk,
          show i + lag.toNat + 1 = i + 1 + lag.toNat from by omega]
    · obtain ⟨res, hres, htime⟩ :=
        reachTranslateLoop_spec lag hlag rest (i + 1) out pk tp
      refine ⟨res, ?_, htime⟩
      rw [reachTranslateLoop_cons, if_neg hidx, hres,
        show out.length - (i + 1 + lag.toNat) = 0 from by omega,
        show out.length - (i + lag.toNat) = 0 from by omega]
      simp only [List.take_zero]
      rw [peakAux_nil, peakAux_nil]

/--
Claim-id: C5 (amended).
For every reach routing with at least 2 samples, non-negative computed
lag, uniformly spaced sample times, positive maximum inflow first
attained at index `j`, AND the shifted peak index `j + lagSteps` still
within range: `routeReach` succeeds, the outflow has exactly the same
sequence of sample times as the inflow, the peak outflow equals the
peak inflow value, and the time of peak outflow equals the time of peak
inflow plus `lagSteps·Δt`, with `lagSteps = round(travelTime/Δt)`.  The
original claim omits the in-range side condition: samples translated
past the last index are DISCARDED, so a peak near the end of the
hydrograph is clipped and the peak outflow can differ from the peak
inflow (see the C5 counterexample below).
-/
theorem routeReach_spec (p : Prims) (input : ReachRoutingInput)
    (a b : HydrographPoint) (rest : List HydrographPoint) (j : ℕ) (M : ℚ)
    (hin : input.inflow = a :: b :: rest)
    (hlag : 0 ≤ reachLagSteps p input)
    (hM : M = listMax (input.inflow.map (·.flow)))
    (hMpos : 0 < M)
    (hj : (input.inflow.getD j (⟨0, 0⟩ : HydrographPoint)).flow = M)
    (hfirst : ∀ k < j,
      (input.inflow.getD k (⟨0, 0⟩ : HydrographPoint)).flow < M)
    (hfit : j + (reachLagSteps p input).toNat < input.inflow.length)
    (hdt : ∀ k, k + 1 < input.inflow.length →
      (input.inflow.getD (k + 1) (⟨0, 0⟩ : HydrographPoint)).time =
        (input.inflow.getD k (⟨0, 0⟩ : HydrographPoint)).time +
          (b.time - a.time)) :
    ∃ r, routeReach p input = .ok r ∧
      r.outflow.map (·.time) = input.inflow.map (·.time) ∧
      r.peakOutflow = M ∧
      r.timeToPeakOutflow =
        (input.inflow.getD j (⟨0, 0⟩ : HydrographPoint)).time +
          ((reachLagSteps p input).toNat : ℚ) * (b.time - a.time) ∧
      r.travelTime = reachTravelTime p input := by
  obtain ⟨len, mn, sl, sh, inflow⟩ := input
  dsimp only at hin hlag hM hj hfirst hfit hdt ⊢
  subst hin
  obtain ⟨lag, hlagdef⟩ :
      ∃ lag, reachLagSteps p ⟨len, mn, sl, sh, a :: b :: rest⟩ = lag :=
    ⟨_, rfl⟩
  rw [hlagdef] at hlag hfit ⊢
  have hroute : routeReach p ⟨len, mn, sl, sh, a :: b :: rest⟩ =
      (reachTranslateLoop lag (a :: b :: rest) 0
        ((a :: b :: rest).map
          (fun pt => (⟨pt.time, 0⟩ : HydrographPoint)), 0, 0)).map
        (fun st => ⟨st.1, st.2.1, st.2.2,
          reachTravelTime p ⟨len, mn, sl, sh, a :: b :: rest⟩⟩) := by
    rw [← hlagdef]
    rfl
  have hT : (((a :: b :: rest).map
      (fun pt => (⟨pt.time, 0⟩ : HydrographPoint))).map (·.time)) =
      (a :: b :: rest).map (·.time) := by
    simp [List.map_map, Function.comp]
  have hlen0 : ((a :: b :: rest).map
      (fun pt => (⟨pt.time, 0⟩ : HydrographPoint))).length =
      (a :: b :: rest).length := List.length_map _ _
  obtain ⟨res, hres, htime⟩ :=
    reachTranslateLoop_spec lag hlag (a :: b :: rest) 0
      ((a :: b :: rest).map (fun pt => (⟨pt.time, 0⟩ : HydrographPoint)))
      0 0
  rw [Nat.zero_add, hlen0, hT] at hres
  have hlenT : ((a :: b :: rest).map (·.time)).length =
      (a :: b :: rest).length := List.length_map _ _
  have hlentake : ((a :: b :: rest).take
      ((a :: b :: rest).length - lag.toNat)).length =
      (a :: b :: rest).length - lag.toNat := by
    rw [List.length_take]
    omega
  have hjlt : j < ((a :: b :: rest).take
      ((a :: b :: rest).length - lag.toNat)).length := by
    rw [hlentake]
    omega
  have hML : (((a :: b :: rest).take
      ((a :: b :: rest).length - lag.toNat)).getD j
        (⟨0, 0⟩ : HydrographPoint)).flow = M := by
    rw [getD_take_lt _ _ _ (by omega)]
    exact hj
  have hallL : ∀ q ∈ (a :: b :: rest).take
      ((a :: b :: rest).length - lag.toNat), q.flow ≤ M := by
    intro q hq
    rw [hM]
    exact le_listMax _ _ (List.mem_map_of_mem _ (List.take_subset _ _ hq))
  have hfirstL : ∀ k < j, (((a :: b :: rest).take
      ((a :: b :: rest).length - lag.toNat)).getD k
        (⟨0, 0⟩ : HydrographPoint)).flow < M := by
    intro k hk
    rw [getD_take_lt _ _ _ (by omega)]
    exact hfirst k hk
  have hpeak := peakAux_first_peak ((a :: b :: rest).map (·.time)) M
    ((a :: b :: rest).take ((a :: b :: rest).length - lag.toNat))
    j lag.toNat ((0 : ℚ), (0 : ℚ)) hjlt hML hallL hfirstL hMpos
  rw [hpeak] at hres
  have hdtT : ∀ k, k + 1 < ((a :: b :: rest).map (·.time)).length →
      ((a :: b :: rest).map (·.time)).getD (k + 1) 0 =
        ((a :: b :: rest).map (·.time)).getD k 0 + (b.time - a.time) := by
    intro k hk
    rw [getD_map_time, getD_map_time]
    exact hdt k (by rw [hlenT] at hk; exact hk)
  have harr := times_arith ((a :: b :: rest).map (·.time))
    (b.time - a.time) hdtT lag.toNat j (by rw [hlenT]; omega)
  have htT : ((a :: b :: rest).map (·.time)).getD (lag.toNat + j) 0 =
      ((a :: b :: rest).getD j (⟨0, 0⟩ : HydrographPoint)).time +
        (lag.toNat : ℚ) * (b.time - a.time) := by
    rw [Nat.add_comm lag.toNat j, harr, getD_map_time]
  rw [hroute, hres]
  refine ⟨_, rfl, htime.trans hT, rfl, htT, rfl⟩

set_option maxRecDepth 4000 in
/-- Witness for C5: a rectangular channel engineered so the bisection
exits at its first midpoint exactly (hydraulic radius 1, slope 1, so
only `pow23 1` and `pow05 1` are evaluated, where `id` agrees with the
float powers): travel time 2 h, lag 2 samples, 5-sample inflow peaking
at t = 2, via `routeReach_spec`. -/
theorem routeReach_spec_witness :
    ∃ r, routeReach idPrims ⟨10728, 1, 1, .rectangular (25/12),
        [⟨0, 0⟩, ⟨1, 0⟩, ⟨2, 18625/168⟩, ⟨3, 0⟩, ⟨4, 0⟩]⟩ = .ok r ∧
      r.outflow.map (·.time) =
        ([⟨0, 0⟩, ⟨1, 0⟩, ⟨2, 18625/168⟩, ⟨3, 0⟩, ⟨4, 0⟩] :
          List HydrographPoint).map (·.time) ∧
      r.peakOutflow = 18625/168 ∧
      r.timeToPeakOutflow = 4 ∧
      r.travelTime = 2 := by
  have h0le : (0 : ℚ) ≤ 18625/168 := by norm_num
  have hMeq : (18625/168 : ℚ) =
      listMax (([⟨0, 0⟩, ⟨1, 0⟩, ⟨2, 18625/168⟩, ⟨3, 0⟩, ⟨4, 0⟩] :
        List HydrographPoint).map (·.flow)) := by
    show (18625/168 : ℚ) =
      max (max (max (max 0 0) (18625/168)) 0) 0
    rw [max_self, max_eq_right h0le, max_eq_left h0le, max_eq_left h0le]
  obtain ⟨r, h1, h2, h3, h4, h5⟩ :=
    routeReach_spec idPrims
      ⟨10728, 1, 1, .rectangular (25/12),
        [⟨0, 0⟩, ⟨1, 0⟩, ⟨2, 18625/168⟩, ⟨3, 0⟩, ⟨4, 0⟩]⟩
      ⟨0, 0⟩ ⟨1, 0⟩ [⟨2, 18625/168⟩, ⟨3, 0⟩, ⟨4, 0⟩] 2 (18625/168)
      rfl
      (by with_unfolding_all decide)
      hMeq
      (by norm_num)
      rfl
      (by
        intro k hk
        interval_cases k
        · show (0 : ℚ) < 18625/168
          norm_num
        · show (0 : ℚ) < 18625/168
          norm_num)
      (by with_unfolding_all decide)
      (by
        intro k hk
        have hlen : (⟨10728, 1, 1, .rectangular (25/12),
            [⟨0, 0⟩, ⟨1, 0⟩, ⟨2, 18625/168⟩, ⟨3, 0⟩, ⟨4, 0⟩]⟩ :
              ReachRoutingInput).inflow.length = 5 := rfl
        rw [hlen] at hk
        have hk4 : k < 4 := by omega
        interval_cases k
        · show (1 : ℚ) = 0 + (1 - 0)
          norm_num
        · show (2 : ℚ) = 1 + (1 - 0)
          norm_num
        · show (3 : ℚ) = 2 + (1 - 0)
          norm_num
        · show (4 : ℚ) = 3 + (1 - 0)
          norm_num)
  refine ⟨r, h1, h2, by rw [h3], ?_, ?_⟩
  · rw [h4]
    with_unfolding_all decide
  · rw [h5]
    with_unfolding_all decide

set_option maxRecDepth 4000 in
/--
Claim-id: C5 (counterexample).
Peak clipping: a 3-sample inflow peaking at its last sample (t = 2,
flow 18625/168) through a reach with travel time 2 h (lag 2 samples).
The peak would land at index 4, past the end of the 3-slot output, so
it is discarded: the returned peak outflow is 0, not the peak inflow
18625/168 (and the time of peak is 0, not 2 + 2·1 = 4).  Only `pow23 1`
and `pow05 1` are evaluated inside the bisection, where `id` agrees
with the float powers.
-/
theorem routeReach_claim_false :
    routeReach idPrims ⟨10728, 1, 1, .rectangular (25/12),
        [⟨0, 0⟩, ⟨1, 0⟩, ⟨2, 18625/168⟩]⟩ =
      .ok ⟨[⟨0, 0⟩, ⟨1, 0⟩, ⟨2, 0⟩], 0, 0, 2⟩ ∧
    listMax (([⟨0, 0⟩, ⟨1, 0⟩, ⟨2, 18625/168⟩] :
        List HydrographPoint).map (·.flow)) = 18625/168 ∧
    (0 : ℚ) ≠ 18625/168 := by
  have h0le : (0 : ℚ) ≤ 18625/168 := by norm_num
  refine ⟨?_, ?_, by norm_num⟩
  · with_unfolding_all decide
  · show max (max 0 0) (18625/168) = 18625/168
    rw [max_self, max_eq_right h0le]

/-! ## C2 — `topologicalSort` -/

/-- `jsGet` on a map of shape `ids.map (v, f v)`. -/
lemma jsGet_map_fun {α : Type} (f : String → α) :
    ∀ (ids : List String) (k : String),
      jsGet (ids.map (fun v => (v, f v))) k =
        if k ∈ ids then some (f k) else none
  | [], k => by simp [jsGet]
  | a :: rest, k => by
    by_cases hak : a = k
    · subst hak
      simp [jsGet, List.find?]
    · have hrec := jsGet_map_fun f rest k
      simp only [jsGet] at hrec ⊢
      rw [List.map_cons, List.find?]
      have : ((a, f a).1 == k) = false := by
        simp [hak]
      rw [this, hrec]
      have hka : ¬ k = a := fun h => hak h.symm
      simp [List.mem_cons, hka]

/-- `jsSet` on a map of shape `ids.map (v, f v)` for an existing key. -/
lemma jsSet_map_fun {α : Type} (f : String → α) (x : α) :
    ∀ (ids : List String) (k : String), ids.Nodup → k ∈ ids →
      jsSet (ids.map (fun v => (v, f v))) k x =
        ids.map (fun v => (v, if v = k then x else f v))
  | [], k, _, hk => absurd hk (by simp)
  | a :: rest, k, hnd, hk => by
    rw [List.map_cons, jsSet]
    by_cases hak : a = k
    · subst hak
      rw [if_pos (by simp)]
      have hnotin : a ∉ rest := (List.nodup_cons.mp hnd).1
      rw [List.map_cons, if_pos rfl]
      congr 1
      apply List.map_congr_left
      intro v hv
      rw [if_neg (by rintro rfl; exact hnotin hv)]
    · rw [if_neg (by simp [hak]), List.map_cons, if_neg hak,
        jsSet_map_fun f x rest k (List.nodup_cons.mp hnd).2
          (by rcases List.mem_cons.mp hk with h | h
              · exact absurd h.symm hak
              · exact h)]

/-- The zero-degree filter of a function-shaped map projects to a filter
of the key list. -/
lemma filter_map_zero (f : String → ℤ) :
    ∀ (ids : List String),
      (((ids.map (fun v => (v, f v))).filter
        (fun e => e.2 == (0 : ℤ))).map (·.1)) =
        ids.filter (fun v => f v == 0)
  | [] => rfl
  | a :: rest => by
    rw [List.map_cons, List.filter_cons, List.filter_cons]
    by_cases ha : f a == 0
    · rw [if_pos (by simpa using ha), if_pos ha, List.map_cons,
        filter_map_zero f rest]
    · rw [if_neg (by simpa using ha), if_neg ha, filter_map_zero f rest]

/-- `jsSet` with a fresh key appends. -/
lemma jsSet_fresh {α : Type} (x : α) :
    ∀ (m : JSMap α) (k : String), (∀ e ∈ m, e.1 ≠ k) →
      jsSet m k x = m ++ [(k, x)]
  | [], k, _ => rfl
  | e :: rest, k, h => by
    rw [jsSet, if_neg (by simpa using h e (List.mem_cons_self e rest)),
      jsSet_fresh x rest k (fun q hq => h q (List.mem_cons_of_mem _ hq))]
    rfl

/-- Folding `jsSet` of fresh, pairwise distinct keys appends them all. -/
lemma foldl_jsSet_fresh {α : Type} (g : ProjectNode → α) :
    ∀ (ns : List ProjectNode) (m : JSMap α),
      (∀ n ∈ ns, ∀ e ∈ m, e.1 ≠ n.id) → (nodeIds ns).Nodup →
      ns.foldl (fun m n => jsSet m n.id (g n)) m =
        m ++ ns.map (fun n => (n.id, g n))
  | [], m, _, _ => by simp
  | n :: rest, m, hfresh, hnd => by
    have hnd2 : (∀ x ∈ rest, ¬ ProjectNode.id x = n.id) ∧
        (rest.map ProjectNode.id).Nodup := by
      simpa [nodeIds] using hnd
    rw [List.foldl_cons,
      jsSet_fresh (g n) m n.id (hfresh n (List.mem_cons_self n rest)),
      foldl_jsSet_fresh g rest (m ++ [(n.id, g n)])
        (by
          intro q hq e he
          rcases List.mem_append.mp he with h | h
          · exact hfresh q (List.mem_cons_of_mem _ hq) e h
          · rcases List.mem_singleton.mp h with rfl
            intro hc
            exact hnd2.1 q hq hc.symm)
        (by simpa [nodeIds] using hnd2.2)]
    simp

/-- `posIn` of a member of the left part of an append. -/
lemma posIn_append_left (a : String) :
    ∀ (s t : List String), a ∈ s → posIn (s ++ t) a = posIn s a
  | [], _, h => absurd h (by simp)
  | x :: s, t, h => by
    rw [List.cons_append, posIn, posIn]
    by_cases hx : x = a
    · rw [if_pos hx, if_pos hx]
    · rw [if_neg hx, if_neg hx, posIn_append_left a s t
        (by rcases List.mem_cons.mp h with h | h
            · exact absurd h.symm hx
            · exact h)]

/-- `posIn` of a freshly appended element is the old length. -/
lemma posIn_append_self (a : String) :
    ∀ (s : List String), a ∉ s → posIn (s ++ [a]) a = s.length
  | [], _ => by simp [posIn]
  | x :: s, h => by
    rw [List.cons_append, posIn,
      if_neg (by rintro rfl; exact h (List.mem_cons_self x s)),
      posIn_append_self a s (fun hc => h (List.mem_cons_of_mem _ hc))]
    rfl

/-- `posIn` of a member is below the length. -/
lemma posIn_lt_length (a : String) :
    ∀ (s : List String), a ∈ s → posIn s a < s.length
  | [], h => absurd h (by simp)
  | x :: s, h => by
    rw [posIn]
    by_cases hx : x = a
    · rw [if_pos hx]
      simp
    · rw [if_neg hx, List.length_cons]
      have := posIn_lt_length a s
        (by rcases List.mem_cons.mp h with h | h
            · exact absurd h.symm hx
            · exact h)
      omega

/-- `adjOf` on a cons cell. -/
lemma adjOf_cons (l : ProjectLink) (L : List ProjectLink) (u : String) :
    adjOf (l :: L) u =
      if l.fromId = u then l.toId :: adjOf L u else adjOf L u := by
  simp only [adjOf, List.filter_cons]
  by_cases h : l.fromId = u
  · rw [if_pos (by simpa using h), if_pos h, List.map_cons]
  · rw [if_neg (by simpa using h), if_neg h]

/-- Occurrences of `v` among the downstream ids of `u` count the links
`u → v`. -/
lemma adjOf_count (u v : String) :
    ∀ (L : List ProjectLink),
      (adjOf L u).count v =
        L.countP (fun l => decide (l.fromId = u ∧ l.toId = v))
  | [] => rfl
  | l :: L => by
    rw [adjOf_cons, List.countP_cons]
    by_cases h1 : l.fromId = u
    · rw [if_pos h1, List.count_cons, adjOf_count u v L]
      by_cases h2 : l.toId = v
      · simp [h1, h2]
      · simp [h1, h2]
    · rw [if_neg h1, adjOf_count u v L]
      simp [h1]

/-- Splitting the remaining in-degree of `v` at a newly emitted `id`. -/
lemma remCount_step (links : List ProjectLink) (sorted : List String)
    (id : String) (hid : id ∉ sorted) (v : String) :
    remCount links (sorted ++ [id]) v + (adjOf links id).count v =
      remCount links sorted v := by
  rw [adjOf_count]
  induction links with
  | nil => rfl
  | cons l L ih =>
    simp only [remCount] at ih ⊢
    by_cases h1 : l.toId = v
    · by_cases h2 : l.fromId = id
      · have h3 : l.fromId ∉ sorted := h2 ▸ hid
        have c1 : List.countP (fun l => decide (l.toId = v ∧ l.fromId ∉ sorted ++ [id])) (l :: L) =
            List.countP (fun l => decide (l.toId = v ∧ l.fromId ∉ sorted ++ [id])) L :=
          List.countP_cons_of_neg _ _ (by simp [h1, h2])
        have c2 : List.countP (fun l => decide (l.fromId = id ∧ l.toId = v)) (l :: L) =
            List.countP (fun l => decide (l.fromId = id ∧ l.toId = v)) L + 1 :=
          List.countP_cons_of_pos _ _ (by simp [h1, h2])
        have c3 : List.countP (fun l => decide (l.toId = v ∧ l.fromId ∉ sorted)) (l :: L) =
            List.countP (fun l => decide (l.toId = v ∧ l.fromId ∉ sorted)) L + 1 :=
          List.countP_cons_of_pos _ _ (by simp [h1, h3])
        rw [c1, c2, c3]
        omega
      · by_cases h3 : l.fromId ∈ sorted
        · have c1 : List.countP (fun l => decide (l.toId = v ∧ l.fromId ∉ sorted ++ [id])) (l :: L) =
              List.countP (fun l => decide (l.toId = v ∧ l.fromId ∉ sorted ++ [id])) L :=
            List.countP_cons_of_neg _ _ (by simp [h3])
          have c2 : List.countP (fun l => decide (l.fromId = id ∧ l.toId = v)) (l :: L) =
              List.countP (fun l => decide (l.fromId = id ∧ l.toId = v)) L :=
            List.countP_cons_of_neg _ _ (by simp [h2])
          have c3 : List.countP (fun l => decide (l.toId = v ∧ l.fromId ∉ sorted)) (l :: L) =
              List.countP (fun l => decide (l.toId = v ∧ l.fromId ∉ sorted)) L :=
            List.countP_cons_of_neg _ _ (by simp [h3])
          rw [c1, c2, c3]
          omega
        · have c1 : List.countP (fun l => decide (l.toId = v ∧ l.fromId ∉ sorted ++ [id])) (l :: L) =
              List.countP (fun l => decide (l.toId = v ∧ l.fromId ∉ sorted ++ [id])) L + 1 :=
            List.countP_cons_of_pos _ _ (by simp [h1, h2, h3])
          have c2 : List.countP (fun l => decide (l.fromId = id ∧ l.toId = v)) (l :: L) =
              List.countP (fun l => decide (l.fromId = id ∧ l.toId = v)) L :=
            List.countP_cons_of_neg _ _ (by simp [h2])
          have c3 : List.countP (fun l => decide (l.toId = v ∧ l.fromId ∉ sorted)) (l :: L) =
              List.countP (fun l => decide (l.toId = v ∧ l.fromId ∉ sorted)) L + 1 :=
            List.countP_cons_of_pos _ _ (by simp [h1, h3])
          rw [c1, c2, c3]
          omega
    · have c1 : List.countP (fun l => decide (l.toId = v ∧ l.fromId ∉ sorted ++ [id])) (l :: L) =
          List.countP (fun l => decide (l.toId = v ∧ l.fromId ∉ sorted ++ [id])) L :=
        List.countP_cons_of_neg _ _ (by simp [h1])
      have c2 : List.countP (fun l => decide (l.fromId = id ∧ l.toId = v)) (l :: L) =
          List.countP (fun l => decide (l.fromId = id ∧ l.toId = v)) L :=
        List.countP_cons_of_neg _ _ (by simp [h1])
      have c3 : List.countP (fun l => decide (l.toId = v ∧ l.fromId ∉ sorted)) (l :: L) =
          List.countP (fun l => decide (l.toId = v ∧ l.fromId ∉ sorted)) L :=
        List.countP_cons_of_neg _ _ (by simp [h1])
      rw [c1, c2, c3]
      omega

/-- The remaining in-degree is monotone non-increasing in the emitted
list. -/
lemma remCount_append_le (links : List ProjectLink) (s t : List String)
    (v : String) :
    remCount links (s ++ t) v ≤ remCount links s v := by
  apply List.countP_mono_left
  intro l _ h
  simp only [decide_eq_true_eq] at h ⊢
  exact ⟨h.1, fun hc => h.2 (List.mem_append.mpr (Or.inl hc))⟩

/-- Vanishing remaining in-degree means every link into `v` is from an
emitted node. -/
lemma remCount_eq_zero_iff (links : List ProjectLink) (sorted : List String)
    (v : String) :
    remCount links sorted v = 0 ↔
      ∀ l ∈ links, l.toId = v → l.fromId ∈ sorted := by
  rw [remCount, List.countP_eq_zero]
  constructor
  · intro h l hl hto
    have := h l hl
    simp only [decide_eq_true_eq] at this
    by_contra hc
    exact this ⟨hto, hc⟩
  · intro h l hl
    simp only [decide_eq_true_eq]
    rintro ⟨hto, hfrom⟩
    exact hfrom (h l hl hto)

/-- Characterization of the link-processing fold of `topologicalSort`
over maps in node-id shape. -/
lemma links_fold (ids : List String) (hnodup : ids.Nodup) :
    ∀ (L : List ProjectLink) (d : String → ℤ) (a : String → List String),
      (∀ l ∈ L, l.fromId ∈ ids ∧ l.toId ∈ ids) →
      L.foldl
        (fun (md : JSMap ℤ × JSMap (List String)) link =>
          (jsSet md.1 link.toId ((jsGet md.1 link.toId).getD 0 + 1),
           match jsGet md.2 link.fromId with
           | some lst => jsSet md.2 link.fromId (lst ++ [link.toId])
           | none => md.2))
        (ids.map (fun v => (v, d v)), ids.map (fun u => (u, a u))) =
      (ids.map (fun v =>
        (v, d v + (L.countP (fun l => decide (l.toId = v)) : ℤ))),
       ids.map (fun u => (u, a u ++ adjOf L u)))
  | [], d, a, _ => by
    simp [adjOf]
  | link :: L, d, a, hres => by
    have hfrom : link.fromId ∈ ids :=
      (hres link (List.mem_cons_self link L)).1
    have hto : link.toId ∈ ids := (hres link (List.mem_cons_self link L)).2
    rw [List.foldl_cons]
    have h1 : jsGet (ids.map (fun v => (v, d v))) link.toId =
        some (d link.toId) := by
      rw [jsGet_map_fun]
      exact if_pos hto
    have h3 : jsGet (ids.map (fun u => (u, a u))) link.fromId =
        some (a link.fromId) := by
      rw [jsGet_map_fun]
      exact if_pos hfrom
    dsimp only
    rw [h1, h3]
    simp only [Option.getD_some]
    rw [jsSet_map_fun d (d link.toId + 1) ids link.toId hnodup hto,
      jsSet_map_fun a (a link.fromId ++ [link.toId]) ids link.fromId
        hnodup hfrom,
      links_fold ids hnodup L _ _
        (fun l hl => hres l (List.mem_cons_of_mem _ hl))]
    rw [Prod.mk.injEq]
    refine ⟨?_, ?_⟩
    · apply List.map_congr_left
      intro v hv
      rw [List.countP_cons]
      by_cases hc : v = link.toId
      · subst hc
        simp only [if_pos rfl]
        simp
        omega
      · rw [if_neg hc]
        have : (decide (link.toId = v)) = false := by
          simp
          exact fun h => hc h.symm
        simp [this]
    · apply List.map_congr_left
      intro u hu
      rw [adjOf_cons]
      by_cases hc : u = link.fromId
      · subst hc
        rw [if_pos rfl, if_pos rfl]
        simp
      · rw [if_neg hc, if_neg (fun h => hc h.symm)]

/-- `kahnStep` on an empty downstream list. -/
lemma kahnStep_nil (st : JSMap ℤ × List String) : kahnStep [] st = st := rfl

/-- One-step unfolding of `kahnStep`. -/
lemma kahnStep_cons (t : String) (ds : List String)
    (st : JSMap ℤ × List String) :
    kahnStep (t :: ds) st =
      kahnStep ds
        (if ((jsGet st.1 t).getD 1 - 1) == 0 then
          (jsSet st.1 t ((jsGet st.1 t).getD 1 - 1), st.2 ++ [t])
        else (jsSet st.1 t ((jsGet st.1 t).getD 1 - 1), st.2)) := rfl

/-- Characterization of `kahnStep` on a function-shaped in-degree map:
the degrees of the processed targets drop by their multiplicities, and
exactly the targets whose remaining degree hits zero are appended to the
queue, each once. -/
lemma kahnStep_spec (ids : List String) (hnodup : ids.Nodup) :
    ∀ (ds : List String) (d : String → ℤ) (q : List String),
      (∀ v ∈ ds, v ∈ ids) →
      (∀ v, 0 ≤ d v - (ds.count v : ℤ)) →
      ∃ new,
        kahnStep ds (ids.map (fun v => (v, d v)), q) =
          (ids.map (fun v => (v, d v - (ds.count v : ℤ))), q ++ new) ∧
        new.Nodup ∧
        (∀ v, v ∈ new ↔ v ∈ ds ∧ d v = (ds.count v : ℤ)) ∧
        (∀ v ∈ new, v ∈ ids)
  | [], d, q, _, _ => ⟨[], by rw [kahnStep_nil]; simp, by simp, by simp,
      by simp⟩
  | t :: ds, d, q, hds, hnn => by
    have ht : t ∈ ids := hds t (List.mem_cons_self t ds)
    have hcds : ((t :: ds).count t : ℤ) = (ds.count t : ℤ) + 1 := by
      rw [List.count_cons_self]
      push_cast
      ring
    rw [kahnStep_cons]
    dsimp only
    rw [jsGet_map_fun d ids t, if_pos ht]
    simp only [Option.getD_some]
    rw [jsSet_map_fun d (d t - 1) ids t hnodup ht]
    by_cases hz : d t - 1 = 0
    · rw [if_pos (by simpa using hz)]
      have hnn2 : ∀ v, 0 ≤ (if v = t then d t - 1 else d v) -
          (ds.count v : ℤ) := by
        intro v
        by_cases hv : v = t
        · subst hv
          have := hnn v
          rw [hcds] at this
          rw [if_pos rfl]
          omega
        · have := hnn v
          rw [List.count_cons_of_ne hv] at this
          rw [if_neg hv]
          exact this
      obtain ⟨new, heq, hnd, hchar, hsub⟩ :=
        kahnStep_spec ids hnodup ds (fun v => if v = t then d t - 1 else d v)
          (q ++ [t]) (fun v hv => hds v (List.mem_cons_of_mem _ hv)) hnn2
      have htds : ds.count t = 0 := by
        have := hnn t
        rw [hcds] at this
        omega
      have htnotds : t ∉ ds := List.count_eq_zero.mp htds
      have htnotnew : t ∉ new := by
        intro hc
        exact htnotds ((hchar t).mp hc).1
      refine ⟨t :: new, ?_, List.nodup_cons.mpr ⟨htnotnew, hnd⟩, ?_, ?_⟩
      · rw [heq, Prod.mk.injEq]
        refine ⟨List.map_congr_left ?_, by simp⟩
        intro v hv
        by_cases hvt : v = t
        · subst hvt
          rw [if_pos rfl, Prod.mk.injEq]
          refine ⟨rfl, ?_⟩
          rw [hcds]
          ring
        · rw [if_neg hvt, Prod.mk.injEq]
          refine ⟨rfl, ?_⟩
          rw [List.count_cons_of_ne hvt]
      · intro v
        constructor
        · intro hv
          rcases List.mem_cons.mp hv with rfl | hv
          · exact ⟨List.mem_cons_self v ds, by rw [hcds, htds]; omega⟩
          · obtain ⟨hvds, hvd⟩ := (hchar v).mp hv
            have hvt : v ≠ t := fun hc => htnotds (hc ▸ hvds)
            rw [if_neg hvt] at hvd
            exact ⟨List.mem_cons_of_mem _ hvds,
              by rw [List.count_cons_of_ne hvt]; exact hvd⟩
        · rintro ⟨hvds, hvd⟩
          rcases List.mem_cons.mp hvds with rfl | hvds
          · exact List.mem_cons_self v new
          · have hvt : v ≠ t := fun hc => htnotds (hc ▸ hvds)
            rw [List.count_cons_of_ne hvt] at hvd
            exact List.mem_cons_of_mem _ ((hchar v).mpr
              ⟨hvds, by rw [if_neg hvt]; exact hvd⟩)
      · intro v hv
        rcases List.mem_cons.mp hv with rfl | hv
        · exact ht
        · exact hsub v hv
    · rw [if_neg (by simpa using hz)]
      have hnn2 : ∀ v, 0 ≤ (if v = t then d t - 1 else d v) -
          (ds.count v : ℤ) := by
        intro v
        by_cases hv : v = t
        · subst hv
          have := hnn v
          rw [hcds] at this
          rw [if_pos rfl]
          omega
        · have := hnn v
          rw [List.count_cons_of_ne hv] at this
          rw [if_neg hv]
          exact this
      obtain ⟨new, heq, hnd, hchar, hsub⟩ :=
        kahnStep_spec ids hnodup ds (fun v => if v = t then d t - 1 else d v)
          q (fun v hv => hds v (List.mem_cons_of_mem _ hv)) hnn2
      refine ⟨new, ?_, hnd, ?_, hsub⟩
      · rw [heq, Prod.mk.injEq]
        refine ⟨List.map_congr_left ?_, rfl⟩
        intro v hv
        by_cases hvt : v = t
        · subst hvt
          rw [if_pos rfl, Prod.mk.injEq]
          refine ⟨rfl, ?_⟩
          rw [hcds]
          ring
        · rw [if_neg hvt, Prod.mk.injEq]
          refine ⟨rfl, ?_⟩
          rw [List.count_cons_of_ne hvt]
      · intro v
        rw [hchar v]
        constructor
        · rintro ⟨hvds, hvd⟩
          by_cases hvt : v = t
          · subst hvt
            rw [if_pos rfl] at hvd
            exact ⟨List.mem_cons_self v ds, by rw [hcds]; omega⟩
          · rw [if_neg hvt] at hvd
            exact ⟨List.mem_cons_of_mem _ hvds,
              by rw [List.count_cons_of_ne hvt]; exact hvd⟩
        · rintro ⟨hvds, hvd⟩
          by_cases hvt : v = t
          · subst hvt
            rw [hcds] at hvd
            have hcount : ds.count v ≠ 0 := by
              intro h0
              rw [h0] at hvd
              omega
            have hmem : v ∈ ds := by
              by_contra hc
              exact hcount (List.count_eq_zero.mpr hc)
            exact ⟨hmem, by rw [if_pos rfl]; omega⟩
          · rcases List.mem_cons.mp hvds with hvv | hvds2
            · exact absurd hvv hvt
            · rw [List.count_cons_of_ne hvt] at hvd
              exact ⟨hvds2, by rw [if_neg hvt]; exact hvd⟩

/-- `kahnLoop` with positive fuel on an empty queue. -/
lemma kahnLoop_nil (adjList : JSMap (List String)) (fuel : ℕ) (deg : JSMap ℤ)
    (sorted : List String) :
    kahnLoop adjList (fuel + 1) deg [] sorted = (deg, [], sorted) := rfl

/-- One-step unfolding of `kahnLoop` on a non-empty queue. -/
lemma kahnLoop_cons (adjList : JSMap (List String)) (fuel : ℕ) (deg : JSMap ℤ)
    (id : String) (rest sorted : List String) :
    kahnLoop adjList (fuel + 1) deg (id :: rest) sorted =
      kahnLoop adjList fuel
        (kahnStep ((jsGet adjList id).getD []) (deg, rest)).1
        (kahnStep ((jsGet adjList id).getD []) (deg, rest)).2
        (sorted ++ [id]) := rfl

/-- The Kahn loop, started in an invariant-satisfying state with enough
fuel, drains its queue and ends in a state whose emitted list is closed
under the in-degree rule and topologically ordered. -/
lemma kahnLoop_spec (links : List ProjectLink) (ids : List String)
    (hnodup : ids.Nodup)
    (hresolve : ∀ l ∈ links, l.fromId ∈ ids ∧ l.toId ∈ ids) :
    ∀ (fuel : ℕ) (queue sorted : List String),
      (sorted ++ queue).Nodup →
      (∀ v ∈ sorted ++ queue, v ∈ ids) →
      (∀ v ∈ ids, (v ∈ sorted ++ queue ↔ remCount links sorted v = 0)) →
      (∀ l ∈ links, l.toId ∈ sorted →
        l.fromId ∈ sorted ∧ posIn sorted l.fromId < posIn sorted l.toId) →
      ids.length - sorted.length < fuel →
      ∃ S dfin,
        kahnLoop (adjMap links ids) fuel (degMap links ids sorted) queue
          sorted = (dfin, [], S) ∧
        S.Nodup ∧ (∀ v ∈ S, v ∈ ids) ∧
        (∀ v ∈ ids, (v ∈ S ↔ remCount links S v = 0)) ∧
        (∀ l ∈ links, l.toId ∈ S →
          l.fromId ∈ S ∧ posIn S l.fromId < posIn S l.toId) := by
  intro fuel
  induction fuel with
  | zero =>
    intro queue sorted _ _ _ _ hfuel
    omega
  | succ f ih =>
    intro queue sorted hnd hsub hiff hord hfuel
    match queue with
    | [] =>
      refine ⟨sorted, degMap links ids sorted, kahnLoop_nil _ _ _ _, ?_, ?_,
        ?_, hord⟩
      · simpa using hnd
      · intro v hv
        exact hsub v (by simpa using hv)
      · intro v hv
        rw [← hiff v hv]
        simp
    | id :: rest =>
      have hidq : id ∈ sorted ++ (id :: rest) := by simp
      have hidids : id ∈ ids := hsub id hidq
      have hidnotsorted : id ∉ sorted := by
        intro hc
        exact ((List.nodup_append.mp hnd).2.2) hc (by simp)
      have hadj : jsGet (adjMap links ids) id = some (adjOf links id) := by
        rw [adjMap, jsGet_map_fun]
        exact if_pos hidids
      have hnn : ∀ v, 0 ≤ ((remCount links sorted v : ℤ)) -
          ((adjOf links id).count v : ℤ) := by
        intro v
        have := remCount_step links sorted id hidnotsorted v
        omega
      have hds : ∀ v ∈ adjOf links id, v ∈ ids := by
        intro v hv
        rw [adjOf] at hv
        obtain ⟨l, hl, rfl⟩ := List.mem_map.mp hv
        exact (hresolve l (List.mem_filter.mp hl).1).2
      obtain ⟨new, hstepEq, hndnew, hchar, hsubnew⟩ :=
        kahnStep_spec ids hnodup (adjOf links id)
          (fun v => (remCount links sorted v : ℤ)) rest hds hnn
      have hdeg2 : (ids.map (fun v =>
          ((v : String), (remCount links sorted v : ℤ) -
            ((adjOf links id).count v : ℤ)))) =
          degMap links ids (sorted ++ [id]) := by
        rw [degMap]
        apply List.map_congr_left
        intro v hv
        rw [Prod.mk.injEq]
        refine ⟨rfl, ?_⟩
        have := remCount_step links sorted id hidnotsorted v
        omega
      have hrearr : (sorted ++ [id]) ++ (rest ++ new) =
          (sorted ++ id :: rest) ++ new := by
        simp
      have hnewfresh : ∀ v ∈ new, v ∉ sorted ++ (id :: rest) := by
        intro v hv hc
        obtain ⟨hvds, hvd⟩ := (hchar v).mp hv
        have hvc : (adjOf links id).count v ≠ 0 :=
          fun h0 => (List.count_eq_zero.mp h0) hvds
        have hne : remCount links sorted v ≠ 0 := by omega
        exact hne ((hiff v (hsubnew v hv)).mp hc)
      have hnd2 : ((sorted ++ [id]) ++ (rest ++ new)).Nodup := by
        rw [hrearr]
        refine List.nodup_append.mpr ⟨hnd, hndnew, ?_⟩
        intro a ha hanew
        exact hnewfresh a hanew ha
      have hsub2 : ∀ v ∈ (sorted ++ [id]) ++ (rest ++ new), v ∈ ids := by
        intro v hv
        rw [hrearr] at hv
        rcases List.mem_append.mp hv with h | h
        · exact hsub v h
        · exact hsubnew v h
      have hiff2 : ∀ v ∈ ids, (v ∈ (sorted ++ [id]) ++ (rest ++ new) ↔
          remCount links (sorted ++ [id]) v = 0) := by
        intro v hv
        rw [hrearr]
        constructor
        · intro h
          rcases List.mem_append.mp h with h | h
          · have h0 := (hiff v hv).mp h
            have hle := remCount_append_le links sorted [id] v
            omega
          · obtain ⟨hvds, hvd⟩ := (hchar v).mp h
            have := remCount_step links sorted id hidnotsorted v
            omega
        · intro h0
          by_cases hs0 : remCount links sorted v = 0
          · exact List.mem_append.mpr (Or.inl ((hiff v hv).mpr hs0))
          · have hcnt := remCount_step links sorted id hidnotsorted v
            have hvc : (adjOf links id).count v ≠ 0 := by omega
            have hvds : v ∈ adjOf links id := by
              by_contra hc
              exact hvc (List.count_eq_zero.mpr hc)
            refine List.mem_append.mpr (Or.inr ((hchar v).mpr ⟨hvds, ?_⟩))
            omega
      have hord2 : ∀ l ∈ links, l.toId ∈ sorted ++ [id] →
          l.fromId ∈ sorted ++ [id] ∧
          posIn (sorted ++ [id]) l.fromId < posIn (sorted ++ [id]) l.toId := by
        intro l hl hto
        rcases List.mem_append.mp hto with h | h
        · obtain ⟨hfm, hplt⟩ := hord l hl h
          refine ⟨List.mem_append.mpr (Or.inl hfm), ?_⟩
          rw [posIn_append_left _ _ _ hfm, posIn_append_left _ _ _ h]
          exact hplt
        · rcases List.mem_singleton.mp h with rfl
          have h0 : remCount links sorted l.toId = 0 :=
            (hiff l.toId hidids).mp hidq
          have hfm : l.fromId ∈ sorted :=
            (remCount_eq_zero_iff links sorted l.toId).mp h0 l hl rfl
          refine ⟨List.mem_append.mpr (Or.inl hfm), ?_⟩
          rw [posIn_append_left _ _ _ hfm,
            posIn_append_self _ _ hidnotsorted]
          exact posIn_lt_length _ _ hfm
      have hlen2 : (sorted ++ [id]).length ≤ ids.length := by
        have hpre : List.Sublist (sorted ++ [id])
            ((sorted ++ [id]) ++ (rest ++ new)) :=
          (List.prefix_append _ _).sublist
        have hndp : (sorted ++ [id]).Nodup := hnd2.sublist hpre
        have hsubp : (sorted ++ [id]) ⊆ ids := by
          intro a ha
          exact hsub2 a (hpre.subset ha)
        exact (List.subperm_of_subset hndp hsubp).length_le
      have hfuel2 : ids.length - (sorted ++ [id]).length < f := by
        have : (sorted ++ [id]).length = sorted.length + 1 := by simp
        omega
      obtain ⟨S, dfin, hSeq, hS1, hS2, hS3, hS4⟩ :=
        ih (rest ++ new) (sorted ++ [id]) hnd2 hsub2 hiff2 hord2 hfuel2
      refine ⟨S, dfin, ?_, hS1, hS2, hS3, hS4⟩
      rw [kahnLoop_cons, hadj]
      simp only [Option.getD_some, degMap]
      rw [hstepEq]
      dsimp only
      rw [hdeg2]
      exact hSeq

/-- `remCount` with nothing emitted is the plain in-degree. -/
lemma remCount_nil_eq (links : List ProjectLink) (v : String) :
    remCount links [] v = links.countP (fun l => decide (l.toId = v)) := by
  rw [remCount]
  apply List.countP_congr
  intro l _
  simp

/-- Full-run characterization of `topologicalSort`: the algorithm
computes an emitted list `S` that is duplicate-free, made of node ids,
closed under the zero-remaining-in-degree rule, topologically ordered,
and accepts iff `S` exhausts the nodes. -/
lemma topologicalSort_run (nodes : List ProjectNode) (links : List ProjectLink)
    (hnodup : (nodeIds nodes).Nodup)
    (hresolve : ∀ l ∈ links,
      l.fromId ∈ nodeIds nodes ∧ l.toId ∈ nodeIds nodes) :
    ∃ S,
      topologicalSort nodes links =
        (if S.length ≠ nodes.length then
          .error "Cycle detected in routing diagram" else .ok S) ∧
      S.Nodup ∧ (∀ v ∈ S, v ∈ nodeIds nodes) ∧
      (∀ v ∈ nodeIds nodes, (v ∈ S ↔ remCount links S v = 0)) ∧
      (∀ l ∈ links, l.toId ∈ S →
        l.fromId ∈ S ∧ posIn S l.fromId < posIn S l.toId) := by
  have hdeg0 : nodes.foldl (fun m n => jsSet m n.id 0) ([] : JSMap ℤ) =
      (nodeIds nodes).map (fun v => (v, (0 : ℤ))) := by
    rw [foldl_jsSet_fresh (fun _ => (0 : ℤ)) nodes [] (by simp) hnodup]
    simp [nodeIds, List.map_map, Function.comp_def]
  have hadj0 : nodes.foldl (fun m n => jsSet m n.id [])
      ([] : JSMap (List String)) =
      (nodeIds nodes).map (fun u => (u, ([] : List String))) := by
    rw [foldl_jsSet_fresh (fun _ => ([] : List String)) nodes [] (by simp)
      hnodup]
    simp [nodeIds, List.map_map, Function.comp_def]
  have hmaps := links_fold (nodeIds nodes) hnodup links (fun _ => (0 : ℤ))
    (fun _ => ([] : List String)) hresolve
  have hdm : (nodeIds nodes).map (fun v =>
      ((v : String), (0 : ℤ) +
        (links.countP (fun l => decide (l.toId = v)) : ℤ))) =
      degMap links (nodeIds nodes) [] := by
    rw [degMap]
    apply List.map_congr_left
    intro v hv
    rw [Prod.mk.injEq]
    refine ⟨rfl, ?_⟩
    rw [remCount_nil_eq]
    ring
  have ham : (nodeIds nodes).map (fun u =>
      ((u : String), ([] : List String) ++ adjOf links u)) =
      adjMap links (nodeIds nodes) := by
    rw [adjMap]
    apply List.map_congr_left
    intro u hu
    rw [Prod.mk.injEq]
    exact ⟨rfl, by simp⟩
  have hlenids : (nodeIds nodes).length = nodes.length := by
    rw [nodeIds, List.length_map]
  -- the initial queue
  obtain ⟨Q, hQdef⟩ : ∃ Q, (nodeIds nodes).filter
      (fun v => ((fun _ => (0 : ℤ)) v +
        (links.countP (fun l => decide (l.toId = v)) : ℤ)) == 0) = Q :=
    ⟨_, rfl⟩
  have hQmem : ∀ v, v ∈ Q ↔ v ∈ nodeIds nodes ∧ remCount links [] v = 0 := by
    intro v
    rw [← hQdef, List.mem_filter]
    constructor
    · rintro ⟨h1, h2⟩
      simp only [beq_iff_eq] at h2
      rw [remCount_nil_eq]
      exact ⟨h1, by omega⟩
    · rintro ⟨h1, h2⟩
      rw [remCount_nil_eq] at h2
      refine ⟨h1, ?_⟩
      simp only [beq_iff_eq]
      omega
  have hQnd : Q.Nodup := by
    rw [← hQdef]
    exact hnodup.filter _
  obtain ⟨S, dfin, hloop, hS1, hS2, hS3, hS4⟩ :=
    kahnLoop_spec links (nodeIds nodes) hnodup hresolve
      (nodes.length + links.length + 1) Q []
      (by simpa using hQnd)
      (by
        intro v hv
        exact ((hQmem v).mp (by simpa using hv)).1)
      (by
        intro v hv
        rw [List.nil_append]
        rw [hQmem v]
        constructor
        · rintro ⟨_, h⟩
          exact h
        · intro h
          exact ⟨hv, h⟩)
      (by
        intro l hl hto
        exact absurd hto (by simp))
      (by
        rw [hlenids]
        simp
        omega)
  refine ⟨S, ?_, hS1, hS2, hS3, hS4⟩
  rw [topologicalSort]
  rw [hdeg0, hadj0, hmaps]
  dsimp only
  rw [filter_map_zero, hQdef, hdm, ham, hloop]

/--
Claim-id: C2 (amended).
`topologicalSort`, on a node list with unique identifiers AND a link
list whose endpoints all refer to existing node ids, either returns a
permutation of the node ids in which, for every link u → v, u appears
strictly before v, or throws the cycle error; and it throws exactly when
the link graph restricted to the given nodes contains a cycle.  The
additional links-resolve hypothesis is necessary: a link to a
nonexistent id corrupts the in-degree bookkeeping and produces the
cycle error on an acyclic input (see the C2 counterexample below).
-/
theorem topologicalSort_spec (nodes : List ProjectNode)
    (links : List ProjectLink)
    (hnodup : (nodeIds nodes).Nodup)
    (hresolve : ∀ l ∈ links,
      l.fromId ∈ nodeIds nodes ∧ l.toId ∈ nodeIds nodes) :
    (∀ order, topologicalSort nodes links = .ok order →
      order.Perm (nodeIds nodes) ∧
      ∀ l ∈ links, posIn order l.fromId < posIn order l.toId) ∧
    (topologicalSort nodes links = .error "Cycle detected in routing diagram"
      ↔ hasCycle nodes links) := by
  obtain ⟨S, hTS, hSnd, hSsub, hScl, hSord⟩ :=
    topologicalSort_run nodes links hnodup hresolve
  have hlenids : (nodeIds nodes).length = nodes.length := by
    rw [nodeIds, List.length_map]
  by_cases hlen : S.length ≠ nodes.length
  · rw [if_pos hlen] at hTS
    constructor
    · intro order hok
      rw [hTS] at hok
      exact absurd hok (by simp)
    · rw [hTS]
      constructor
      · intro _
        have hmiss : ∃ w, w ∈ nodeIds nodes ∧ w ∉ S := by
          by_contra hc
          push_neg at hc
          have h1 : List.Subperm (nodeIds nodes) S :=
            List.subperm_of_subset hnodup hc
          have h2 : List.Subperm S (nodeIds nodes) :=
            List.subperm_of_subset hSnd hSsub
          have h3 := h1.length_le
          have h4 := h2.length_le
          omega
        obtain ⟨w0, hw0ids, hw0S⟩ := hmiss
        have hstepR : ∀ x : {v // v ∈ nodeIds nodes ∧ v ∉ S},
            ∃ y : {v // v ∈ nodeIds nodes ∧ v ∉ S},
              linkEdge links y.1 x.1 := by
          rintro ⟨x, hxids, hxS⟩
          have hne : remCount links S x ≠ 0 := by
            intro h0
            exact hxS ((hScl x hxids).mpr h0)
          have hnotall : ¬ ∀ l ∈ links, l.toId = x → l.fromId ∈ S := by
            intro hall
            exact hne ((remCount_eq_zero_iff links S x).mpr hall)
          push_neg at hnotall
          obtain ⟨l, hl, hto, hfrom⟩ := hnotall
          exact ⟨⟨l.fromId, (hresolve l hl).1, hfrom⟩, ⟨l, hl, rfl, hto⟩⟩
        choose g hg using hstepR
        have hseqedge : ∀ k, restrictedEdge nodes links
            (g^[k + 1] ⟨w0, hw0ids, hw0S⟩).1
            (g^[k] ⟨w0, hw0ids, hw0S⟩).1 := by
          intro k
          rw [Function.iterate_succ_apply']
          exact ⟨hg (g^[k] ⟨w0, hw0ids, hw0S⟩),
            (g (g^[k] ⟨w0, hw0ids, hw0S⟩)).2.1,
            (g^[k] ⟨w0, hw0ids, hw0S⟩).2.1⟩
        have hpath : ∀ (dd i : ℕ),
            Relation.TransGen (restrictedEdge nodes links)
              ((g^[i + dd + 1] ⟨w0, hw0ids, hw0S⟩).1)
              ((g^[i] ⟨w0, hw0ids, hw0S⟩).1) := by
          intro dd
          induction dd with
          | zero =>
            intro i
            exact Relation.TransGen.single (hseqedge i)
          | succ dd ihd =>
            intro i
            exact Relation.TransGen.head (hseqedge (i + dd + 1)) (ihd i)
        have hmapsto : ∀ k ∈ Finset.range ((nodeIds nodes).toFinset.card + 1),
            (g^[k] ⟨w0, hw0ids, hw0S⟩).1 ∈ (nodeIds nodes).toFinset := by
          intro k _
          rw [List.mem_toFinset]
          exact (g^[k] ⟨w0, hw0ids, hw0S⟩).2.1
        obtain ⟨i, hi, j, hj, hne, heq⟩ :=
          Finset.exists_ne_map_eq_of_card_lt_of_maps_to
            (by rw [Finset.card_range]; omega) hmapsto
        rcases Nat.lt_or_ge i j with hij | hij
        · refine ⟨(g^[i] ⟨w0, hw0ids, hw0S⟩).1, ?_⟩
          have hp := hpath (j - i - 1) i
          rw [show i + (j - i - 1) + 1 = j from by omega] at hp
          rw [← heq] at hp
          exact hp
        · have hij2 : j < i := by
            rcases Nat.lt_or_ge j i with h | h
            · exact h
            · exact absurd (Nat.le_antisymm h hij) hne
          refine ⟨(g^[j] ⟨w0, hw0ids, hw0S⟩).1, ?_⟩
          have hp := hpath (i - j - 1) j
          rw [show j + (i - j - 1) + 1 = i from by omega] at hp
          rw [heq] at hp
          exact hp
      · intro _
        rfl
  · rw [if_neg hlen] at hTS
    push_neg at hlen
    have hperm : S.Perm (nodeIds nodes) := by
      have hsp : List.Subperm S (nodeIds nodes) :=
        List.subperm_of_subset hSnd hSsub
      exact hsp.perm_of_length_le (by omega)
    have hordS : ∀ l ∈ links, posIn S l.fromId < posIn S l.toId := by
      intro l hl
      have hto : l.toId ∈ S := hperm.mem_iff.mpr (hresolve l hl).2
      exact (hSord l hl hto).2
    constructor
    · intro order hok
      rw [hTS, Except.ok.injEq] at hok
      subst hok
      exact ⟨hperm, hordS⟩
    · constructor
      · intro he
        rw [hTS] at he
        exact absurd he (by simp)
      · intro hcyc
        exfalso
        obtain ⟨v, htg⟩ := hcyc
        have hmono : ∀ a b, restrictedEdge nodes links a b →
            posIn S a < posIn S b := by
          rintro a b ⟨⟨l, hl, hfa, hfb⟩, _, _⟩
          subst hfa
          subst hfb
          exact hordS l hl
        have hlt : ∀ a b,
            Relation.TransGen (restrictedEdge nodes links) a b →
            posIn S a < posIn S b := by
          intro a b h
          induction h with
          | single h1 => exact hmono _ _ h1
          | tail _ h1 ihp => exact lt_trans ihp (hmono _ _ h1)
        exact absurd (hlt v v htg) (lt_irrefl _)

/--
Claim-id: C2 (counterexample).
A single node "A" and a single link A → B whose target is not a node:
the link graph restricted to the nodes has no edge at all (hence no
cycle), yet `topologicalSort` reports the cycle error, because the
dangling link adds a phantom in-degree entry for "B" which is then
emitted, making the emitted count 2 ≠ 1.
-/
theorem topologicalSort_claim_false :
    topologicalSort [.junction "A" "A"] [⟨"l1", "A", "B"⟩] =
      .error "Cycle detected in routing diagram" ∧
    (nodeIds [ProjectNode.junction "A" "A"]).Nodup ∧
    ¬ hasCycle [.junction "A" "A"] [⟨"l1", "A", "B"⟩] := by
  refine ⟨by with_unfolding_all decide, by with_unfolding_all decide, ?_⟩
  rintro ⟨v, htg⟩
  have hnoedge : ∀ a b,
      ¬ restrictedEdge [.junction "A" "A"] [⟨"l1", "A", "B"⟩] a b := by
    rintro a b ⟨⟨l, hl, hfa, hfb⟩, hu, hv⟩
    rcases List.mem_singleton.mp hl with rfl
    subst hfb
    simp [nodeIds, ProjectNode.id] at hv
  have hempty : ∀ a b, ¬ Relation.TransGen
      (restrictedEdge [.junction "A" "A"] [⟨"l1", "A", "B"⟩]) a b := by
    intro a b h
    induction h with
    | single h1 => exact hnoedge _ _ h1
    | tail _ h1 _ => exact hnoedge _ _ h1
  exact hempty v v htg

/-- Witness for C2: a two-node project A → B, via `topologicalSort_spec`:
the sort succeeds with the order ["A", "B"], a permutation of the node
ids in which A precedes B, and the cycle-error equivalence holds. -/
theorem topologicalSort_spec_witness :
    (∀ order,
      topologicalSort [.junction "A" "A", .junction "B" "B"]
        [⟨"l1", "A", "B"⟩] = .ok order →
      order.Perm (nodeIds [.junction "A" "A", .junction "B" "B"]) ∧
      ∀ l ∈ [(⟨"l1", "A", "B"⟩ : ProjectLink)],
        posIn order l.fromId < posIn order l.toId) ∧
    (topologicalSort [.junction "A" "A", .junction "B" "B"]
        [⟨"l1", "A", "B"⟩] = .error "Cycle detected in routing diagram" ↔
      hasCycle [.junction "A" "A", .junction "B" "B"]
        [⟨"l1", "A", "B"⟩]) :=
  topologicalSort_spec [.junction "A" "A", .junction "B" "B"]
    [⟨"l1", "A", "B"⟩] (by with_unfolding_all decide)
    (by
      intro l hl
      rcases List.mem_singleton.mp hl with rfl
      refine ⟨?_, ?_⟩
      · with_unfolding_all decide
      · with_unfolding_all decide)

/-! ## C4 — `runSimulation` error handling -/

/-- `jsGet` after `jsSet`. -/
lemma jsGet_jsSet {α : Type} (k : String) (v : α) :
    ∀ (m : JSMap α) (q : String),
      jsGet (jsSet m k v) q = if q = k then some v else jsGet m q
  | [], q => by
    have hset : jsSet ([] : JSMap α) k v = [(k, v)] := rfl
    rw [hset]
    by_cases hq : q = k
    · rw [if_pos hq]
      simp [jsGet, List.find?, hq]
    · rw [if_neg hq]
      have h1 : (k == q) = false := by
        simp
        exact fun h => hq h.symm
      simp [jsGet, List.find?, h1]
  | e :: rest, q => by
    rw [jsSet]
    by_cases hek : e.1 = k
    · rw [if_pos (by simpa using hek)]
      by_cases hq : q = k
      · rw [if_pos hq]
        have h1 : (k == q) = true := by simp [hq]
        simp [jsGet, List.find?, h1]
      · rw [if_neg hq]
        have h1 : (k == q) = false := by
          simp
          exact fun h => hq h.symm
        have h2 : (e.1 == q) = false := by
          simp
          rw [hek]
          exact fun h => hq h.symm
        simp only [jsGet, List.find?, h1, h2]
    · rw [if_neg (by simpa using hek)]
      by_cases heq : e.1 = q
      · have h2 : (e.1 == q) = true := by simp [heq]
        have hq : ¬ q = k := fun h => hek (heq.trans h)
        rw [if_neg hq]
        simp only [jsGet, List.find?, h2]
      · have h2 : (e.1 == q) = false := by simp [heq]
        have hrec := jsGet_jsSet k v rest q
        simp only [jsGet, List.find?, h2]
        simpa [jsGet] using hrec

/-- A successful `runSimLoop` records a result for every id it visits
(and keeps every result already present). -/
lemma runSimLoop_mem (p : Prims) (project : Project)
    (event : RainfallEventDef) (nodeMap : JSMap ProjectNode) :
    ∀ (order : List String) (results res : JSMap NodeResult),
      runSimLoop p project event nodeMap order results = .ok res →
      ∀ id, (id ∈ order ∨ (jsGet results id).isSome) →
        (jsGet res id).isSome
  | [], results, res, h, id, hmem => by
    simp only [runSimLoop, Except.ok.injEq] at h
    subst h
    rcases hmem with h | h
    · exact absurd h (by simp)
    · exact h
  | nodeId :: rest, results, res, h, id, hmem => by
    rw [runSimLoop] at h
    cases hm : jsGet nodeMap nodeId with
    | none =>
      simp only [hm] at h
      exact absurd h (by simp)
    | some node =>
      simp only [hm] at h
      cases hc : computeNode p node event
          (getInflowHydrograph nodeId project results) with
      | error e =>
        simp only [hc] at h
        exact absurd h (by simp)
      | ok result =>
        simp only [hc] at h
        refine runSimLoop_mem p project event nodeMap rest
          (jsSet results nodeId result) res h id ?_
        rcases hmem with hmem | hmem
        · rcases List.mem_cons.mp hmem with rfl | hmem
          · refine Or.inr ?_
            rw [jsGet_jsSet, if_pos rfl]
            rfl
          · exact Or.inl hmem
        · refine Or.inr ?_
          rw [jsGet_jsSet]
          by_cases hq : id = nodeId
          · rw [if_pos hq]
            rfl
          · rw [if_neg hq]
            exact hmem

/-- A cycle in the restricted link graph forces the sort to throw
(shared helper for the router theorems). -/
lemma topologicalSort_error_of_hasCycle (nodes : List ProjectNode)
    (links : List ProjectLink)
    (hnodup : (nodeIds nodes).Nodup)
    (hresolve : ∀ l ∈ links,
      l.fromId ∈ nodeIds nodes ∧ l.toId ∈ nodeIds nodes)
    (hcyc : hasCycle nodes links) :
    topologicalSort nodes links =
      .error "Cycle detected in routing diagram" := by
  obtain ⟨S, hTS, hSnd, hSsub, hScl, hSord⟩ :=
    topologicalSort_run nodes links hnodup hresolve
  have hlenids : (nodeIds nodes).length = nodes.length := by
    rw [nodeIds, List.length_map]
  by_cases hlen : S.length ≠ nodes.length
  · rw [if_pos hlen] at hTS
    exact hTS
  · exfalso
    rw [if_neg hlen] at hTS
    push_neg at hlen
    have hperm : S.Perm (nodeIds nodes) := by
      have hsp : List.Subperm S (nodeIds nodes) :=
        List.subperm_of_subset hSnd hSsub
      exact hsp.perm_of_length_le (by omega)
    obtain ⟨v, htg⟩ := hcyc
    have hmono : ∀ a b, restrictedEdge nodes links a b →
        posIn S a < posIn S b := by
      rintro a b ⟨⟨l, hl, hfa, hfb⟩, _, _⟩
      subst hfa
      subst hfb
      have hto : l.toId ∈ S := hperm.mem_iff.mpr (hresolve l hl).2
      exact (hSord l hl hto).2
    have hlt : ∀ a b, Relation.TransGen (restrictedEdge nodes links) a b →
        posIn S a < posIn S b := by
      intro a b h
      induction h with
      | single h1 => exact hmono _ _ h1
      | tail _ h1 ihp => exact lt_trans ihp (hmono _ _ h1)
    exact absurd (hlt v v htg) (lt_irrefl _)

/--
Claim-id: C4.
`runSimulation` fails with "Event not found" whenever the event id
matches no event, and returns no results map whenever the (resolving)
link graph has a cycle; whereas a pond or reach node whose inflow has
fewer than 2 samples is not an error: `computeNode` records the
zero-valued result (empty outflow hydrograph, peak outflow 0,
time-to-peak 0, total volume 0) and a successful run records a result
for every node of the project.
-/
theorem runSimulation_spec (p : Prims) (project : Project)
    (eventId : String)
    (hnodup : (nodeIds project.nodes).Nodup)
    (hresolve : ∀ l ∈ project.links,
      l.fromId ∈ nodeIds project.nodes ∧ l.toId ∈ nodeIds project.nodes) :
    (project.events.find? (fun e => e.id == eventId) = none →
      runSimulation p project eventId = .error "Event not found") ∧
    (hasCycle project.nodes project.links →
      ∀ res, runSimulation p project eventId ≠ .ok res) ∧
    (∀ id name ss outs wse ev inflow, inflow.length < 2 →
      computeNode p (.pond id name ss outs wse) ev inflow =
        .ok (emptyNodeResult id)) ∧
    (∀ id name len mn sl sh ev inflow, inflow.length < 2 →
      computeNode p (.reach id name len mn sl sh) ev inflow =
        .ok (emptyNodeResult id)) ∧
    (∀ id, emptyNodeResult id = ⟨id, [], 0, 0, 0, none, none, none⟩) ∧
    (∀ res, runSimulation p project eventId = .ok res →
      ∀ n ∈ project.nodes, ∃ r, jsGet res.nodeResults n.id = some r) := by
  refine ⟨?_, ?_, ?_, ?_, fun id => rfl, ?_⟩
  · intro hev
    simp only [runSimulation, hev]
  · intro hcyc res hok
    simp only [runSimulation] at hok
    cases hev : project.events.find? (fun e => e.id == eventId) with
    | none =>
      simp only [hev] at hok
      exact absurd hok (by simp)
    | some ev =>
      simp only [hev,
        topologicalSort_error_of_hasCycle project.nodes project.links
          hnodup hresolve hcyc] at hok
      exact absurd hok (by simp)
  · intro id name ss outs wse ev inflow hlen
    simp only [computeNode]
    rw [if_pos hlen]
  · intro id name len mn sl sh ev inflow hlen
    simp only [computeNode]
    rw [if_pos hlen]
  · intro res hok n hn
    simp only [runSimulation] at hok
    cases hev : project.events.find? (fun e => e.id == eventId) with
    | none =>
      simp only [hev] at hok
      exact absurd hok (by simp)
    | some ev =>
      simp only [hev] at hok
      cases hts : topologicalSort project.nodes project.links with
      | error e =>
        simp only [hts] at hok
        exact absurd hok (by simp)
      | ok order =>
        simp only [hts] at hok
        cases hrl : runSimLoop p project ev
            (project.nodes.foldl (fun m n => jsSet m n.id n) []) order [] with
        | error e =>
          rw [hrl] at hok
          exact absurd hok (by simp [Except.map])
        | ok results =>
          rw [hrl] at hok
          simp only [Except.map, Except.ok.injEq] at hok
          obtain ⟨S, hTS, hSnd, hSsub, hScl, hSord⟩ :=
            topologicalSort_run project.nodes project.links hnodup hresolve
          rw [hts] at hTS
          by_cases hlen : S.length ≠ project.nodes.length
          · rw [if_pos hlen] at hTS
            exact absurd hTS (by simp)
          · rw [if_neg hlen] at hTS
            push_neg at hlen
            rw [Except.ok.injEq] at hTS
            subst hTS
            have hlenids : (nodeIds project.nodes).length =
                project.nodes.length := by
              rw [nodeIds, List.length_map]
            have hperm : order.Perm (nodeIds project.nodes) := by
              have hsp : List.Subperm order (nodeIds project.nodes) :=
                List.subperm_of_subset hSnd hSsub
              exact hsp.perm_of_length_le (by omega)
            have hmem : n.id ∈ order :=
              hperm.mem_iff.mpr (List.mem_map_of_mem ProjectNode.id hn)
            have hsome := runSimLoop_mem p project ev
              (project.nodes.foldl (fun m n => jsSet m n.id n) []) order []
              results hrl n.id (Or.inl hmem)
            rw [← hok]
            obtain ⟨r, hr⟩ := Option.isSome_iff_exists.mp hsome
            exact ⟨r, hr⟩

/-- Witness for C4: the specification instantiated at a one-junction
project with a single event, via `runSimulation_spec`. -/
theorem runSimulation_spec_witness :
    (sampleProject.events.find? (fun e => e.id == "e1") = none →
      runSimulation idPrims sampleProject "e1" = .error "Event not found") ∧
    (hasCycle sampleProject.nodes sampleProject.links →
      ∀ res, runSimulation idPrims sampleProject "e1" ≠ .ok res) ∧
    (∀ id name ss outs wse ev inflow, inflow.length < 2 →
      computeNode idPrims (.pond id name ss outs wse) ev inflow =
        .ok (emptyNodeResult id)) ∧
    (∀ id name len mn sl sh ev inflow, inflow.length < 2 →
      computeNode idPrims (.reach id name len mn sl sh) ev inflow =
        .ok (emptyNodeResult id)) ∧
    (∀ id, emptyNodeResult id = ⟨id, [], 0, 0, 0, none, none, none⟩) ∧
    (∀ res, runSimulation idPrims sampleProject "e1" = .ok res →
      ∀ n ∈ sampleProject.nodes, ∃ r, jsGet res.nodeResults n.id = some r) :=
  runSimulation_spec idPrims sampleProject "e1"
    (by with_unfolding_all decide) (by with_unfolding_all decide)

end Stormlab
